import Mathlib

/-!
# proCHK: signature carving, text fallback and output naming

A shallow embedding of `proCHK.go`.  Byte slices are lists of naturals (one
natural per byte), Go strings are Lean strings, the package-level registry
`signatures` is threaded explicitly while it is built, and the file system,
the console and the log file are fields of an explicit `World` value.
-/

namespace ProCHK

/-! ## Data model -/

/-- Go `type Signature struct` with the fields `Extension string`, `Header []byte` and
`Contains []byte`. -/
structure Signature where
  Extension : String
  Header : List Nat
  Contains : List Nat
deriving DecidableEq

/-- One call of `saveRecoveredFile` made by `processFile`: the extension tag and the payload. -/
abbrev Artifact := String × List Nat

/-! ## Library functions of package `bytes` -/

/-- Go `bytes.HasPrefix(s, prefix)`:
`len(s) >= len(prefix) && Equal(s[0:len(prefix)], prefix)`. -/
def bytesHasPrefix (s pre : List Nat) : Bool :=
  decide (s.length ≥ pre.length) && (s.take pre.length == pre)

/-- Go `bytes.Index(s, sep)` started at position `j` of the original slice: the index of the
first instance of `sep`, or `-1`.  The candidate positions are tried from left to right. -/
def bytesIndexFrom (sep : List Nat) (j : Nat) : List Nat → Int
  | [] => if sep.length = 0 then (j : Int) else -1
  | b :: t => if bytesHasPrefix (b :: t) sep then (j : Int) else bytesIndexFrom sep (j + 1) t

/-- Go `bytes.Index(s, sep)`. -/
def bytesIndex (s sep : List Nat) : Int :=
  bytesIndexFrom sep 0 s

/-- Go `bytes.Contains(b, subslice)`: `Index(b, subslice) != -1`. -/
def bytesContains (b subslice : List Nat) : Bool :=
  bytesIndex b subslice != -1

/-! ## The registry -/

/-- Go `encoding/hex`: the value of one hexadecimal digit, `none` for any other character. -/
def fromHexChar (c : Char) : Option Nat :=
  if '0' ≤ c ∧ c ≤ '9' then some (c.toNat - '0'.toNat)
  else if 'a' ≤ c ∧ c ≤ 'f' then some (c.toNat - 'a'.toNat + 10)
  else if 'A' ≤ c ∧ c ≤ 'F' then some (c.toNat - 'A'.toNat + 10)
  else none

/-- Go `hex.Decode` on the characters of the source: two digits per byte; an invalid digit or an
odd length is an error (`none`). -/
def hexDecode : List Char → Option (List Nat)
  | [] => some []
  | [_] => none
  | p :: q :: rest =>
    match fromHexChar p, fromHexChar q with
    | some a, some b =>
      match hexDecode rest with
      | some bs => some ((a * 16 + b) :: bs)
      | none => none
    | _, _ => none

/-- Go `hex.DecodeString(s)`; `none` stands for a non-nil `err`. -/
def hexDecodeString (s : String) : Option (List Nat) :=
  hexDecode s.data

/-- Go `addSignature(ext, headerHex, containsHex)` on the registry `signatures`.
`none` stands for the process abort of `log.Fatalf`. -/
def addSignature (ext headerHex containsHex : String) (signatures : List Signature) :
    Option (List Signature) :=
  match hexDecodeString headerHex with
  | none => none
  | some header =>
    if containsHex ≠ "" then
      match hexDecodeString containsHex with
      | none => none
      | some contains => some (signatures ++ [⟨ext, header, contains⟩])
    else
      some (signatures ++ [⟨ext, header, []⟩])

/-- Go `initializeSignatures()`: the compiled-in calls of `addSignature`, in source order. -/
def initializeSignatures (signatures : List Signature) : Option (List Signature) :=
  some signatures
    >>= addSignature "JPG" "ffd8" "4a464946"
    >>= addSignature "EXIF.JPG" "ffd8" "45786966"
    >>= addSignature "PNG" "89504e470d0a1a" ""
    >>= addSignature "GIF" "47494638" ""
    >>= addSignature "TIF" "49492a00" ""
    >>= addSignature "TIF" "4d4d002a" ""
    >>= addSignature "BMP" "424d" ""
    >>= addSignature "PSD" "38425053" ""
    >>= addSignature "WEBP" "52494646" "57454250"
    >>= addSignature "HEIC" "000000" "6674797068656963"
    >>= addSignature "AVIF" "000000" "6674797061766966"
    >>= addSignature "CR2" "49492a00" "4352"
    >>= addSignature "NEF" "4d4d002a" "4e696b6f6e"
    >>= addSignature "AI" "25215053" ""
    >>= addSignature "EPS" "c5d0d3c6" ""
    >>= addSignature "3DS" "4d4d" ""
    >>= addSignature "FPX" "d0cf11e0" "49006d006100670065"
    >>= addSignature "PSP" "5061696e742053686f702050726f" ""
    >>= addSignature "WPG" "ff575043" ""
    >>= addSignature "WAV" "52494646" "57415645"
    >>= addSignature "MP3" "494433" ""
    >>= addSignature "MID" "4d546864" "4d54726b"
    >>= addSignature "FLAC" "664C6143" ""
    >>= addSignature "M4A" "000000" "667479704d344120"
    >>= addSignature "OGG" "4f676753" ""
    >>= addSignature "RMI" "52494646" "524d4944"
    >>= addSignature "AVI" "52494646" "415649"
    >>= addSignature "MP4" "000000" "66747970"
    >>= addSignature "WebM" "1a45dfa3" "7765626d"
    >>= addSignature "MKV" "1a45dfa3" ""
    >>= addSignature "MOV" "000000" "6674797071742020"
    >>= addSignature "WMV" "3026b2758e66cf11" "415346"
    >>= addSignature "FLV" "464c5601" ""
    >>= addSignature "MPG" "000001b3" ""
    >>= addSignature "MPEG" "000001ba" ""
    >>= addSignature "ASF" "3026b2758e66cf11a6d900aa0062ce6c" ""
    >>= addSignature "SWF" "465753" ""
    >>= addSignature "3GP" "000000" "667479703367"
    >>= addSignature "DOC" "d0cf11e0a1b11ae1" "4d6963726f736f667420576f7264"
    >>= addSignature "XLS" "d0cf11e0a1b11ae1" "4d6963726f736f667420457863656c"
    >>= addSignature "PPT" "d0cf11e0a1b11ae1" "4d6963726f736f667420506f776572506f696e74"
    >>= addSignature "PST" "2142444e" ""
    >>= addSignature "WRI" "31be" "00002e0d0a"
    >>= addSignature "DOCX" "504B0304" "776F72642F"
    >>= addSignature "XLSX" "504B0304" "786C2F"
    >>= addSignature "PPTX" "504B0304" "7070742F"
    >>= addSignature "ODT" "504B0304"
      "6d696d65747970656170706c69636174696f6e2f766e642e6f617369732e6f70656e646f63756d656e742e74657874"
    >>= addSignature "ODS" "504B0304"
      "6d696d65747970656170706c69636174696f6e2f766e642e6f617369732e6f70656e646f63756d656e742e7370726561647368656574"
    >>= addSignature "ODP" "504B0304"
      "6d696d65747970656170706c69636174696f6e2f766e642e6f617369732e6f70656e646f63756d656e742e70726573656e746174696f6e"
    >>= addSignature "ODG" "504B0304"
      "6d696d65747970656170706c69636174696f6e2f766e642e6f617369732e6f70656e646f63756d656e742e6772617068696373"
    >>= addSignature "PDF" "25504446" ""
    >>= addSignature "EPUB" "504B0304" "6d696d65747970656170706c69636174696f6e2f657075622b7a6970"
    >>= addSignature "TTF" "0001000000" ""
    >>= addSignature "OTF" "4f5454f0" ""
    >>= addSignature "RAR" "52617221" ""
    >>= addSignature "7z" "377abcaf271c" ""
    >>= addSignature "GZ" "1f8b" ""
    >>= addSignature "ACE" "2a2a4143452a2a" ""
    >>= addSignature "ZIP" "504B0304" ""
    >>= addSignature "CAB" "4d534346" ""
    >>= addSignature "MDB" "000100005374616e64617264204a6574204442" ""
    >>= addSignature "ACCDB" "000100005374616e6461726420414345204442" ""
    >>= addSignature "SQLite3" "53514c69746520666f726d6174203300" ""
    >>= addSignature "DWG" "41433130" ""
    >>= addSignature "NC" "434446" ""
    >>= addSignature "PY" "2321" "707974686f6e"
    >>= addSignature "SH" "2321" "2f62696e2f"
    >>= addSignature "CLASS" "cafebabe" ""
    >>= addSignature "BDSPROJ" "3c3f786d6c" "426f726c616e6450726f6a656374"
    >>= addSignature "VCF" "424547494e3a5643415244" ""
    >>= addSignature "ICS" "424547494e3a5643414c454e444152" ""
    >>= addSignature "TORRENT" "64383a616e6e6f756e6365" ""
    >>= addSignature "EXE" "4d5a" ""
    >>= addSignature "DLL" "4d5a" ""
    >>= addSignature "OCX" "4d5a" "446c6c5265676973746572536572766572"
    >>= addSignature "RTF" "7b5c727466" "7b5c666f6e7474626c"
    >>= addSignature "CHM" "49545346" ""
    >>= addSignature "HLP" "3f5f0300" ""
    >>= addSignature "LNK" "4c0000000114020000000000c0000000" ""
    >>= addSignature "URL" "5b496e7465726e657453686f72746375745d" ""
    >>= addSignature "CDR" "52494646" "434452"
    >>= addSignature "HTML" "3c21444f4354595045" ""
    >>= addSignature "HTM" "3c68746d6c" ""
    >>= addSignature "CLP" "50c30100" ""

/-- The package variable `signatures` as `main` leaves it after `initializeSignatures()`,
starting from the empty registry. -/
def signatures : List Signature :=
  (initializeSignatures []).getD []

/-! ## The carving loop of `processFile` -/

/-- The test made by the body of the inner loop of `processFile` for offset `i` and signature
`sig`: the header test, then `containsMatch`. -/
def signatureMatches (data : List Nat) (i : Nat) (sig : Signature) : Bool :=
  if decide (i + sig.Header.length ≤ data.length) && bytesHasPrefix (data.drop i) sig.Header then
    let containsMatch :=
      if sig.Contains.length > 0 then
        if !bytesContains (data.drop (i + sig.Header.length)) sig.Contains then false else true
      else true
    containsMatch
  else false

/-- The inner loop `for _, sig := range signatures` of `processFile` at offset `i`: the calls
of `saveRecoveredFile` it makes, in order. -/
def carveSignatures (data : List Nat) (i : Nat) : List Signature → List Artifact
  | [] => []
  | sig :: rest =>
    if signatureMatches data i sig then
      (sig.Extension, data.drop i) :: carveSignatures data i rest
    else carveSignatures data i rest

/-- The outer loop `for i := 0; i < len(data); i++` of `processFile`, with `n` iterations left
and the current offset `i`. -/
def carveOffsets (sigs : List Signature) (data : List Nat) : Nat → Nat → List Artifact
  | 0, _ => []
  | n + 1, i => carveSignatures data i sigs ++ carveOffsets sigs data n (i + 1)

/-- The carving loop of `processFile` over the registry `sigs`: every call of
`saveRecoveredFile` it makes, in order. -/
def carve (sigs : List Signature) (data : List Nat) : List Artifact :=
  carveOffsets sigs data data.length 0

/-- The match relation of the specification: the header stands at offset `i` and the contains
marker is empty or occurs as a contiguous subsequence of the buffer after the header. -/
def SpecMatch (data : List Nat) (i : Nat) (s : Signature) : Prop :=
  i + s.Header.length ≤ data.length ∧
  (data.drop i).take s.Header.length = s.Header ∧
  (s.Contains = [] ∨ s.Contains <:+: data.drop (i + s.Header.length))

instance instDecidableSpecMatch (data : List Nat) (i : Nat) (s : Signature) :
    Decidable (SpecMatch data i s) := by
  unfold SpecMatch; infer_instance

/-- The artifact list of the specification: offsets ascending, then registry order, one
artifact `(s.Extension, data[i..])` per match `(i, s)`. -/
def carveSpec (sigs : List Signature) (data : List Nat) : List Artifact :=
  (List.range data.length).flatMap fun i =>
    (sigs.filter fun s => decide (SpecMatch data i s)).map fun s => (s.Extension, data.drop i)

/-! ## The text classifier -/

/-- The byte test of `isLikelyTextFile`: `(b >= 32 && b <= 126) || b == 9 || b == 10 || b == 13`. -/
def isTextByte (b : Nat) : Bool :=
  (decide (b ≥ 32) && decide (b ≤ 126)) || b == 9 || b == 10 || b == 13

/-- The counting loop of `isLikelyTextFile`: `textByteCount` after `for _, b := range data`. -/
def textByteCount (data : List Nat) : Nat :=
  data.foldl (fun count b => if isTextByte b then count + 1 else count) 0

/-- What the embedding assumes of the rounding `rnd` of a real quotient to a `float64`: it is
monotone, and it leaves every value `m / 2^e` with `m < 2^53` and `e ≤ 1022` unchanged (such a
value is a `float64`).  Round-to-nearest has both properties. -/
structure IsFloat64Rounding (rnd : ℚ → ℚ) : Prop where
  mono : ∀ x y : ℚ, x ≤ y → rnd x ≤ rnd y
  exact : ∀ m e : Nat, m < 2 ^ 53 → e ≤ 1022 → rnd ((m : ℚ) / 2 ^ e) = (m : ℚ) / 2 ^ e

/-- Go `isLikelyTextFile(data)`.  The conversions `float64(totalBytes)` and
`float64(textByteCount)` are exact (both are at most 1048576 here); the quotient is the real
quotient rounded by `rnd`; the constant `1.25` is the rational `5/4`. -/
def isLikelyTextFile (rnd : ℚ → ℚ) (data : List Nat) : Bool :=
  let totalBytes := data.length
  if totalBytes = 0 ∨ totalBytes > 1048576 then false
  else
    let count := textByteCount data
    if count = 0 then false
    else
      let ratio : ℚ := rnd ((totalBytes : ℚ) / (count : ℚ))
      decide (ratio < 5 / 4)

/-! ## Library functions of packages `strings` and `path/filepath` (Unix separator) -/

/-- Go `strings.TrimSuffix(s, suffix)`. -/
def trimSuffix (s suffix : String) : String :=
  if suffix.data <:+ s.data then ⟨s.data.take (s.data.length - suffix.data.length)⟩ else s

/-- The loop of Go `filepath.Ext`, run over the reversed path: `acc` holds the characters
already passed, in path order. -/
def extLoop : List Char → List Char → List Char
  | [], _ => []
  | c :: r, acc =>
    if c = '/' then [] else if c = '.' then c :: acc else extLoop r (c :: acc)

/-- Go `filepath.Ext(path)`: the suffix beginning at the final dot of the final element of
`path`, empty if there is no dot. -/
def filepathExt (path : String) : String :=
  ⟨extLoop path.data.reverse []⟩

/-- The elements of a path between its separators. -/
def splitSlash : List Char → List (List Char)
  | [] => [[]]
  | c :: cs =>
    if c = '/' then [] :: splitSlash cs
    else
      match splitSlash cs with
      | [] => [[c]]
      | h :: t => (c :: h) :: t

/-- One element processed by Go `filepath.Clean`: empty and `.` elements are dropped, `..`
removes the element before it when there is one to remove, is dropped at the root and is kept
otherwise; any other element is kept. -/
def cleanStep (rooted : Bool) (out : List (List Char)) (e : List Char) : List (List Char) :=
  if e = [] ∨ e = ['.'] then out
  else if e = ['.', '.'] then
    match out.getLast? with
    | some l => if l = ['.', '.'] then out ++ [e] else out.dropLast
    | none => if rooted then out else out ++ [e]
  else out ++ [e]

/-- The result string of Go `filepath.Clean` for the kept elements `out`. -/
def cleanRender (rooted : Bool) (out : List (List Char)) : List Char :=
  if rooted then '/' :: List.intercalate ['/'] out
  else if out = [] then ['.'] else List.intercalate ['/'] out

/-- Go `filepath.Clean` on the characters of a path. -/
def cleanChars (p : List Char) : List Char :=
  let rooted := decide (p.head? = some '/')
  cleanRender rooted ((splitSlash p).foldl (cleanStep rooted) [])

/-- Go `filepath.Clean(path)`. -/
def filepathClean (path : String) : String :=
  ⟨cleanChars path.data⟩

/-- Go `filepath.Join(a, b)`: the non-empty arguments joined by the separator, then cleaned. -/
def filepathJoin (a b : String) : String :=
  if a ≠ "" then filepathClean (a ++ "/" ++ b)
  else if b ≠ "" then filepathClean b
  else ""

/-- Go `filepath.Base(path)`: the last element of the path, trailing separators removed. -/
def filepathBase (path : String) : String :=
  if path = "" then "."
  else
    let stripped := (path.data.reverse.dropWhile fun c => c = '/').reverse
    let last := (stripped.reverse.takeWhile fun c => c ≠ '/').reverse
    if last = [] then "/" else ⟨last⟩

/-- Go `filepath.Dir(path)`: all but the last element of the path, cleaned. -/
def filepathDir (path : String) : String :=
  filepathClean ⟨(path.data.reverse.dropWhile fun c => c ≠ '/').reverse⟩

/-! ## The world: file system, console and log -/

/-- The state outside the program.  `files` maps a path to the content of the regular file
there, `dirs` marks the paths at which something other than a regular file is (a directory),
`statFails` marks the paths at which `os.Stat` returns an error other than a not-exist error
(a name that is too long, a directory that may not be searched, a path through a regular
file), `readFails` and `writeFails` mark the paths at which `ioutil.ReadFile` and
`ioutil.WriteFile` return an error, `errorText` is the text of the error returned at a path
(the `%v` of an error message), `console` and `log` hold the lines printed so far (the time
stamp that the logger puts before a line is left out). -/
structure World where
  files : String → Option (List Nat)
  dirs : String → Bool
  statFails : String → Bool
  readFails : String → Bool
  writeFails : String → Bool
  errorText : String → String
  console : List String
  log : List String

/-- Go `fmt.Printf` to the console. -/
def World.printf (w : World) (line : String) : World :=
  { w with console := w.console ++ [line] }

/-- Go `logger.Printf` when `logger != nil`, nothing otherwise. -/
def World.logf (w : World) (logger : Bool) (line : String) : World :=
  if logger then { w with log := w.log ++ [line] } else w

/-- Something is at `path`: a regular file or a directory. -/
def World.present (w : World) (path : String) : Bool :=
  (w.files path).isSome || w.dirs path

/-- Go `_, err := os.Stat(path); os.IsNotExist(err)`: true only when `os.Stat` returns a
not-exist error.  It is false when something is at `path` (`err` is nil) and also when
`os.Stat` fails with any other error. -/
def World.statNotExist (w : World) (path : String) : Bool :=
  !w.statFails path && !w.present path

/-- Go `ioutil.ReadFile(path)`; `none` stands for a non-nil `err`. -/
def World.readFile (w : World) (path : String) : Option (List Nat) :=
  if w.readFails path then none else w.files path

/-- Go `ioutil.WriteFile(path, data, 0644)`: `none` stands for a non-nil `err` (the file system
is then taken as unchanged), otherwise the world with `data` stored at `path`. -/
def World.writeFile (w : World) (path : String) (data : List Nat) : Option World :=
  if w.writeFails path then none
  else some { w with files := fun p => if p = path then some data else w.files p }

/-- A world whose file system holds the single file `path` with content `data` and nothing
else, in which no `os.Stat`, no read and no write fails, and nothing has been printed. -/
def worldWith (path : String) (data : List Nat) : World where
  files := fun p => if p = path then some data else none
  dirs := fun _ => false
  statFails := fun _ => false
  readFails := fun _ => false
  writeFails := fun _ => false
  errorText := fun _ => ""
  console := []
  log := []

/-! ## Output naming and `processFile` -/

/-- The `for` loop of Go `getUniquePath`, entered with `newPath` and `counter`.  The loop has
no bound in the source; `fuel` bounds the number of iterations here and `none` means that the
fuel ran out. -/
def getUniquePathLoop (w : World) (dir base ext : String) : Nat → String → Nat → Option String
  | 0, _, _ => none
  | fuel + 1, newPath, counter =>
    if w.statNotExist newPath then some newPath
    else
      getUniquePathLoop w dir base ext fuel
        (filepathJoin dir (base ++ "-" ++ toString counter ++ ext)) (counter + 1)

/-- Go `getUniquePath(path)`. -/
def getUniquePath (w : World) (path : String) (fuel : Nat) : Option String :=
  let dir := filepathDir path
  let ext := filepathExt path
  let base := trimSuffix (filepathBase path) ext
  getUniquePathLoop w dir base ext fuel path 1

/-- The path that Go `saveRecoveredFile` passes to `ioutil.WriteFile`: `none` when the fuel of
`getUniquePath` ran out, `some none` when the call returns without writing (skip mode, and
`os.IsNotExist(err)` is false for the candidate: something is there, or `os.Stat` failed with
another error), `some (some p)` for the path written. -/
def saveTarget (w : World) (destDir fileRoot extension : String) (skipExisting : Bool)
    (fuel : Nat) : Option (Option String) :=
  let recoveredFileName := fileRoot ++ "." ++ extension
  if skipExisting then
    let recoveredFilePath := filepathJoin destDir recoveredFileName
    if !w.statNotExist recoveredFilePath then some none else some (some recoveredFilePath)
  else
    match getUniquePath w (filepathJoin destDir recoveredFileName) fuel with
    | none => none
    | some p => some (some p)

/-- Go `saveRecoveredFile`.  The text of a write error (`%v`) is `w.errorText` at the path. -/
def saveRecoveredFile (destDir fileRoot fileName extension : String) (data : List Nat)
    (currentFile totalFiles : Nat) (skipExisting logger : Bool) (fuel : Nat) (w : World) :
    Option World :=
  match saveTarget w destDir fileRoot extension skipExisting fuel with
  | none => none
  | some none =>
    let recoveredFilePath := filepathJoin destDir (fileRoot ++ "." ++ extension)
    some (((w.printf ("\rSkipped! [" ++ toString currentFile ++ "/" ++ toString totalFiles ++
      "]: " ++ fileName ++ " -> " ++ filepathBase recoveredFilePath ++ " (already exists)\n")).logf
      logger (fileName ++ "\tSKIPPED (exists) -> " ++ extension)))
  | some (some recoveredFilePath) =>
    match w.writeFile recoveredFilePath data with
    | none =>
      some (w.printf ("\nError saving recovered file " ++ recoveredFilePath ++ ": " ++
        w.errorText recoveredFilePath ++ "\n"))
    | some w1 =>
      some ((w1.printf ("\rFound! [" ++ toString currentFile ++ "/" ++ toString totalFiles ++
        "]: " ++ fileName ++ " -> " ++ filepathBase recoveredFilePath ++ "\n")).logf
        logger (fileName ++ "\t" ++ extension))

/-- The calls of `saveRecoveredFile` that `processFile` makes for a non-empty buffer `data`:
those of the carving loop, and when there are none (`fileRecovered` is still false) the one
call of the text fallback.  `jsonValid` stands for Go `json.Valid`. -/
def fileArtifacts (jsonValid : List Nat → Bool) (rnd : ℚ → ℚ) (sigs : List Signature)
    (data : List Nat) : List Artifact :=
  let carved := carve sigs data
  let fileRecovered := !carved.isEmpty
  if !fileRecovered then
    if isLikelyTextFile rnd data then
      if jsonValid data then [("json", data)] else [("txt", data)]
    else []
  else carved

/-- The calls of `saveRecoveredFile` listed in `arts`, made in order. -/
def saveAll (destDir fileRoot fileName : String) (currentFile totalFiles : Nat)
    (skipExisting logger : Bool) (fuel : Nat) : List Artifact → World → Option World
  | [], w => some w
  | a :: rest, w =>
    match saveRecoveredFile destDir fileRoot fileName a.1 a.2 currentFile totalFiles
        skipExisting logger fuel w with
    | none => none
    | some w1 => saveAll destDir fileRoot fileName currentFile totalFiles skipExisting logger
        fuel rest w1

/-- Go `processFile`, over the registry `sigs`.  `logger` tells whether the logger is non-nil;
the text of a read error (`%v`) is `w.errorText` at the path read. -/
def processFile (jsonValid : List Nat → Bool) (rnd : ℚ → ℚ) (sigs : List Signature)
    (chkPath destDir : String) (currentFile totalFiles : Nat) (logger skipExisting : Bool)
    (fuel : Nat) (w : World) : Option World :=
  let fileName := filepathBase chkPath
  let fileRoot := trimSuffix fileName (filepathExt fileName)
  let w0 := w.printf ("\rScanning [" ++ toString currentFile ++ "/" ++ toString totalFiles ++
    "]: " ++ fileName ++ "...")
  match w0.readFile chkPath with
  | none =>
    some ((w0.printf ("\nError reading file " ++ fileName ++ ": " ++ w0.errorText chkPath ++
      "\n")).logf logger
      (fileName ++ "\tERROR READING FILE"))
  | some data =>
    if data.length = 0 then some w0
    else
      let arts := fileArtifacts jsonValid rnd sigs data
      match saveAll destDir fileRoot fileName currentFile totalFiles skipExisting logger fuel
          arts w0 with
      | none => none
      | some w1 =>
        let fileRecovered := !arts.isEmpty
        if !fileRecovered && logger then some (w1.logf logger (fileName ++ "\t(not recovered)"))
        else some w1

/-! ## Predicates on cleaned paths -/

/-- An element that `filepath.Clean` keeps: not empty, not `.`, free of separators. -/
def KeptElem (e : List Char) : Prop :=
  e ≠ [] ∧ e ≠ ['.'] ∧ '/' ∉ e

/-- A file name: a kept element other than `..`. -/
def PlainName (n : List Char) : Prop :=
  KeptElem n ∧ n ≠ ['.', '.']

/-- The elements kept by `filepath.Clean`, last element first: every element is a kept
element, and a `..` stands only at the start of an unrooted path or after another `..`. -/
def GoodRev (rooted : Bool) : List (List Char) → Prop
  | [] => True
  | e :: rest =>
    KeptElem e ∧
    (e = ['.', '.'] → (rest = [] ∧ rooted = false) ∨ rest.head? = some ['.', '.']) ∧
    GoodRev rooted rest

/-- The path `c/n` for a cleaned directory `c` and a file name `n`. -/
def joinName (c n : List Char) : List Char :=
  if c = ['/'] then '/' :: n else if c = ['.'] then n else c ++ '/' :: n

/-- The `k`-th path of the probe sequence for the file name `stem.suffix` in `destination`:
`destination/stem.suffix` for `k = 0` and `destination/stem-k.suffix` for `k ≥ 1`. -/
def probePath (destination stem suffix : String) (k : Nat) : String :=
  if k = 0 then filepathJoin destination (stem ++ "." ++ suffix)
  else filepathJoin destination (stem ++ "-" ++ toString k ++ "." ++ suffix)

/-! ## An input with a long name -/

/-- A base name of 250 characters `A`: the input `AAA…A.CHK` has a name of 254 characters, the
recovered file `AAA…A.ACCDB` a name of 256 characters. -/
def longRoot : String := ⟨List.replicate 250 'A'⟩

/-- The header of the compiled-in ACCDB signature, `000100005374616e6461726420414345204442`. -/
def accdbHeader : List Nat :=
  [0, 1, 0, 0, 83, 116, 97, 110, 100, 97, 114, 100, 32, 65, 67, 69, 32, 68, 66]

/-! ## Predicates on hexadecimal strings, worlds and outcomes -/

/-- A hexadecimal digit: `0`-`9`, `a`-`f` or `A`-`F`. -/
def IsHexDigit (c : Char) : Prop :=
  ('0' ≤ c ∧ c ≤ '9') ∨ ('a' ≤ c ∧ c ≤ 'f') ∨ ('A' ≤ c ∧ c ≤ 'F')

/-- A valid hexadecimal byte encoding: an even number of characters, all hexadecimal digits. -/
def IsHexEncoding (s : String) : Prop :=
  s.data.length % 2 = 0 ∧ ∀ c ∈ s.data, IsHexDigit c

/-- The world `w` with the file `path` holding `data`. -/
def World.withFile (w : World) (path : String) (data : List Nat) : World :=
  { w with files := fun p => if p = path then some data else w.files p }

/-- The world `w` in which every `ioutil.WriteFile` returns the error of a missing
permission, whose text is `open <path>: permission denied`. -/
def World.failingWrites (w : World) : World :=
  { w with
    writeFails := fun _ => true
    errorText := fun p => "open " ++ p ++ ": permission denied" }

/-- Everything in the file system of the world `w` has its path in the list `paths`: the file
system holds finitely many files and directories. -/
def FilesWithin (w : World) (paths : List String) : Prop :=
  ∀ p, w.present p = true → p ∈ paths

/-- The world `w` with a directory at `path`. -/
def World.withDir (w : World) (path : String) : World :=
  { w with dirs := fun p => decide (p = path) || w.dirs p }

/-- The world `w` on a file system with a limit on the length of a name: at every path whose
last element has more than 255 characters (so more than 255 bytes) `os.Stat` fails with
`ENAMETOOLONG`, which is not a not-exist error, and so does `ioutil.WriteFile`. -/
def World.withNameLimit (w : World) : World :=
  { w with
    statFails := fun p => decide (255 < (filepathBase p).length) || w.statFails p
    writeFails := fun p => decide (255 < (filepathBase p).length) || w.writeFails p }

/-- A file system with a limit on the length of a name that holds the directories `in` and
`out` and the one file `in/AAA…A.CHK`, whose content is the ACCDB header; `out` is empty. -/
def longNameWorld : World :=
  (((worldWith ("in/" ++ longRoot ++ ".CHK") accdbHeader).withDir "in").withDir
    "out").withNameLimit

/-- The `k`-th path that the loop of Go `getUniquePath(path)` passes to `os.Stat`: `path` for
`k = 0` and `filepath.Join(dir, base-k ext)` for `k ≥ 1`. -/
def getUniquePathProbe (path : String) (k : Nat) : String :=
  if k = 0 then path
  else
    filepathJoin (filepathDir path)
      (trimSuffix (filepathBase path) (filepathExt path) ++ "-" ++ toString k ++
        filepathExt path)

/-- An extension tag for which `base.tag` is a file name: free of separators, not empty and
not `.`. -/
def ValidTag (tag : String) : Prop :=
  '/' ∉ tag.data ∧ tag ≠ "" ∧ tag ≠ "."

/-- The log lines that render the outcomes of the specification for the input `fileName`:
`Recovered(tag)` and `Skipped(tag)` for a tag of `tags`, `NotRecovered` and `ReadError`. -/
def IsOutcomeLine (tags : List String) (fileName line : String) : Prop :=
  (∃ tag ∈ tags, line = fileName ++ "\t" ++ tag) ∨
  (∃ tag ∈ tags, line = fileName ++ "\tSKIPPED (exists) -> " ++ tag) ∨
  line = fileName ++ "\t(not recovered)" ∨
  line = fileName ++ "\tERROR READING FILE"

/-! ## Theorems -/

set_option maxRecDepth 100000

theorem bytesHasPrefix_iff (s pre : List Nat) :
    bytesHasPrefix s pre = true ↔ pre <+: s := by
  unfold bytesHasPrefix
  rw [List.prefix_iff_eq_take]
  simp only [ge_iff_le, Bool.and_eq_true, decide_eq_true_eq, beq_iff_eq]
  constructor
  · rintro ⟨_, h⟩; exact h.symm
  · intro h
    refine ⟨?_, h.symm⟩
    have := congrArg List.length h
    simp only [List.length_take] at this
    omega

theorem bytesIndexFrom_ne (sep : List Nat) (s : List Nat) (j : Nat) :
    bytesIndexFrom sep j s ≠ -1 ↔ sep <:+: s := by
  induction s generalizing j with
  | nil =>
    unfold bytesIndexFrom
    by_cases h : sep.length = 0
    · have : sep = [] := List.length_eq_zero.mp h
      subst this
      simp
    · have : sep ≠ [] := fun e => h (by simp [e])
      simp [h, this]
  | cons b t ih =>
    unfold bytesIndexFrom
    by_cases hp : bytesHasPrefix (b :: t) sep = true
    · rw [if_pos hp]
      have hp2 := (bytesHasPrefix_iff _ _).mp hp
      constructor
      · intro _; exact hp2.isInfix
      · intro _; omega
    · rw [if_neg hp, ih]
      have hp2 : ¬ sep <+: b :: t := fun h => hp ((bytesHasPrefix_iff _ _).mpr h)
      rw [List.infix_cons_iff]
      tauto

theorem bytesContains_iff (b sub : List Nat) :
    bytesContains b sub = true ↔ sub <:+: b := by
  unfold bytesContains bytesIndex
  rw [← bytesIndexFrom_ne sub b 0]
  simp

theorem signatureMatches_iff (data : List Nat) (i : Nat) (s : Signature) :
    signatureMatches data i s = true ↔ SpecMatch data i s := by
  unfold signatureMatches SpecMatch
  by_cases hlen : i + s.Header.length ≤ data.length
  · by_cases hpre : s.Header <+: data.drop i
    · have hb := (bytesHasPrefix_iff (data.drop i) s.Header).mpr hpre
      have htake : (data.drop i).take s.Header.length = s.Header :=
        (List.prefix_iff_eq_take.mp hpre).symm
      simp only [hlen, hb, decide_True, Bool.and_self, if_true, htake, true_and]
      by_cases hc : s.Contains = []
      · simp [hc]
      · have hpos : s.Contains.length > 0 := List.length_pos.mpr hc
        simp only [hpos, if_true, hc, false_or]
        rw [← bytesContains_iff]
        cases bytesContains (List.drop (i + s.Header.length) data) s.Contains <;> simp
    · have hb : bytesHasPrefix (data.drop i) s.Header = false := by
        rw [Bool.eq_false_iff]; exact fun h => hpre ((bytesHasPrefix_iff _ _).mp h)
      have htake : ¬ (data.drop i).take s.Header.length = s.Header := fun h =>
        hpre (List.prefix_iff_eq_take.mpr h.symm)
      simp [hb, htake]
  · simp [hlen]

theorem carveSignatures_eq (data : List Nat) (i : Nat) (sigs : List Signature) :
    carveSignatures data i sigs =
      (sigs.filter fun s => signatureMatches data i s).map fun s => (s.Extension, data.drop i) := by
  induction sigs with
  | nil => rfl
  | cons s rest ih =>
    unfold carveSignatures
    by_cases h : signatureMatches data i s = true
    · simp [h, ih]
    · simp [h, ih]

theorem carveOffsets_eq (sigs : List Signature) (data : List Nat) (n i : Nat) :
    carveOffsets sigs data n i =
      (List.range' i n).flatMap fun k => carveSignatures data k sigs := by
  induction n generalizing i with
  | zero => rfl
  | succ n ih =>
    unfold carveOffsets
    rw [ih, List.range'_succ, List.flatMap_cons]

theorem carve_eq_flatMap (sigs : List Signature) (data : List Nat) :
    carve sigs data = (List.range data.length).flatMap fun k => carveSignatures data k sigs := by
  unfold carve
  rw [carveOffsets_eq, List.range_eq_range']

theorem mem_carve {sigs : List Signature} {data : List Nat} {i : Nat} {s : Signature}
    (hi : i < data.length) (hs : s ∈ sigs) (hm : signatureMatches data i s = true) :
    (s.Extension, data.drop i) ∈ carve sigs data := by
  rw [carve_eq_flatMap, List.mem_flatMap]
  refine ⟨i, List.mem_range.mpr hi, ?_⟩
  rw [carveSignatures_eq, List.mem_map]
  exact ⟨s, List.mem_filter.mpr ⟨hs, hm⟩, rfl⟩

theorem carve_eq_nil_iff (sigs : List Signature) (data : List Nat) :
    carve sigs data = [] ↔
      ∀ i, i < data.length → ∀ s ∈ sigs, signatureMatches data i s = false := by
  rw [carve_eq_flatMap, List.flatMap_eq_nil_iff]
  constructor
  · intro h i hi s hs
    have h1 := h i (List.mem_range.mpr hi)
    rw [carveSignatures_eq, List.map_eq_nil_iff, List.filter_eq_nil_iff] at h1
    simpa using h1 s hs
  · intro h i hi
    rw [carveSignatures_eq, List.map_eq_nil_iff, List.filter_eq_nil_iff]
    intro s hs
    simp [h i (List.mem_range.mp hi) s hs]

theorem signatureMatches_false_of_not_infix (data : List Nat) (i : Nat) (s : Signature)
    (hc : s.Contains ≠ []) (hn : ¬ s.Contains <:+: data.drop s.Header.length) :
    signatureMatches data i s = false := by
  rw [Bool.eq_false_iff]
  intro h
  rw [signatureMatches_iff] at h
  obtain ⟨_, _, h3⟩ := h
  rcases h3 with h3 | h3
  · exact hc h3
  · apply hn
    refine h3.trans (List.IsSuffix.isInfix ?_)
    rw [Nat.add_comm, ← List.drop_drop]
    exact List.drop_suffix _ _

theorem carveSignatures_filter_ne (data : List Nat) (i : Nat) (s : Signature)
    (sigs : List Signature) (h : signatureMatches data i s = false) :
    carveSignatures data i sigs = carveSignatures data i (sigs.filter fun t => decide (t ≠ s)) := by
  rw [carveSignatures_eq, carveSignatures_eq, List.filter_filter]
  congr 1
  apply List.filter_congr
  intro t _
  by_cases hts : t = s
  · subst hts; simp [h]
  · simp [hts]

/-- C1: the artifacts emitted by the carving loop of `processFile` are exactly the list, by
offset ascending and then registry position, of `(s.Extension, data[i..])` for the pairs
`(i, s)` with `i < len(data)`, `i + len(s.Header) <= len(data)`, the header standing at `i`, and
`s.Contains` empty or a contiguous subsequence of `data[i+len(s.Header)..]`; and a header that
matches with an empty remainder is a match only when `s.Contains` is empty. -/
theorem carve_eq_carveSpec (sigs : List Signature) (data : List Nat) :
    carve sigs data = carveSpec sigs data ∧
    ∀ (i : Nat) (s : Signature), i + s.Header.length = data.length →
      (signatureMatches data i s = true ↔ data.drop i = s.Header ∧ s.Contains = []) := by
  constructor
  · rw [carve_eq_flatMap]
    unfold carveSpec
    congr 1
    funext i
    rw [carveSignatures_eq]
    congr 2
    funext s
    by_cases h : SpecMatch data i s
    · simp [h, (signatureMatches_iff data i s).mpr h]
    · have : signatureMatches data i s = false := by
        rw [Bool.eq_false_iff]; exact fun h2 => h ((signatureMatches_iff _ _ _).mp h2)
      simp [h, this]
  · intro i s hlen
    rw [signatureMatches_iff]
    unfold SpecMatch
    have hdl : (data.drop i).length = s.Header.length := by simp; omega
    have hd0 : data.drop (i + s.Header.length) = [] := by
      apply List.drop_eq_nil_of_le; omega
    rw [hd0, ← hdl, List.take_length]
    constructor
    · rintro ⟨_, h1, h2⟩
      refine ⟨h1, ?_⟩
      rcases h2 with h2 | h2
      · exact h2
      · exact List.infix_nil.mp h2
    · rintro ⟨h1, h2⟩
      exact ⟨by omega, h1, Or.inl h2⟩

/-- C2: for a signature `s` of the registry with non-empty header and non-empty contains, the
buffer `s.Header ++ padding ++ s.Contains ++ trailing` is matched by `s` at offset 0 and carving
emits the artifact `(s.Extension, whole buffer)`. -/
theorem carve_header_padding_contains (sigs : List Signature) (s : Signature)
    (padding trailing : List Nat) (hs : s ∈ sigs) (hh : s.Header ≠ [])
    (_hc : s.Contains ≠ []) :
    signatureMatches (s.Header ++ padding ++ s.Contains ++ trailing) 0 s = true ∧
    (s.Extension, s.Header ++ padding ++ s.Contains ++ trailing) ∈
      carve sigs (s.Header ++ padding ++ s.Contains ++ trailing) := by
  have hm : signatureMatches (s.Header ++ padding ++ s.Contains ++ trailing) 0 s = true := by
    rw [signatureMatches_iff]
    refine ⟨by simp, by simp [List.append_assoc], Or.inr ?_⟩
    refine ⟨padding, trailing, ?_⟩
    simp [List.append_assoc]
  refine ⟨hm, ?_⟩
  have hpos : 0 < (s.Header ++ padding ++ s.Contains ++ trailing).length := by
    have := List.length_pos.mpr hh
    simp only [List.length_append]; omega
  simpa using mem_carve hpos hs hm

/-- Witness of C2 on the JPG signature of the compiled-in registry. -/
theorem carve_header_padding_contains_witness :
    signatureMatches ([255, 216] ++ [0, 1] ++ [74, 70, 73, 70] ++ [9]) 0
        ⟨"JPG", [255, 216], [74, 70, 73, 70]⟩ = true ∧
    (("JPG", [255, 216] ++ [0, 1] ++ [74, 70, 73, 70] ++ [9]) : Artifact) ∈
      carve signatures ([255, 216] ++ [0, 1] ++ [74, 70, 73, 70] ++ [9]) :=
  carve_header_padding_contains signatures ⟨"JPG", [255, 216], [74, 70, 73, 70]⟩ [0, 1] [9]
    (by decide) (by decide) (by decide)

/-- C3, counterexample: the JPG signature (header `ffd8`, contains `JFIF`), padding `JF` and
trailing `IF`, neither equal to the contains marker; the buffer `ffd8 ++ JF ++ IF` is matched
by the signature at offset 0 and carving emits a JPG artifact. -/
theorem carve_contains_removed_counterexample :
    (⟨"JPG", [255, 216], [74, 70, 73, 70]⟩ : Signature) ∈ signatures ∧
    ([74, 70] : List Nat) ≠ [74, 70, 73, 70] ∧ ([73, 70] : List Nat) ≠ [74, 70, 73, 70] ∧
    signatureMatches ([255, 216] ++ [74, 70] ++ [73, 70]) 0
      ⟨"JPG", [255, 216], [74, 70, 73, 70]⟩ = true ∧
    carve signatures ([255, 216] ++ [74, 70] ++ [73, 70]) =
      [("JPG", [255, 216, 74, 70, 73, 70])] := by
  decide

/-- C3, amended: for a signature `s` with non-empty contains, if `s.Contains` does not occur as
a contiguous subsequence of `padding ++ trailing`, then on the buffer
`s.Header ++ padding ++ trailing` the signature matches at no offset, carving with `s` alone
emits nothing, and with any registry carving emits what it emits with `s` removed. -/
theorem carve_contains_absent (s : Signature) (padding trailing : List Nat)
    (hc : s.Contains ≠ []) (hn : ¬ s.Contains <:+: padding ++ trailing) :
    (∀ i, signatureMatches (s.Header ++ padding ++ trailing) i s = false) ∧
    carve [s] (s.Header ++ padding ++ trailing) = [] ∧
    ∀ sigs : List Signature,
      carve sigs (s.Header ++ padding ++ trailing) =
        carve (sigs.filter fun t => decide (t ≠ s)) (s.Header ++ padding ++ trailing) := by
  have hall : ∀ i, signatureMatches (s.Header ++ padding ++ trailing) i s = false := by
    intro i
    apply signatureMatches_false_of_not_infix _ _ _ hc
    simpa [List.append_assoc] using hn
  refine ⟨hall, ?_, ?_⟩
  · rw [carve_eq_nil_iff]
    intro i _ t ht
    rw [List.mem_singleton] at ht
    subst ht
    exact hall i
  · intro sigs
    rw [carve_eq_flatMap, carve_eq_flatMap]
    congr 1
    funext i
    exact carveSignatures_filter_ne _ _ _ _ (hall i)

/-- Witness of amended C3: the JPG signature, padding `JF` and trailing `XX`. -/
theorem carve_contains_absent_witness :
    (∀ i, signatureMatches ([255, 216] ++ [74, 70] ++ [88, 88]) i
      ⟨"JPG", [255, 216], [74, 70, 73, 70]⟩ = false) ∧
    carve [⟨"JPG", [255, 216], [74, 70, 73, 70]⟩] ([255, 216] ++ [74, 70] ++ [88, 88]) = [] ∧
    ∀ sigs : List Signature,
      carve sigs ([255, 216] ++ [74, 70] ++ [88, 88]) =
        carve (sigs.filter fun t => decide (t ≠ ⟨"JPG", [255, 216], [74, 70, 73, 70]⟩))
          ([255, 216] ++ [74, 70] ++ [88, 88]) :=
  carve_contains_absent ⟨"JPG", [255, 216], [74, 70, 73, 70]⟩ [74, 70] [88, 88]
    (by decide) (by decide)

/-- C4, counterexample: `EXE` is a signature of the compiled-in registry with empty contains
and non-empty header `4d5a`, and carving the buffer `4d5a` emits two artifacts, not one. -/
theorem carve_exe_header_counterexample :
    (⟨"EXE", [77, 90], []⟩ : Signature) ∈ signatures ∧
    carve signatures [77, 90] = [("EXE", [77, 90]), ("DLL", [77, 90])] ∧
    carve signatures [77, 90] ≠ [("EXE", [77, 90])] := by
  decide

theorem carve_signatures_header_only :
    ∀ t ∈ signatures, t.Contains = [] → t.Header ≠ [77, 90] → t.Header ≠ [77, 77, 0, 42] →
      carve signatures t.Header = [(t.Extension, t.Header)] := by
  decide

/-- C4, amended: for a signature `s` with empty contains and non-empty header, carving the
buffer `s.Header` with the registry `[s]` emits exactly `[(s.Extension, s.Header)]`; with any
registry containing `s` the emitted list contains `(s.Extension, s.Header)`; and with the
compiled-in registry it is exactly `[(s.Extension, s.Header)]` for every such signature whose
header is neither `4d5a` nor `4d4d002a`.  On the header `4d5a` the compiled-in registry emits
the two artifacts EXE and DLL, and on the TIF header `4d4d002a` it emits TIF and 3DS (header
`4d4d`). -/
theorem carve_header_only (s : Signature) (hc : s.Contains = []) (hh : s.Header ≠ []) :
    carve [s] s.Header = [(s.Extension, s.Header)] ∧
    (∀ sigs : List Signature, s ∈ sigs → (s.Extension, s.Header) ∈ carve sigs s.Header) ∧
    (s ∈ signatures → s.Header ≠ [77, 90] → s.Header ≠ [77, 77, 0, 42] →
      carve signatures s.Header = [(s.Extension, s.Header)]) ∧
    (s ∈ signatures → s.Header = [77, 90] →
      carve signatures s.Header = [("EXE", [77, 90]), ("DLL", [77, 90])]) ∧
    (s ∈ signatures → s.Header = [77, 77, 0, 42] →
      carve signatures s.Header = [("TIF", [77, 77, 0, 42]), ("3DS", [77, 77, 0, 42])]) := by
  have hm : signatureMatches s.Header 0 s = true := by
    rw [signatureMatches_iff]
    exact ⟨by simp, by simp, Or.inl hc⟩
  have hpos : 0 < s.Header.length := List.length_pos.mpr hh
  refine ⟨?_, ?_, ?_, ?_, ?_⟩
  · obtain ⟨n, hn⟩ : ∃ n, s.Header.length = n + 1 := ⟨s.Header.length - 1, by omega⟩
    have hrest : ∀ m k, k + m ≤ n + 1 → 0 < k → carveOffsets [s] s.Header m k = [] := by
      intro m
      induction m with
      | zero => intro k _ _; rfl
      | succ m ih =>
        intro k hk hk0
        unfold carveOffsets
        rw [ih (k + 1) (by omega) (by omega), List.append_nil]
        have : signatureMatches s.Header k s = false := by
          unfold signatureMatches
          have : ¬ k + s.Header.length ≤ s.Header.length := by omega
          simp [this]
        simp [carveSignatures, this]
    unfold carve
    rw [hn]
    unfold carveOffsets
    rw [hrest n 1 (by omega) (by omega)]
    simp [carveSignatures, hm]
  · intro sigs hs
    simpa using mem_carve hpos hs hm
  · intro hs h1 h2
    exact carve_signatures_header_only s hs hc h1 h2
  · intro _ h1
    rw [h1]
    decide
  · intro _ h1
    rw [h1]
    decide

/-- Witness of amended C4 on the BMP signature, and on the two TIF signatures: the header
`49492a00` gives one artifact, the header `4d4d002a` gives TIF and 3DS. -/
theorem carve_header_only_witness :
    (carve [⟨"BMP", [66, 77], []⟩] [66, 77] = [("BMP", [66, 77])] ∧
      (("BMP", [66, 77]) : Artifact) ∈ carve signatures [66, 77] ∧
      carve signatures [66, 77] = [("BMP", [66, 77])]) ∧
    carve signatures [73, 73, 42, 0] = [("TIF", [73, 73, 42, 0])] ∧
    carve signatures [77, 77, 0, 42] = [("TIF", [77, 77, 0, 42]), ("3DS", [77, 77, 0, 42])] ∧
    carve signatures [77, 90] = [("EXE", [77, 90]), ("DLL", [77, 90])] :=
  ⟨⟨(carve_header_only ⟨"BMP", [66, 77], []⟩ rfl (by decide)).1,
      (carve_header_only ⟨"BMP", [66, 77], []⟩ rfl (by decide)).2.1 signatures (by decide),
      (carve_header_only ⟨"BMP", [66, 77], []⟩ rfl (by decide)).2.2.1 (by decide) (by decide)
        (by decide)⟩,
    (carve_header_only ⟨"TIF", [73, 73, 42, 0], []⟩ rfl (by decide)).2.2.1 (by decide)
      (by decide) (by decide),
    (carve_header_only ⟨"TIF", [77, 77, 0, 42], []⟩ rfl (by decide)).2.2.2.2 (by decide) rfl,
    (carve_header_only ⟨"EXE", [77, 90], []⟩ rfl (by decide)).2.2.2.1 (by decide) rfl⟩

theorem pair_sublist_of_getElem? {α : Type} (l : List α) (p q : Nat) (a b : α)
    (hpq : p < q) (ha : l[p]? = some a) (hb : l[q]? = some b) : List.Sublist [a, b] l := by
  induction l generalizing p q with
  | nil => simp at ha
  | cons x xs ih =>
    cases p with
    | zero =>
      simp only [List.getElem?_cons_zero, Option.some.injEq] at ha
      subst ha
      obtain ⟨q, rfl⟩ : ∃ r, q = r + 1 := ⟨q - 1, by omega⟩
      simp only [List.getElem?_cons_succ] at hb
      apply List.Sublist.cons₂
      exact List.singleton_sublist.mpr (List.getElem?_mem hb)
    | succ p =>
      obtain ⟨q, rfl⟩ : ∃ r, q = r + 1 := ⟨q - 1, by omega⟩
      simp only [List.getElem?_cons_succ] at ha hb
      exact (ih p q (by omega) ha hb).cons x

theorem carveSignatures_sublist_carveOffsets (sigs : List Signature) (data : List Nat)
    (i n k : Nat) (hk : k ≤ i) (hi : i < k + n) :
    List.Sublist (carveSignatures data i sigs) (carveOffsets sigs data n k) := by
  induction n generalizing k with
  | zero => omega
  | succ n ih =>
    unfold carveOffsets
    by_cases h : k = i
    · subst h
      exact List.sublist_append_left _ _
    · exact (ih (k + 1) (by omega) (by omega)).trans (List.sublist_append_right _ _)

theorem carveSignatures_sublist_carve (sigs : List Signature) (data : List Nat) (i : Nat)
    (hi : i < data.length) : List.Sublist (carveSignatures data i sigs) (carve sigs data) :=
  carveSignatures_sublist_carveOffsets sigs data i data.length 0 (Nat.zero_le i) (by omega)

/-- C5: two signatures `s1`, `s2` at registry positions `p1 < p2` with the same header and
different contains, both satisfied at offset `i` of the buffer: carving emits
`(s1.Extension, data[i..])` and `(s2.Extension, data[i..])` as two separate entries, in
registry order, with the same payload. -/
theorem carve_shared_header_both (sigs : List Signature) (p1 p2 : Nat) (s1 s2 : Signature)
    (data : List Nat) (i : Nat) (hp : p1 < p2) (h1 : sigs[p1]? = some s1)
    (h2 : sigs[p2]? = some s2) (_hh : s1.Header = s2.Header)
    (_hc : s1.Contains ≠ s2.Contains) (hi : i < data.length)
    (hm1 : SpecMatch data i s1) (hm2 : SpecMatch data i s2) :
    List.Sublist [(s1.Extension, data.drop i), (s2.Extension, data.drop i)]
      (carve sigs data) := by
  refine List.Sublist.trans ?_ (carveSignatures_sublist_carve sigs data i hi)
  rw [carveSignatures_eq]
  have hsub : List.Sublist [s1, s2] sigs := pair_sublist_of_getElem? sigs p1 p2 s1 s2 hp h1 h2
  have hf := hsub.filter (fun s => signatureMatches data i s)
  have e1 := (signatureMatches_iff data i s1).mpr hm1
  have e2 := (signatureMatches_iff data i s2).mpr hm2
  simp only [List.filter_cons, e1, e2, if_true, List.filter_nil] at hf
  simpa using hf.map (fun s => (s.Extension, data.drop i))

/-- Witness of C5 on the JPG and EXIF.JPG signatures of the compiled-in registry. -/
theorem carve_shared_header_both_witness :
    List.Sublist
      [(("JPG", List.drop 1 [0, 255, 216, 69, 120, 105, 102, 74, 70, 73, 70]) : Artifact),
        ("EXIF.JPG", List.drop 1 [0, 255, 216, 69, 120, 105, 102, 74, 70, 73, 70])]
      (carve signatures [0, 255, 216, 69, 120, 105, 102, 74, 70, 73, 70]) :=
  carve_shared_header_both signatures 0 1 ⟨"JPG", [255, 216], [74, 70, 73, 70]⟩
    ⟨"EXIF.JPG", [255, 216], [69, 120, 105, 102]⟩
    [0, 255, 216, 69, 120, 105, 102, 74, 70, 73, 70] 1 (by decide) (by decide) (by decide)
    (by decide) (by decide) (by decide) (by decide) (by decide)

theorem textByteCount_foldl (data : List Nat) (c : Nat) :
    data.foldl (fun count b => if isTextByte b then count + 1 else count) c =
      c + data.countP isTextByte := by
  induction data generalizing c with
  | nil => simp
  | cons b t ih =>
    rw [List.foldl_cons, ih, List.countP_cons]
    by_cases h : isTextByte b = true
    · simp [h]; omega
    · simp [h]

theorem textByteCount_eq_countP (data : List Nat) :
    textByteCount data = data.countP isTextByte := by
  unfold textByteCount
  rw [textByteCount_foldl, Nat.zero_add]

theorem textByteCount_le_length (data : List Nat) : textByteCount data ≤ data.length := by
  rw [textByteCount_eq_countP]
  exact List.countP_le_length _

theorem textByteCount_eq_length {data : List Nat} (h : ∀ b ∈ data, isTextByte b = true) :
    textByteCount data = data.length := by
  rw [textByteCount_eq_countP]
  exact List.countP_eq_length.mpr h

theorem isTextByte_iff (b : Nat) :
    isTextByte b = true ↔ (32 ≤ b ∧ b ≤ 126) ∨ b = 9 ∨ b = 10 ∨ b = 13 := by
  unfold isTextByte
  simp [or_assoc]

/-- The rounded quotient of `isLikelyTextFile` compares with `1.25` as the exact quotient
does, for a count of at most `2^20`. -/
theorem rounded_ratio_lt {rnd : ℚ → ℚ} (hr : IsFloat64Rounding rnd) (n t : Nat)
    (ht0 : 0 < t) (ht : t ≤ 1048576) :
    rnd ((n : ℚ) / (t : ℚ)) < 5 / 4 ↔ 4 * n < 5 * t := by
  have htq : (0 : ℚ) < (t : ℚ) := by exact_mod_cast ht0
  constructor
  · intro h
    by_contra hge
    have hge2 : 5 * t ≤ 4 * n := by omega
    have hq : (5 / 4 : ℚ) ≤ (n : ℚ) / (t : ℚ) := by
      rw [le_div_iff₀ htq]
      have : ((5 * t : Nat) : ℚ) ≤ ((4 * n : Nat) : ℚ) := by exact_mod_cast hge2
      push_cast at this
      linarith
    have h54 : rnd (5 / 4) = 5 / 4 := by
      have := hr.exact 5 2 (by norm_num) (by norm_num)
      norm_num at this
      exact this
    have := hr.mono _ _ hq
    rw [h54] at this
    linarith
  · intro h
    have h1 : 4 * n + 1 ≤ 5 * t := by omega
    have hq : (n : ℚ) / (t : ℚ) ≤ 5242879 / 4194304 := by
      rw [div_le_iff₀ htq]
      have a1 : ((4 * n + 1 : Nat) : ℚ) ≤ ((5 * t : Nat) : ℚ) := by exact_mod_cast h1
      have a2 : (t : ℚ) ≤ 1048576 := by exact_mod_cast ht
      push_cast at a1
      linarith
    have hfix : rnd (5242879 / 4194304) = 5242879 / 4194304 := by
      have := hr.exact 5242879 22 (by norm_num) (by norm_num)
      norm_num at this
      exact this
    have := hr.mono _ _ hq
    rw [hfix] at this
    have : (5242879 / 4194304 : ℚ) < 5 / 4 := by norm_num
    linarith

theorem isLikelyTextFile_eq_true_iff {rnd : ℚ → ℚ} (hr : IsFloat64Rounding rnd)
    (data : List Nat) :
    isLikelyTextFile rnd data = true ↔
      0 < data.length ∧ data.length ≤ 1048576 ∧ textByteCount data ≠ 0 ∧
        4 * data.length < 5 * textByteCount data := by
  unfold isLikelyTextFile
  by_cases h0 : data.length = 0 ∨ data.length > 1048576
  · simp only [h0, if_true]
    constructor
    · intro h; exact absurd h (by simp)
    · rintro ⟨h1, h2, _⟩; omega
  · have hlen : 0 < data.length ∧ data.length ≤ 1048576 := by omega
    simp only [h0, if_false]
    by_cases hc : textByteCount data = 0
    · simp [hc]
    · have hle := textByteCount_le_length data
      simp only [hc, if_false, decide_eq_true_eq, ne_eq, not_false_eq_true, true_and]
      rw [rounded_ratio_lt hr _ _ (by omega) (by omega)]
      constructor
      · intro h; exact ⟨hlen.1, hlen.2, h⟩
      · rintro ⟨_, _, h⟩; exact h

theorem isFloat64Rounding_id : IsFloat64Rounding id :=
  ⟨fun _ _ h => h, fun _ _ _ _ => rfl⟩

/-- C6: `isLikelyTextFile(data)` is true exactly when `0 < len(data) <= 1048576`, the count `T`
of text bytes is non-zero and `4 * len(data) < 5 * T`; it is false for every buffer of length 0
or above 1048576, and true for a buffer of exactly 1048576 text bytes. -/
theorem isLikelyTextFile_characterization (rnd : ℚ → ℚ) (hr : IsFloat64Rounding rnd) (data : List Nat) :
    (isLikelyTextFile rnd data = true ↔
      0 < data.length ∧ data.length ≤ 1048576 ∧
        data.countP (fun b => (32 ≤ b ∧ b ≤ 126) ∨ b = 9 ∨ b = 10 ∨ b = 13) ≠ 0 ∧
        4 * data.length <
          5 * data.countP (fun b => (32 ≤ b ∧ b ≤ 126) ∨ b = 9 ∨ b = 10 ∨ b = 13)) ∧
    (data.length = 0 ∨ data.length > 1048576 → isLikelyTextFile rnd data = false) ∧
    (data.length = 1048576 →
      (∀ b ∈ data, (32 ≤ b ∧ b ≤ 126) ∨ b = 9 ∨ b = 10 ∨ b = 13) →
      isLikelyTextFile rnd data = true) := by
  have hcount : data.countP (fun b => (32 ≤ b ∧ b ≤ 126) ∨ b = 9 ∨ b = 10 ∨ b = 13) =
      textByteCount data := by
    rw [textByteCount_eq_countP]
    apply List.countP_congr
    intro b _
    simp [isTextByte_iff]
  rw [hcount]
  refine ⟨isLikelyTextFile_eq_true_iff hr data, ?_, ?_⟩
  · intro h
    rw [Bool.eq_false_iff, ne_eq, isLikelyTextFile_eq_true_iff hr]
    rintro ⟨h1, h2, _⟩
    omega
  · intro hlen hall
    rw [isLikelyTextFile_eq_true_iff hr]
    have hT : textByteCount data = data.length :=
      textByteCount_eq_length fun b hb => (isTextByte_iff b).mpr (hall b hb)
    rw [hT, hlen]
    decide

/-- Witness of C6: exact rounding and the buffer of 1048576 bytes `A`. -/
theorem isLikelyTextFile_characterization_witness :
    isLikelyTextFile id (List.replicate 1048576 65) = true :=
  (isLikelyTextFile_characterization id isFloat64Rounding_id (List.replicate 1048576 65)).2.2
    (List.length_replicate 1048576 65)
    (fun b hb => Or.inl (by rw [List.eq_of_mem_replicate hb]; decide))

/-- C7, counterexample: four text bytes and one non-text byte.  At least 80% of the bytes are
text bytes (`5 * 4 >= 4 * 5`), and for every rounding `isLikelyTextFile` answers false: the
quotient is exactly `1.25`, which is not below `1.25`. -/
theorem isLikelyTextFile_eighty_percent_counterexample :
    IsFloat64Rounding id ∧
    0 < [65, 65, 65, 65, 0].length ∧ [65, 65, 65, 65, 0].length ≤ 1048576 ∧
    5 * textByteCount [65, 65, 65, 65, 0] ≥ 4 * [65, 65, 65, 65, 0].length ∧
    ∀ rnd : ℚ → ℚ, IsFloat64Rounding rnd → isLikelyTextFile rnd [65, 65, 65, 65, 0] = false := by
  refine ⟨isFloat64Rounding_id, by decide, by decide, by decide, ?_⟩
  intro rnd hr
  rw [Bool.eq_false_iff, ne_eq, isLikelyTextFile_eq_true_iff hr]
  decide

/-- C7, amended: for a buffer with `0 < len(data) <= 1048576`, `isLikelyTextFile` classifies it
as text exactly when more than 80% of its bytes are text bytes, `5 * T > 4 * len(data)`; the
test `ratio < 1.25` and the test "at least 80% text bytes" agree on such a buffer exactly when
it does not have exactly 80% text bytes. -/
theorem isLikelyTextFile_iff_above_eighty_percent (rnd : ℚ → ℚ) (hr : IsFloat64Rounding rnd)
    (data : List Nat) (h0 : 0 < data.length) (h1 : data.length ≤ 1048576) :
    (isLikelyTextFile rnd data = true ↔ 5 * textByteCount data > 4 * data.length) ∧
    ((isLikelyTextFile rnd data = true ↔ 5 * textByteCount data ≥ 4 * data.length) ↔
      5 * textByteCount data ≠ 4 * data.length) := by
  have key : isLikelyTextFile rnd data = true ↔ 5 * textByteCount data > 4 * data.length := by
    rw [isLikelyTextFile_eq_true_iff hr]
    constructor
    · rintro ⟨_, _, _, h⟩; exact h
    · intro h; exact ⟨h0, h1, by omega, h⟩
  refine ⟨key, ?_⟩
  rw [key]
  constructor
  · intro h heq
    have := h.mpr (by omega)
    omega
  · intro hne
    constructor
    · intro h; omega
    · intro h; omega

/-- Witness of amended C7: exact rounding and the buffer `AAAA\0`. -/
theorem isLikelyTextFile_iff_above_eighty_percent_witness :
    (isLikelyTextFile id [65, 65, 65, 65, 0] = true ↔
      5 * textByteCount [65, 65, 65, 65, 0] > 4 * [65, 65, 65, 65, 0].length) ∧
    ((isLikelyTextFile id [65, 65, 65, 65, 0] = true ↔
        5 * textByteCount [65, 65, 65, 65, 0] ≥ 4 * [65, 65, 65, 65, 0].length) ↔
      5 * textByteCount [65, 65, 65, 65, 0] ≠ 4 * [65, 65, 65, 65, 0].length) :=
  isLikelyTextFile_iff_above_eighty_percent id isFloat64Rounding_id [65, 65, 65, 65, 0]
    (by decide) (by decide)

theorem readFile_printf (w : World) (line path : String) :
    (w.printf line).readFile path = w.readFile path := rfl

theorem fileArtifacts_of_carve_ne_nil (jsonValid : List Nat → Bool) (rnd : ℚ → ℚ)
    (sigs : List Signature) (data : List Nat) (h : carve sigs data ≠ []) :
    fileArtifacts jsonValid rnd sigs data = carve sigs data := by
  unfold fileArtifacts
  cases hc : carve sigs data with
  | nil => exact absurd hc h
  | cons a l => simp

theorem fileArtifacts_of_carve_eq_nil (jsonValid : List Nat → Bool) (rnd : ℚ → ℚ)
    (sigs : List Signature) (data : List Nat) (h : carve sigs data = []) :
    fileArtifacts jsonValid rnd sigs data =
      if isLikelyTextFile rnd data then
        (if jsonValid data then [("json", data)] else [("txt", data)])
      else [] := by
  unfold fileArtifacts
  simp [h]

theorem processFile_of_read (jsonValid : List Nat → Bool) (rnd : ℚ → ℚ)
    (sigs : List Signature) (chkPath destDir : String) (currentFile totalFiles : Nat)
    (logger skipExisting : Bool) (fuel : Nat) (w : World) (data : List Nat)
    (hread : w.readFile chkPath = some data) (hlen : data.length ≠ 0) :
    processFile jsonValid rnd sigs chkPath destDir currentFile totalFiles logger skipExisting
        fuel w =
      match saveAll destDir (trimSuffix (filepathBase chkPath) (filepathExt (filepathBase chkPath)))
          (filepathBase chkPath) currentFile totalFiles skipExisting logger fuel
          (fileArtifacts jsonValid rnd sigs data)
          (w.printf ("\rScanning [" ++ toString currentFile ++ "/" ++ toString totalFiles ++
            "]: " ++ filepathBase chkPath ++ "...")) with
      | none => none
      | some w1 =>
        if !(!(fileArtifacts jsonValid rnd sigs data).isEmpty) && logger then
          some (w1.logf logger (filepathBase chkPath ++ "\t(not recovered)"))
        else some w1 := by
  unfold processFile
  simp only [readFile_printf, hread, hlen, if_false]

/-- C8: for a buffer with no signature match, `0 < len(data) <= 1048576` and only text bytes,
`processFile` makes exactly one call of `saveRecoveredFile`, with the full buffer as payload
and the extension `json` if `json.Valid(data)` and `txt` otherwise; and for a buffer on which
carving emits at least one artifact, the calls are those of the carving loop alone. -/
theorem fileArtifacts_text_fallback (jsonValid : List Nat → Bool) (rnd : ℚ → ℚ)
    (hr : IsFloat64Rounding rnd) (sigs : List Signature) (data : List Nat)
    (chkPath destDir : String) (currentFile totalFiles : Nat) (logger skipExisting : Bool)
    (fuel : Nat) (w : World) (hread : w.readFile chkPath = some data) :
    (carve sigs data = [] → 0 < data.length → data.length ≤ 1048576 →
      (∀ b ∈ data, (32 ≤ b ∧ b ≤ 126) ∨ b = 9 ∨ b = 10 ∨ b = 13) →
      fileArtifacts jsonValid rnd sigs data =
          [(if jsonValid data then "json" else "txt", data)] ∧
        processFile jsonValid rnd sigs chkPath destDir currentFile totalFiles logger
            skipExisting fuel w =
          saveRecoveredFile destDir
            (trimSuffix (filepathBase chkPath) (filepathExt (filepathBase chkPath)))
            (filepathBase chkPath) (if jsonValid data then "json" else "txt") data
            currentFile totalFiles skipExisting logger fuel
            (w.printf ("\rScanning [" ++ toString currentFile ++ "/" ++ toString totalFiles ++
              "]: " ++ filepathBase chkPath ++ "..."))) ∧
    (carve sigs data ≠ [] →
      fileArtifacts jsonValid rnd sigs data = carve sigs data ∧
        processFile jsonValid rnd sigs chkPath destDir currentFile totalFiles logger
            skipExisting fuel w =
          saveAll destDir
            (trimSuffix (filepathBase chkPath) (filepathExt (filepathBase chkPath)))
            (filepathBase chkPath) currentFile totalFiles skipExisting logger fuel
            (carve sigs data)
            (w.printf ("\rScanning [" ++ toString currentFile ++ "/" ++ toString totalFiles ++
              "]: " ++ filepathBase chkPath ++ "..."))) := by
  constructor
  · intro hc h0 h1 hall
    have htext : isLikelyTextFile rnd data = true := by
      rw [isLikelyTextFile_eq_true_iff hr]
      have hT : textByteCount data = data.length :=
        textByteCount_eq_length fun b hb => (isTextByte_iff b).mpr (hall b hb)
      rw [hT]
      exact ⟨h0, h1, by omega, by omega⟩
    have hfa : fileArtifacts jsonValid rnd sigs data =
        [(if jsonValid data then "json" else "txt", data)] := by
      rw [fileArtifacts_of_carve_eq_nil _ _ _ _ hc, htext]
      cases jsonValid data <;> rfl
    refine ⟨hfa, ?_⟩
    rw [processFile_of_read jsonValid rnd sigs chkPath destDir currentFile totalFiles logger
      skipExisting fuel w data hread (by omega), hfa]
    simp only [saveAll]
    cases saveRecoveredFile destDir
      (trimSuffix (filepathBase chkPath) (filepathExt (filepathBase chkPath)))
      (filepathBase chkPath) (if jsonValid data then "json" else "txt") data
      currentFile totalFiles skipExisting logger fuel
      (w.printf ("\rScanning [" ++ toString currentFile ++ "/" ++ toString totalFiles ++
        "]: " ++ filepathBase chkPath ++ "...")) with
    | none => rfl
    | some w1 => simp
  · intro hc
    have hfa := fileArtifacts_of_carve_ne_nil jsonValid rnd sigs data hc
    refine ⟨hfa, ?_⟩
    have hlen : data.length ≠ 0 := by
      intro h0
      apply hc
      unfold carve
      rw [h0]
      rfl
    rw [processFile_of_read jsonValid rnd sigs chkPath destDir currentFile totalFiles logger
      skipExisting fuel w data hread hlen, hfa]
    have hne : (carve sigs data).isEmpty = false := by
      cases hcv : carve sigs data with
      | nil => exact absurd hcv hc
      | cons a l => rfl
    cases saveAll destDir
      (trimSuffix (filepathBase chkPath) (filepathExt (filepathBase chkPath)))
      (filepathBase chkPath) currentFile totalFiles skipExisting logger fuel
      (carve sigs data)
      (w.printf ("\rScanning [" ++ toString currentFile ++ "/" ++ toString totalFiles ++
        "]: " ++ filepathBase chkPath ++ "...")) with
    | none => rfl
    | some w1 => simp [hne]

/-- Witness of C8: the two-byte buffer `hi` read from `in/FILE0000.CHK`. -/
theorem fileArtifacts_text_fallback_witness :
    fileArtifacts (fun _ => false) id signatures [104, 105] =
        [(if (fun _ => false) [104, 105] then "json" else "txt", [104, 105])] ∧
      processFile (fun _ => false) id signatures "in/FILE0000.CHK" "out" 1 1 true false 8
          (worldWith "in/FILE0000.CHK" [104, 105]) =
        saveRecoveredFile "out"
          (trimSuffix (filepathBase "in/FILE0000.CHK")
            (filepathExt (filepathBase "in/FILE0000.CHK")))
          (filepathBase "in/FILE0000.CHK")
          (if (fun _ => false) [104, 105] then "json" else "txt") [104, 105] 1 1 false true 8
          ((worldWith "in/FILE0000.CHK" [104, 105]).printf
            ("\rScanning [" ++ toString 1 ++ "/" ++ toString 1 ++ "]: " ++
              filepathBase "in/FILE0000.CHK" ++ "...")) :=
  (fileArtifacts_text_fallback (fun _ => false) id isFloat64Rounding_id signatures [104, 105]
    "in/FILE0000.CHK" "out" 1 1 true false 8 (worldWith "in/FILE0000.CHK" [104, 105])
    (by decide)).1 (by decide) (by decide) (by decide) (by decide)

theorem readFile_worldWith (path : String) (data : List Nat) :
    (worldWith path data).readFile path = some data := by
  simp [World.readFile, worldWith]

theorem signatureMatches_header_append (s : Signature) (tail : List Nat)
    (hc : s.Contains = []) : signatureMatches (s.Header ++ tail) 0 s = true := by
  rw [signatureMatches_iff]
  exact ⟨by simp, by simp, Or.inl hc⟩

theorem carve_replicate_eq_nil (sigs : List Signature) (n b : Nat)
    (h : ∀ s ∈ sigs, s.Header ≠ [] ∧ s.Header.head? ≠ some b) :
    carve sigs (List.replicate n b) = [] := by
  rw [carve_eq_nil_iff]
  intro i _ s hs
  rw [Bool.eq_false_iff]
  intro hm
  rw [signatureMatches_iff] at hm
  obtain ⟨_, h2, _⟩ := hm
  obtain ⟨hne, hhead⟩ := h s hs
  rw [List.drop_replicate, List.take_replicate] at h2
  apply hhead
  rw [← h2]
  cases hk : min s.Header.length (n - i) with
  | zero =>
    rw [hk] at h2
    exact absurd h2.symm hne
  | succ k => rfl

theorem signatures_header_head :
    ∀ s ∈ signatures, s.Header ≠ [] ∧ s.Header.head? ≠ some 97 := by
  decide

/-- C9, counterexample: the buffer `BM` followed by 1999998 bytes `a` has length 2000000 and
only printable ASCII bytes, and with the compiled-in registry the carving loop emits a BMP
artifact for it, so `processFile` does call `saveRecoveredFile`. -/
theorem processFile_large_ascii_counterexample :
    ([66, 77] ++ List.replicate 1999998 97).length = 2000000 ∧
    (∀ b ∈ [66, 77] ++ List.replicate 1999998 97, 32 ≤ b ∧ b ≤ 126) ∧
    (("BMP", [66, 77] ++ List.replicate 1999998 97) : Artifact) ∈
      carve signatures ([66, 77] ++ List.replicate 1999998 97) ∧
    ∀ (jsonValid : List Nat → Bool) (rnd : ℚ → ℚ),
      (("BMP", [66, 77] ++ List.replicate 1999998 97) : Artifact) ∈
        fileArtifacts jsonValid rnd signatures ([66, 77] ++ List.replicate 1999998 97) := by
  have hlen : ([66, 77] ++ List.replicate 1999998 97).length = 2000000 := by
    rw [List.length_append, List.length_replicate]
    rfl
  have hmem : (("BMP", [66, 77] ++ List.replicate 1999998 97) : Artifact) ∈
      carve signatures ([66, 77] ++ List.replicate 1999998 97) := by
    have hm := signatureMatches_header_append ⟨"BMP", [66, 77], []⟩
      (List.replicate 1999998 97) rfl
    have hs : (⟨"BMP", [66, 77], []⟩ : Signature) ∈ signatures := by decide
    have := mem_carve (by rw [hlen]; decide) hs hm
    rwa [List.drop_zero] at this
  refine ⟨hlen, ?_, hmem, ?_⟩
  · intro b hb
    rw [List.mem_append] at hb
    rcases hb with hb | hb
    · revert b; decide
    · rw [List.eq_of_mem_replicate hb]; decide
  · intro jsonValid rnd
    rw [fileArtifacts_of_carve_ne_nil _ _ _ _ (List.ne_nil_of_mem hmem)]
    exact hmem

/-- C9, amended: for every buffer of length 2000000 (of printable ASCII bytes) on which the
carving loop with the compiled-in registry emits nothing, `processFile` calls
`saveRecoveredFile` not at all, leaves the files as they were, and the logger, when there is
one, records `(not recovered)`; the buffer of 2000000 bytes `a` is such a buffer. -/
theorem processFile_large_not_recovered (jsonValid : List Nat → Bool) (rnd : ℚ → ℚ)
    (data : List Nat) (chkPath destDir : String) (currentFile totalFiles : Nat)
    (logger skipExisting : Bool) (fuel : Nat) (w : World)
    (hlen : data.length = 2000000) (_hascii : ∀ b ∈ data, 32 ≤ b ∧ b ≤ 126)
    (hcarve : carve signatures data = []) (hread : w.readFile chkPath = some data) :
    (fileArtifacts jsonValid rnd signatures data = [] ∧
      processFile jsonValid rnd signatures chkPath destDir currentFile totalFiles logger
          skipExisting fuel w =
        some ((w.printf ("\rScanning [" ++ toString currentFile ++ "/" ++
          toString totalFiles ++ "]: " ++ filepathBase chkPath ++ "...")).logf logger
          (filepathBase chkPath ++ "\t(not recovered)"))) ∧
    carve signatures (List.replicate 2000000 97) = [] := by
  have hnot : isLikelyTextFile rnd data = false := by
    unfold isLikelyTextFile
    simp [hlen]
  have hfa : fileArtifacts jsonValid rnd signatures data = [] := by
    rw [fileArtifacts_of_carve_eq_nil _ _ _ _ hcarve, hnot]
    rfl
  refine ⟨⟨hfa, ?_⟩, carve_replicate_eq_nil signatures 2000000 97 signatures_header_head⟩
  rw [processFile_of_read jsonValid rnd signatures chkPath destDir currentFile totalFiles
    logger skipExisting fuel w data hread (by omega), hfa]
  cases logger <;> rfl

/-- Witness of amended C9: the buffer of 2000000 bytes `a` read from `in/FILE0001.CHK`. -/
theorem processFile_large_not_recovered_witness :
    (fileArtifacts (fun _ => false) id signatures (List.replicate 2000000 97) = [] ∧
      processFile (fun _ => false) id signatures "in/FILE0001.CHK" "out" 1 1 true false 8
          (worldWith "in/FILE0001.CHK" (List.replicate 2000000 97)) =
        some (((worldWith "in/FILE0001.CHK" (List.replicate 2000000 97)).printf
          ("\rScanning [" ++ toString 1 ++ "/" ++ toString 1 ++ "]: " ++
            filepathBase "in/FILE0001.CHK" ++ "...")).logf true
          (filepathBase "in/FILE0001.CHK" ++ "\t(not recovered)"))) ∧
    carve signatures (List.replicate 2000000 97) = [] :=
  processFile_large_not_recovered (fun _ => false) id (List.replicate 2000000 97)
    "in/FILE0001.CHK" "out" 1 1 true false 8
    (worldWith "in/FILE0001.CHK" (List.replicate 2000000 97))
    (List.length_replicate 2000000 97)
    (fun b hb => by rw [List.eq_of_mem_replicate hb]; decide)
    (carve_replicate_eq_nil signatures 2000000 97 signatures_header_head)
    (readFile_worldWith "in/FILE0001.CHK" (List.replicate 2000000 97))

theorem splitSlash_ne_nil (p : List Char) : splitSlash p ≠ [] := by
  cases p with
  | nil => simp [splitSlash]
  | cons c cs =>
    unfold splitSlash
    by_cases h : c = '/'
    · simp [h]
    · rw [if_neg h]
      cases splitSlash cs <;> simp

theorem splitSlash_no_slash (p : List Char) : ∀ e ∈ splitSlash p, '/' ∉ e := by
  induction p with
  | nil => intro e he; simp [splitSlash] at he; simp [he]
  | cons c cs ih =>
    intro e he
    unfold splitSlash at he
    by_cases h : c = '/'
    · rw [if_pos h, List.mem_cons] at he
      rcases he with he | he
      · simp [he]
      · exact ih e he
    · rw [if_neg h] at he
      cases hs : splitSlash cs with
      | nil => exact absurd hs (splitSlash_ne_nil cs)
      | cons x xs =>
        rw [hs] at he ih
        simp only [List.mem_cons] at he
        rcases he with he | he
        · subst he
          intro hmem
          rw [List.mem_cons] at hmem
          rcases hmem with hmem | hmem
          · exact h hmem.symm
          · exact ih x (List.mem_cons_self _ _) hmem
        · exact ih e (List.mem_cons_of_mem _ he)

theorem splitSlash_of_no_slash (n : List Char) (h : '/' ∉ n) : splitSlash n = [n] := by
  induction n with
  | nil => rfl
  | cons c cs ih =>
    rw [List.mem_cons, not_or] at h
    unfold splitSlash
    rw [if_neg (fun e => h.1 e.symm), ih h.2]

theorem splitSlash_cons (c : Char) (cs : List Char) :
    splitSlash (c :: cs) =
      if c = '/' then [] :: splitSlash cs
      else
        match splitSlash cs with
        | [] => [[c]]
        | h :: t => (c :: h) :: t := by
  rw [splitSlash]

theorem splitSlash_append_slash (a b : List Char) :
    splitSlash (a ++ '/' :: b) = splitSlash a ++ splitSlash b := by
  induction a with
  | nil => simp [splitSlash_cons, splitSlash]
  | cons c cs ih =>
    rw [List.cons_append, splitSlash_cons, splitSlash_cons c cs]
    by_cases h : c = '/'
    · rw [if_pos h, if_pos h, ih, List.cons_append]
    · rw [if_neg h, if_neg h, ih]
      cases hs : splitSlash cs with
      | nil => exact absurd hs (splitSlash_ne_nil cs)
      | cons x xs => rfl

theorem goodRev_tail {r : Bool} {e : List Char} {rest : List (List Char)}
    (h : GoodRev r (e :: rest)) : GoodRev r rest := h.2.2

theorem goodRev_of_append {r : Bool} (a b : List (List Char)) (h : GoodRev r (a ++ b)) :
    GoodRev r b := by
  induction a with
  | nil => exact h
  | cons x xs ih => exact ih (goodRev_tail h)

theorem goodRev_mem {r : Bool} {st : List (List Char)} (h : GoodRev r st) :
    ∀ e ∈ st, KeptElem e := by
  induction st with
  | nil => intro e he; simp at he
  | cons x xs ih =>
    intro e he
    rw [List.mem_cons] at he
    rcases he with he | he
    · subst he; exact h.1
    · exact ih (goodRev_tail h) e he

theorem getLast?_eq_head?_reverse (l : List (List Char)) : l.getLast? = l.reverse.head? := by
  rw [List.head?_reverse]

theorem cleanStep_good (r : Bool) (out : List (List Char)) (e : List Char)
    (hout : GoodRev r out.reverse) (he : '/' ∉ e) : GoodRev r (cleanStep r out e).reverse := by
  unfold cleanStep
  by_cases h1 : e = [] ∨ e = ['.']
  · rw [if_pos h1]; exact hout
  · rw [if_neg h1]
    rw [not_or] at h1
    have hk : KeptElem e := ⟨h1.1, h1.2, he⟩
    by_cases h2 : e = ['.', '.']
    · rw [if_pos h2, getLast?_eq_head?_reverse]
      cases hrev : out.reverse with
      | nil =>
        have hnil : out = [] := by simpa using hrev
        subst hnil
        simp only [List.head?_nil]
        cases r with
        | true => simpa using hout
        | false =>
          simp only [List.nil_append, List.reverse_cons, List.reverse_nil, Bool.false_eq_true,
            if_false]
          exact ⟨hk, fun _ => Or.inl ⟨rfl, rfl⟩, trivial⟩
      | cons l rest =>
        simp only [List.head?_cons]
        rw [hrev] at hout
        by_cases h3 : l = ['.', '.']
        · rw [if_pos h3, List.reverse_append, hrev]
          simp only [List.reverse_cons, List.reverse_nil, List.nil_append, List.singleton_append]
          exact ⟨hk, fun _ => Or.inr (by simp [h3]), hout⟩
        · rw [if_neg h3]
          have : out.dropLast.reverse = rest := by
            rw [← List.tail_reverse, hrev]; rfl
          rw [this]
          exact goodRev_tail hout
    · rw [if_neg h2, List.reverse_append]
      exact ⟨hk, fun h => absurd h h2, hout⟩

theorem foldl_cleanStep_good (r : Bool) (l : List (List Char)) (out : List (List Char))
    (hout : GoodRev r out.reverse) (hl : ∀ e ∈ l, '/' ∉ e) :
    GoodRev r (l.foldl (cleanStep r) out).reverse := by
  induction l generalizing out with
  | nil => exact hout
  | cons e t ih =>
    rw [List.foldl_cons]
    exact ih _ (cleanStep_good r out e hout (hl e (List.mem_cons_self _ _)))
      (fun x hx => hl x (List.mem_cons_of_mem _ hx))

theorem cleanStep_plain (r : Bool) (out : List (List Char)) (n : List Char)
    (hn : PlainName n) : cleanStep r out n = out ++ [n] := by
  unfold cleanStep
  rw [if_neg (by rw [not_or]; exact ⟨hn.1.1, hn.1.2.1⟩), if_neg hn.2]

theorem cleanStep_empty (r : Bool) (out : List (List Char)) : cleanStep r out [] = out := by
  unfold cleanStep
  rw [if_pos (Or.inl rfl)]

theorem foldl_cleanStep_eq_append (r : Bool) (l : List (List Char)) (out : List (List Char))
    (h : GoodRev r (out ++ l).reverse) : l.foldl (cleanStep r) out = out ++ l := by
  induction l generalizing out with
  | nil => simp
  | cons e t ih =>
    rw [List.foldl_cons]
    have hsplit : out ++ e :: t = (out ++ [e]) ++ t := by simp
    have hstep : cleanStep r out e = out ++ [e] := by
      rw [hsplit, List.reverse_append] at h
      have h2 := goodRev_of_append _ _ h
      rw [List.reverse_append] at h2
      simp only [List.reverse_cons, List.reverse_nil, List.nil_append, List.singleton_append] at h2
      obtain ⟨hk, hdd, _⟩ := h2
      unfold cleanStep
      rw [if_neg (by rw [not_or]; exact ⟨hk.1, hk.2.1⟩)]
      by_cases h3 : e = ['.', '.']
      · rw [if_pos h3, getLast?_eq_head?_reverse]
        rcases hdd h3 with ⟨hnil, hr⟩ | hhead
        · rw [hnil]
          have : out = [] := by simpa using hnil
          subst this
          simp [hr, h3]
        · rw [hhead]
          simp [h3]
      · rw [if_neg h3]
    rw [hstep, ih (out ++ [e]) (by rw [← hsplit]; exact h), ← hsplit]

theorem intercalate_singleton (sep a : List Char) : List.intercalate sep [a] = a := by
  simp [List.intercalate, List.intersperse]

theorem intercalate_cons_cons (sep a b : List Char) (l : List (List Char)) :
    List.intercalate sep (a :: b :: l) = a ++ sep ++ List.intercalate sep (b :: l) := by
  simp [List.intercalate, List.intersperse]

theorem intercalate_append_singleton (sep n : List Char) (out : List (List Char))
    (h : out ≠ []) :
    List.intercalate sep (out ++ [n]) = List.intercalate sep out ++ sep ++ n := by
  induction out with
  | nil => exact absurd rfl h
  | cons a l ih =>
    cases l with
    | nil =>
      rw [List.cons_append, List.nil_append, intercalate_cons_cons, intercalate_singleton,
        intercalate_singleton]
    | cons b l =>
      rw [List.cons_append, List.cons_append, intercalate_cons_cons, intercalate_cons_cons,
        ← List.cons_append, ih (by simp)]
      simp [List.append_assoc]

theorem intercalate_head (sep a : List Char) (l : List (List Char)) (ha : a ≠ []) :
    (List.intercalate sep (a :: l)).head? = a.head? := by
  cases l with
  | nil => rw [intercalate_singleton]
  | cons b l =>
    rw [intercalate_cons_cons, List.append_assoc]
    cases a with
    | nil => exact absurd rfl ha
    | cons x xs => rfl

theorem head?_ne_slash {e : List Char} (h : '/' ∉ e) : e.head? ≠ some '/' := by
  cases e with
  | nil => simp
  | cons x xs =>
    simp only [List.head?_cons, ne_eq, Option.some.injEq]
    intro hx
    exact h (by simp [hx])

theorem splitSlash_intercalate (S : List (List Char)) (hne : S ≠ [])
    (h : ∀ e ∈ S, '/' ∉ e) : splitSlash (List.intercalate ['/'] S) = S := by
  induction S with
  | nil => exact absurd rfl hne
  | cons a l ih =>
    cases l with
    | nil =>
      rw [intercalate_singleton]
      exact splitSlash_of_no_slash a (h a (List.mem_cons_self _ _))
    | cons b l =>
      rw [intercalate_cons_cons, List.append_assoc, List.singleton_append,
        splitSlash_append_slash, ih (by simp) (fun e he => h e (List.mem_cons_of_mem _ he)),
        splitSlash_of_no_slash a (h a (List.mem_cons_self _ _))]
      rfl

theorem goodRev_kept {r : Bool} {out : List (List Char)} (h : GoodRev r out.reverse) :
    ∀ e ∈ out, KeptElem e := fun e he =>
  goodRev_mem h e (List.mem_reverse.mpr he)

theorem intercalate_kept_ne {out : List (List Char)} (hne : out ≠ [])
    (hk : ∀ e ∈ out, KeptElem e) :
    List.intercalate ['/'] out ≠ [] ∧ List.intercalate ['/'] out ≠ ['.'] ∧
      (List.intercalate ['/'] out).head? ≠ some '/' := by
  cases out with
  | nil => exact absurd rfl hne
  | cons a l =>
    have ha := hk a (List.mem_cons_self _ _)
    have hhead : (List.intercalate ['/'] (a :: l)).head? = a.head? :=
      intercalate_head _ a l ha.1
    refine ⟨?_, ?_, ?_⟩
    · intro h0
      rw [h0] at hhead
      cases a with
      | nil => exact ha.1 rfl
      | cons x xs => simp at hhead
    · cases l with
      | nil => rw [intercalate_singleton]; exact ha.2.1
      | cons b l =>
        rw [intercalate_cons_cons]
        intro h0
        have hl := congrArg List.length h0
        have : 0 < a.length := List.length_pos.mpr ha.1
        simp at hl
        omega
    · rw [hhead]
      exact head?_ne_slash ha.2.2

theorem cleanRender_append (r : Bool) (out : List (List Char)) (n : List Char)
    (hout : GoodRev r out.reverse) :
    cleanRender r (out ++ [n]) = joinName (cleanRender r out) n := by
  have hk := goodRev_kept hout
  by_cases hne : out = []
  · subst hne
    cases r with
    | true => simp [cleanRender, joinName, intercalate_singleton, List.intercalate]
    | false => simp [cleanRender, joinName, intercalate_singleton]
  · obtain ⟨h1, h2, h3⟩ := intercalate_kept_ne hne hk
    cases r with
    | true =>
      simp only [cleanRender, if_true]
      rw [intercalate_append_singleton _ _ _ hne]
      unfold joinName
      rw [if_neg (by simpa using h1), if_neg (by simp)]
      simp
    | false =>
      simp only [cleanRender, Bool.false_eq_true, if_false, hne, List.append_eq_nil,
        List.cons_ne_self, and_false]
      rw [intercalate_append_singleton _ _ _ hne]
      unfold joinName
      rw [if_neg, if_neg h2]
      · simp
      · intro h0
        rw [h0] at h3
        simp at h3

theorem cleanRender_ne_nil (r : Bool) (out : List (List Char))
    (hout : GoodRev r out.reverse) : cleanRender r out ≠ [] := by
  unfold cleanRender
  cases r with
  | true => simp
  | false =>
    by_cases hne : out = []
    · simp [hne]
    · simp only [Bool.false_eq_true, if_false, hne]
      exact (intercalate_kept_ne hne (goodRev_kept hout)).1

theorem cleanChars_good (p : List Char) :
    GoodRev (decide (p.head? = some '/'))
      ((splitSlash p).foldl (cleanStep (decide (p.head? = some '/'))) []).reverse :=
  foldl_cleanStep_good _ _ [] trivial (splitSlash_no_slash p)

theorem cleanChars_ne_nil (p : List Char) : cleanChars p ≠ [] :=
  cleanRender_ne_nil _ _ (cleanChars_good p)

theorem cleanChars_append_name (x n : List Char) (hx : x ≠ []) (hn : PlainName n) :
    cleanChars (x ++ '/' :: n) = joinName (cleanChars x) n := by
  have hhead : (x ++ '/' :: n).head? = x.head? := by
    cases x with
    | nil => exact absurd rfl hx
    | cons a l => rfl
  unfold cleanChars
  simp only [hhead]
  rw [splitSlash_append_slash, splitSlash_of_no_slash n hn.1.2.2, List.foldl_append,
    List.foldl_cons, List.foldl_nil, cleanStep_plain _ _ _ hn]
  exact cleanRender_append _ _ _ (cleanChars_good x)

theorem cleanChars_append_slash (x : List Char) (hx : x ≠ []) :
    cleanChars (x ++ ['/']) = cleanChars x := by
  have hhead : (x ++ ['/']).head? = x.head? := by
    cases x with
    | nil => exact absurd rfl hx
    | cons a l => rfl
  unfold cleanChars
  simp only [hhead]
  rw [splitSlash_append_slash, List.foldl_append]
  simp [splitSlash, cleanStep_empty]

theorem cleanChars_name (n : List Char) (hn : PlainName n) : cleanChars n = n := by
  unfold cleanChars
  have hr : decide (n.head? = some '/') = false := by
    simpa using head?_ne_slash hn.1.2.2
  rw [hr, splitSlash_of_no_slash n hn.1.2.2]
  simp [cleanStep_plain _ _ _ hn, cleanRender, intercalate_singleton]

theorem cleanChars_cleanRender (r : Bool) (S : List (List Char)) (h : GoodRev r S.reverse) :
    cleanChars (cleanRender r S) = cleanRender r S := by
  have hk := goodRev_kept h
  by_cases hne : S = []
  · subst hne
    cases r with
    | true =>
      simp [cleanChars, cleanRender, splitSlash, List.intercalate, cleanStep_empty]
    | false =>
      simp [cleanChars, cleanRender, splitSlash, cleanStep]
  · obtain ⟨h1, h2, h3⟩ := intercalate_kept_ne hne hk
    have hsplit := splitSlash_intercalate S hne (fun e he => (hk e he).2.2)
    cases r with
    | true =>
      have hc : cleanRender true S = '/' :: List.intercalate ['/'] S := by simp [cleanRender]
      rw [hc]
      unfold cleanChars
      simp only [List.head?_cons, decide_True]
      rw [splitSlash_cons, if_pos rfl, hsplit, List.foldl_cons, cleanStep_empty,
        foldl_cleanStep_eq_append true S [] (by simpa using h)]
      simp [cleanRender]
    | false =>
      have hc : cleanRender false S = List.intercalate ['/'] S := by simp [cleanRender, hne]
      rw [hc]
      unfold cleanChars
      have hr : decide ((List.intercalate ['/'] S).head? = some '/') = false := by
        simpa using h3
      simp only [hr, hsplit]
      rw [foldl_cleanStep_eq_append false S [] (by simpa using h)]
      simp [cleanRender, hne]

theorem cleanChars_idem (p : List Char) : cleanChars (cleanChars p) = cleanChars p :=
  cleanChars_cleanRender _ _ (cleanChars_good p)

theorem ite_ne_slash (p : Prop) [Decidable p] (a b : Char) (ha : a ≠ '/') (hb : b ≠ '/') :
    (if p then a else b) ≠ '/' := by
  split <;> assumption

theorem digitChar_ne_slash (n : Nat) : Nat.digitChar n ≠ '/' := by
  unfold Nat.digitChar
  repeat (refine ite_ne_slash _ _ _ (by decide) ?_)
  decide

theorem toDigitsCore_no_slash (fuel n : Nat) (ds : List Char) (h : '/' ∉ ds) :
    '/' ∉ Nat.toDigitsCore 10 fuel n ds := by
  induction fuel generalizing n ds with
  | zero => exact h
  | succ fuel ih =>
    unfold Nat.toDigitsCore
    have hd : '/' ∉ Nat.digitChar (n % 10) :: ds := by
      rw [List.mem_cons, not_or]
      exact ⟨fun e => digitChar_ne_slash _ e.symm, h⟩
    by_cases h0 : n / 10 = 0
    · simp only [h0, if_true]; exact hd
    · simp only [h0, if_false]; exact ih _ _ hd

theorem toString_no_slash (k : Nat) : '/' ∉ (toString k).data :=
  toDigitsCore_no_slash _ _ [] (by simp)

theorem extLoop_append (a rest acc : List Char) (h : ∀ c ∈ a, c ≠ '/' ∧ c ≠ '.') :
    extLoop (a ++ '.' :: rest) acc = '.' :: (a.reverse ++ acc) := by
  induction a generalizing acc with
  | nil => simp [extLoop]
  | cons x xs ih =>
    have hx := h x (List.mem_cons_self _ _)
    rw [List.cons_append, extLoop, if_neg hx.1, if_neg hx.2,
      ih _ (fun c hc => h c (List.mem_cons_of_mem _ hc))]
    simp

theorem filepathExt_append_dot (p : List Char) (b : List Char) (hs : '/' ∉ b) (hd : '.' ∉ b) :
    filepathExt ⟨p ++ '.' :: b⟩ = ⟨'.' :: b⟩ := by
  unfold filepathExt
  apply String.ext
  show extLoop (p ++ '.' :: b).reverse [] = '.' :: b
  rw [List.reverse_append, List.reverse_cons, List.append_assoc, List.singleton_append,
    extLoop_append _ _ _ (fun c hc => by
      rw [List.mem_reverse] at hc
      exact ⟨fun e => hs (e ▸ hc), fun e => hd (e ▸ hc)⟩)]
  simp

theorem trimSuffix_append (a b : List Char) : trimSuffix ⟨a ++ b⟩ ⟨b⟩ = ⟨a⟩ := by
  unfold trimSuffix
  rw [if_pos (List.suffix_append a b)]
  apply String.ext
  simp

theorem lastElem_append (P n : List Char) (hn : '/' ∉ n)
    (hP : P = [] ∨ ∃ Q, P = Q ++ ['/']) :
    ((P ++ n).reverse.takeWhile fun c => decide (c ≠ '/')).reverse = n ∧
    ((P ++ n).reverse.dropWhile fun c => decide (c ≠ '/')).reverse = P := by
  have hall : ∀ a ∈ n.reverse, (fun c => decide (c ≠ '/')) a = true := by
    intro a ha
    rw [List.mem_reverse] at ha
    have hne : a ≠ '/' := fun e => hn (e ▸ ha)
    simpa using hne
  rw [List.reverse_append, List.takeWhile_append_of_pos hall,
    List.dropWhile_append_of_pos hall]
  rcases hP with hP | ⟨Q, hQ⟩
  · subst hP; simp
  · subst hQ; simp

theorem joinName_shape (c n : List Char) (hc : c ≠ []) :
    ∃ P, joinName c n = P ++ n ∧ (P = [] ∨ ∃ Q, P = Q ++ ['/']) ∧ cleanChars P = cleanChars c := by
  unfold joinName
  by_cases h1 : c = ['/']
  · subst h1
    exact ⟨['/'], by simp, Or.inr ⟨[], rfl⟩, rfl⟩
  · by_cases h2 : c = ['.']
    · subst h2
      refine ⟨[], by simp, Or.inl rfl, by decide⟩
    · rw [if_neg h1, if_neg h2]
      exact ⟨c ++ ['/'], by simp, Or.inr ⟨c, rfl⟩, cleanChars_append_slash c hc⟩

theorem filepathJoin_data (d n : String) (hn : PlainName n.data) :
    (filepathJoin d n).data = joinName (cleanChars d.data) n.data := by
  unfold filepathJoin
  by_cases hd : d = ""
  · subst hd
    have hne : n ≠ "" := by
      intro h; rw [h] at hn; exact hn.1.1 rfl
    rw [if_neg (by simp), if_pos hne]
    show cleanChars n.data = joinName (cleanChars []) n.data
    rw [cleanChars_name _ hn]
    have : cleanChars [] = ['.'] := by decide
    rw [this]
    simp [joinName]
  · rw [if_pos hd]
    show cleanChars (d ++ "/" ++ n).data = _
    have hd2 : d.data ≠ [] := fun h => hd (String.ext h)
    rw [String.data_append, String.data_append]
    have : d.data ++ "/".data ++ n.data = d.data ++ '/' :: n.data := by
      simp
    rw [this, cleanChars_append_name _ _ hd2 hn]

theorem filepathJoin_clean (d n : String) (hn : PlainName n.data) :
    filepathJoin ⟨cleanChars d.data⟩ n = filepathJoin d n := by
  apply String.ext
  rw [filepathJoin_data _ _ hn, filepathJoin_data _ _ hn]
  show joinName (cleanChars (cleanChars d.data)) n.data = _
  rw [cleanChars_idem]

theorem filepathDir_join (d n : String) (hn : PlainName n.data) :
    filepathDir (filepathJoin d n) = ⟨cleanChars d.data⟩ := by
  apply String.ext
  unfold filepathDir
  show cleanChars (((filepathJoin d n).data.reverse.dropWhile fun c => decide (c ≠ '/')).reverse) = _
  rw [filepathJoin_data _ _ hn]
  obtain ⟨P, hP, hshape, hclean⟩ := joinName_shape (cleanChars d.data) n.data (cleanChars_ne_nil _)
  rw [hP, (lastElem_append P n.data hn.1.2.2 hshape).2, hclean, cleanChars_idem]

theorem filepathBase_join (d n : String) (hn : PlainName n.data) :
    filepathBase (filepathJoin d n) = n := by
  obtain ⟨P, hP, hshape, _⟩ := joinName_shape (cleanChars d.data) n.data (cleanChars_ne_nil _)
  have hdata : (filepathJoin d n).data = P ++ n.data := by
    rw [filepathJoin_data _ _ hn, hP]
  have hne : n.data ≠ [] := hn.1.1
  unfold filepathBase
  have hpath : filepathJoin d n ≠ "" := by
    intro h
    rw [h] at hdata
    have := congrArg List.length hdata
    have := List.length_pos.mpr hne
    simp at *
    omega
  rw [if_neg hpath, hdata]
  have hstrip : ((P ++ n.data).reverse.dropWhile fun c => decide (c = '/')) =
      (P ++ n.data).reverse := by
    rw [List.reverse_append]
    obtain ⟨x, xs, hx⟩ : ∃ x xs, n.data.reverse = x :: xs := by
      cases hr : n.data.reverse with
      | nil => exact absurd (by simpa using hr) hne
      | cons x xs => exact ⟨x, xs, rfl⟩
    have hxn : x ≠ '/' := by
      intro e
      have : x ∈ n.data := by
        rw [← List.mem_reverse, hx]; exact List.mem_cons_self _ _
      exact hn.1.2.2 (e ▸ this)
    rw [hx, List.cons_append, List.dropWhile_cons]
    simp [hxn]
  simp only [hstrip, List.reverse_reverse]
  rw [(lastElem_append P n.data hn.1.2.2 hshape).1, if_neg hne]

theorem filepathExt_join (d n : String) (hn : PlainName n.data) :
    filepathExt (filepathJoin d n) = filepathExt n := by
  obtain ⟨P, hP, hshape, _⟩ := joinName_shape (cleanChars d.data) n.data (cleanChars_ne_nil _)
  have hdata : (filepathJoin d n).data = P ++ n.data := by
    rw [filepathJoin_data _ _ hn, hP]
  unfold filepathExt
  rw [hdata, List.reverse_append]
  congr 1
  have key : ∀ (a acc : List Char), '/' ∉ a →
      extLoop (a ++ P.reverse) acc = extLoop a acc := by
    intro a
    induction a with
    | nil =>
      intro acc _
      rcases hshape with h | ⟨Q, h⟩
      · subst h; rfl
      · subst h; simp [extLoop]
    | cons x xs ih =>
      intro acc hx
      rw [List.mem_cons, not_or] at hx
      rw [List.cons_append, extLoop, extLoop, ih _ hx.2]
  exact key _ _ (by rw [List.mem_reverse]; exact hn.1.2.2)

theorem plainName_dot (stem suffix : List Char) (hstem : '/' ∉ stem) (hsuf : '/' ∉ suffix)
    (hdot : '.' ∉ suffix) (hne : suffix ≠ []) : PlainName (stem ++ '.' :: suffix) := by
  obtain ⟨x, xs, rfl⟩ : ∃ x xs, suffix = x :: xs := by
    cases suffix with
    | nil => exact absurd rfl hne
    | cons x xs => exact ⟨x, xs, rfl⟩
  have hx : x ≠ '.' := fun e => hdot (by simp [e])
  refine ⟨⟨by simp, ?_, ?_⟩, ?_⟩
  · intro h
    have := congrArg List.length h
    simp at this
    omega
  · rw [List.mem_cons, not_or] at hsuf
    simp only [List.mem_append, List.mem_cons, not_or]
    exact ⟨hstem, by decide, hsuf.1, hsuf.2⟩
  · intro h
    cases stem with
    | nil =>
      simp only [List.nil_append, List.cons.injEq, true_and] at h
      exact hx h.1
    | cons y ys =>
      have := congrArg List.length h
      simp at this
      omega

theorem plainName_numbered (stem digits suffix : List Char) (hstem : '/' ∉ stem)
    (hdig : '/' ∉ digits) (hsuf : '/' ∉ suffix) :
    PlainName (stem ++ ['-'] ++ digits ++ ['.'] ++ suffix) := by
  have hmem : '-' ∈ stem ++ ['-'] ++ digits ++ ['.'] ++ suffix := by simp
  refine ⟨⟨by simp, ?_, ?_⟩, ?_⟩
  · intro h; rw [h] at hmem; revert hmem; decide
  · simp only [List.mem_append, List.mem_singleton, not_or]
    exact ⟨⟨⟨⟨hstem, by decide⟩, hdig⟩, by decide⟩, hsuf⟩
  · intro h; rw [h] at hmem; revert hmem; decide

theorem getUniquePathLoop_first_free (w : World) (dir base ext : String) (probe : Nat → String)
    (hprobe : ∀ j, 1 ≤ j → filepathJoin dir (base ++ "-" ++ toString j ++ ext) = probe j)
    (k : Nat) (hfree : w.statNotExist (probe k) = true)
    (hbusy : ∀ j, j < k → w.statNotExist (probe j) = false) :
    ∀ fuel m, m ≤ k → k - m < fuel →
      getUniquePathLoop w dir base ext fuel (probe m) (m + 1) = some (probe k) := by
  intro fuel
  induction fuel with
  | zero => intro m _ h; omega
  | succ fuel ih =>
    intro m hm hf
    unfold getUniquePathLoop
    by_cases hmk : m = k
    · subst hmk
      rw [if_pos hfree]
    · have hlt : m < k := by omega
      rw [hbusy m hlt]
      simp only [Bool.false_eq_true, if_false]
      rw [hprobe (m + 1) (by omega)]
      exact ih (m + 1) (by omega) (by omega)

theorem getUniquePath_eq_loop (w : World) (destDir stem suffix : String)
    (hstem : '/' ∉ stem.data) (hsuf : '/' ∉ suffix.data) (hdot : '.' ∉ suffix.data)
    (hn0 : PlainName (stem ++ "." ++ suffix).data) :
    ∃ dir base ext : String,
      (∀ fuel, getUniquePath w (filepathJoin destDir (stem ++ "." ++ suffix)) fuel =
        getUniquePathLoop w dir base ext fuel (probePath destDir stem suffix 0) 1) ∧
      ∀ j, 1 ≤ j →
        filepathJoin dir (base ++ "-" ++ toString j ++ ext) = probePath destDir stem suffix j := by
  have hn0data : (stem ++ "." ++ suffix).data = stem.data ++ '.' :: suffix.data := by
    simp [String.data_append]
  have hname : stem ++ "." ++ suffix = ⟨stem.data ++ '.' :: suffix.data⟩ := String.ext hn0data
  have hdir : filepathDir (filepathJoin destDir (stem ++ "." ++ suffix)) =
      ⟨cleanChars destDir.data⟩ := filepathDir_join _ _ hn0
  have hext : filepathExt (filepathJoin destDir (stem ++ "." ++ suffix)) =
      ⟨'.' :: suffix.data⟩ := by
    rw [filepathExt_join _ _ hn0, hname]
    exact filepathExt_append_dot _ _ hsuf hdot
  have hbase : trimSuffix (filepathBase (filepathJoin destDir (stem ++ "." ++ suffix)))
      ⟨'.' :: suffix.data⟩ = stem := by
    rw [filepathBase_join _ _ hn0, hname, trimSuffix_append]
  refine ⟨⟨cleanChars destDir.data⟩, stem, ⟨'.' :: suffix.data⟩, ?_, ?_⟩
  · intro fuel
    unfold getUniquePath
    simp only [hdir, hext, hbase]
    unfold probePath
    rw [if_pos rfl]
  · intro j hj
    have hnk : stem ++ "-" ++ toString j ++ (⟨'.' :: suffix.data⟩ : String) =
        stem ++ "-" ++ toString j ++ "." ++ suffix := by
      apply String.ext
      simp [String.data_append]
    have hplain : PlainName (stem ++ "-" ++ toString j ++ "." ++ suffix).data := by
      have : (stem ++ "-" ++ toString j ++ "." ++ suffix).data =
          stem.data ++ ['-'] ++ (toString j).data ++ ['.'] ++ suffix.data := by
        simp [String.data_append]
      rw [this]
      exact plainName_numbered _ _ _ hstem (toString_no_slash j) hsuf
    rw [hnk, filepathJoin_clean _ _ hplain]
    unfold probePath
    rw [if_neg (by omega)]

theorem getUniquePathLoop_out_of_fuel (w : World) (dir base ext : String) (probe : Nat → String)
    (hprobe : ∀ j, 1 ≤ j → filepathJoin dir (base ++ "-" ++ toString j ++ ext) = probe j)
    (k : Nat) (hbusy : ∀ j, j < k → w.statNotExist (probe j) = false) :
    ∀ fuel m, m + fuel ≤ k →
      getUniquePathLoop w dir base ext fuel (probe m) (m + 1) = none := by
  intro fuel
  induction fuel with
  | zero => intro m _; rfl
  | succ fuel ih =>
    intro m hm
    unfold getUniquePathLoop
    rw [hbusy m (by omega)]
    simp only [Bool.false_eq_true, if_false]
    rw [hprobe (m + 1) (by omega)]
    exact ih (m + 1) (by omega)

theorem plainName_of_ne (stem suffix : String) (hstem : '/' ∉ stem.data)
    (hsuf : '/' ∉ suffix.data) (h1 : stem ++ "." ++ suffix ≠ ".")
    (h2 : stem ++ "." ++ suffix ≠ "..") : PlainName (stem ++ "." ++ suffix).data := by
  have hdata : (stem ++ "." ++ suffix).data = stem.data ++ '.' :: suffix.data := by
    simp [String.data_append]
  refine ⟨⟨?_, ?_, ?_⟩, ?_⟩
  · rw [hdata]; simp
  · intro h; exact h1 (String.ext h)
  · rw [hdata]
    simp only [List.mem_append, List.mem_cons, not_or]
    exact ⟨hstem, by decide, hsuf⟩
  · intro h; exact h2 (String.ext h)

theorem digitChar_value (d : Nat) (h : d < 10) : (Nat.digitChar d).toNat - 48 = d := by
  interval_cases d <;> rfl

theorem toDigitsCore_decode (fuel : Nat) :
    ∀ (n : Nat) (ds : List Char), n < fuel →
      ∃ pre, Nat.toDigitsCore 10 fuel n ds = pre ++ ds ∧
        pre.foldl (fun a c => 10 * a + (c.toNat - 48)) 0 = n := by
  induction fuel with
  | zero => intro n ds h; omega
  | succ fuel ih =>
    intro n ds h
    unfold Nat.toDigitsCore
    by_cases h0 : n / 10 = 0
    · simp only [h0, if_true]
      refine ⟨[Nat.digitChar (n % 10)], rfl, ?_⟩
      simp only [List.foldl_cons, List.foldl_nil, Nat.mul_zero, Nat.zero_add]
      rw [digitChar_value _ (Nat.mod_lt _ (by decide))]
      omega
    · simp only [h0, if_false]
      obtain ⟨pre, hpre, hval⟩ := ih (n / 10) (Nat.digitChar (n % 10) :: ds) (by omega)
      refine ⟨pre ++ [Nat.digitChar (n % 10)], by rw [hpre]; simp, ?_⟩
      rw [List.foldl_append, hval]
      simp only [List.foldl_cons, List.foldl_nil]
      rw [digitChar_value _ (Nat.mod_lt _ (by decide))]
      omega

theorem toString_decode (n : Nat) :
    (toString n).data.foldl (fun a c => 10 * a + (c.toNat - 48)) 0 = n := by
  obtain ⟨pre, hpre, hval⟩ := toDigitsCore_decode (n + 1) n [] (by omega)
  have : (toString n).data = pre := by
    show Nat.toDigitsCore 10 (n + 1) n [] = pre
    rw [hpre, List.append_nil]
  rw [this, hval]

theorem toString_injective (a b : Nat) (h : toString a = toString b) : a = b := by
  rw [← toString_decode a, ← toString_decode b, h]

theorem joinName_injective (c n1 n2 : List Char) (h : joinName c n1 = joinName c n2) :
    n1 = n2 := by
  unfold joinName at h
  by_cases h1 : c = ['/']
  · simpa [h1] using h
  · by_cases h2 : c = ['.']
    · simpa [h1, h2] using h
    · rw [if_neg h1, if_neg h2, if_neg h1, if_neg h2] at h
      simpa using h

theorem probeName_data (stem suffix : String) (k : Nat) :
    (stem ++ "-" ++ toString k ++ "." ++ suffix).data =
      stem.data ++ ['-'] ++ (toString k).data ++ ['.'] ++ suffix.data := by
  simp [String.data_append]

theorem probePath_data (destDir stem suffix : String) (hstem : '/' ∉ stem.data)
    (hsuf : '/' ∉ suffix.data) (hn0 : PlainName (stem ++ "." ++ suffix).data) (k : Nat) :
    (probePath destDir stem suffix k).data =
      joinName (cleanChars destDir.data)
        (if k = 0 then stem.data ++ '.' :: suffix.data
          else stem.data ++ ['-'] ++ (toString k).data ++ ['.'] ++ suffix.data) := by
  unfold probePath
  by_cases hk : k = 0
  · rw [if_pos hk, if_pos hk, filepathJoin_data _ _ hn0]
    simp [String.data_append]
  · rw [if_neg hk, if_neg hk, filepathJoin_data _ _ (by
      rw [probeName_data]
      exact plainName_numbered _ _ _ hstem (toString_no_slash k) hsuf), probeName_data]

theorem statNotExist_eq_true_iff (w : World) (p : String) :
    w.statNotExist p = true ↔ w.statFails p = false ∧ w.present p = false := by
  unfold World.statNotExist
  cases w.statFails p <;> cases w.present p <;> simp

theorem statNotExist_of_present (w : World) (p : String) (h : w.present p = true) :
    w.statNotExist p = false := by
  unfold World.statNotExist
  rw [h]
  simp

theorem statNotExist_of_statFails (w : World) (p : String) (h : w.statFails p = true) :
    w.statNotExist p = false := by
  unfold World.statNotExist
  rw [h]
  simp

theorem files_of_not_present (w : World) (p : String) (h : w.present p = false) :
    w.files p = none := by
  unfold World.present at h
  cases hf : w.files p with
  | none => rfl
  | some c => simp [hf] at h

/-- C10, counterexample.  First, the registry tag `EXIF.JPG`, the base name `FILE0000` of
`FILE0000.CHK` and the destination `out` in which `out/FILE0000.EXIF.JPG` exists: nothing is
at `out/FILE0000-1.EXIF.JPG` and no `os.Stat` fails, yet `saveRecoveredFile` writes to
`out/FILE0000.EXIF-1.JPG` and leaves `out/FILE0000-1.EXIF.JPG` absent.  Then the names that
`filepath.Join` cleans away: for the empty base name and the empty tag the candidate
`out/.` is the directory `out` itself and the file goes to `out-1`, not to the name `-1.`
inside `out`; for the base name `.` and the empty tag the candidate `out/..` is the directory
`.` and the file goes to `-1.`, not to `out/.-1.`; and for the tag `a/b`, which holds a
separator, the file goes to `out/F.a/b-1`, not to `out/F-1.a/b`. -/
theorem saveRecoveredFile_numbered_name_counterexample :
    ((⟨"EXIF.JPG", [255, 216], [69, 120, 105, 102]⟩ : Signature) ∈ signatures ∧
      trimSuffix "FILE0000.CHK" (filepathExt "FILE0000.CHK") = "FILE0000" ∧
      (worldWith "out/FILE0000.EXIF.JPG" []).present "out/FILE0000.EXIF.JPG" = true ∧
      (worldWith "out/FILE0000.EXIF.JPG" []).present "out/FILE0000-1.EXIF.JPG" = false ∧
      (∀ p, (worldWith "out/FILE0000.EXIF.JPG" []).statFails p = false) ∧
      saveTarget (worldWith "out/FILE0000.EXIF.JPG" []) "out" "FILE0000" "EXIF.JPG" false 8 =
        some (some "out/FILE0000.EXIF-1.JPG") ∧
      (saveRecoveredFile "out" "FILE0000" "FILE0000.CHK" "EXIF.JPG" [255, 216] 1 1 false false 8
          (worldWith "out/FILE0000.EXIF.JPG" [])).map
        (fun w1 => (w1.files "out/FILE0000.EXIF-1.JPG", w1.files "out/FILE0000-1.EXIF.JPG")) =
        some (some [255, 216], none)) ∧
    (((worldWith "in/x.CHK" []).withDir "out").present "out/-1." = false ∧
      saveTarget ((worldWith "in/x.CHK" []).withDir "out") "out" "" "" false 8 =
        some (some "out-1")) ∧
    ((((worldWith "in/x.CHK" []).withDir "out").withDir ".").present "out/.-1." = false ∧
      saveTarget (((worldWith "in/x.CHK" []).withDir "out").withDir ".") "out" "." "" false 8 =
        some (some "-1.")) ∧
    ((worldWith "out/F.a/b" []).present "out/F-1.a/b" = false ∧
      saveTarget (worldWith "out/F.a/b" []) "out" "F" "a/b" false 8 =
        some (some "out/F.a/b-1")) := by
  refine ⟨⟨by decide, by decide, by decide, by decide, fun _ => rfl, by decide, by decide⟩,
    by decide, by decide, by decide⟩

/-- C10, amended: with `skip_existing = false`, for every destination directory and every base
name and extension tag free of separators whose file name `base.extension` is neither `.` nor
`..`, let `stem.suffix` be the file name `base.extension` split at its last dot (for a tag
without a dot `stem` is the base name and `suffix` the tag; for `EXIF.JPG` the stem is
`base.EXIF` and the suffix `JPG`).  The path that `saveRecoveredFile` passes to
`ioutil.WriteFile` is `destination/base.extension` when nothing is at that path, and otherwise
`destination/stem-k.suffix` for the smallest `k >= 1` such that nothing is at this path,
provided `os.Stat` does not fail at that path with an error other than not-exist; when the
write succeeds the payload is stored there and no other file changes. -/
theorem saveRecoveredFile_first_free (w : World)
    (destDir fileRoot fileName extension stem suffix : String) (data : List Nat)
    (currentFile totalFiles : Nat) (logger : Bool) (k fuel : Nat)
    (hname : fileRoot ++ "." ++ extension = stem ++ "." ++ suffix)
    (hstem : '/' ∉ stem.data) (hsuf : '/' ∉ suffix.data) (hdot : '.' ∉ suffix.data)
    (hn1 : fileRoot ++ "." ++ extension ≠ ".") (hn2 : fileRoot ++ "." ++ extension ≠ "..")
    (hfree : w.present (probePath destDir stem suffix k) = false)
    (hbusy : ∀ j, j < k → w.present (probePath destDir stem suffix j) = true)
    (hstat : w.statFails (probePath destDir stem suffix k) = false)
    (hfuel : k < fuel) :
    saveTarget w destDir fileRoot extension false fuel =
      some (some (probePath destDir stem suffix k)) ∧
    (w.writeFails (probePath destDir stem suffix k) = false →
      ∃ w1, saveRecoveredFile destDir fileRoot fileName extension data currentFile totalFiles
          false logger fuel w = some w1 ∧
        w1.files (probePath destDir stem suffix k) = some data ∧
        ∀ p, p ≠ probePath destDir stem suffix k → w1.files p = w.files p) := by
  have htarget : saveTarget w destDir fileRoot extension false fuel =
      some (some (probePath destDir stem suffix k)) := by
    rw [hname] at hn1 hn2
    obtain ⟨d, b, e, hloop, hprobe⟩ := getUniquePath_eq_loop w destDir stem suffix hstem hsuf
      hdot (plainName_of_ne stem suffix hstem hsuf hn1 hn2)
    unfold saveTarget
    simp only [Bool.false_eq_true, if_false, hname]
    rw [hloop, getUniquePathLoop_first_free w d b e (probePath destDir stem suffix) hprobe k
      ((statNotExist_eq_true_iff w _).mpr ⟨hstat, hfree⟩)
      (fun j hj => statNotExist_of_present w _ (hbusy j hj)) fuel 0 (Nat.zero_le k) (by omega)]
  refine ⟨htarget, ?_⟩
  intro hw
  unfold saveRecoveredFile
  rw [htarget]
  simp only [World.writeFile, hw, Bool.false_eq_true, if_false]
  refine ⟨_, rfl, ?_, ?_⟩
  · cases logger <;> simp [World.logf, World.printf]
  · intro p hp
    cases logger <;> simp [World.logf, World.printf, hp]

/-- Witness of amended C10: the tag `JPG` with `out/FILE0000.JPG` present, so `k = 1`. -/
theorem saveRecoveredFile_first_free_witness :
    saveTarget (worldWith "out/FILE0000.JPG" []) "out" "FILE0000" "JPG" false 8 =
      some (some (probePath "out" "FILE0000" "JPG" 1)) ∧
    ((worldWith "out/FILE0000.JPG" []).writeFails (probePath "out" "FILE0000" "JPG" 1) = false →
      ∃ w1, saveRecoveredFile "out" "FILE0000" "FILE0000.CHK" "JPG" [255, 216] 1 1
          false true 8 (worldWith "out/FILE0000.JPG" []) = some w1 ∧
        w1.files (probePath "out" "FILE0000" "JPG" 1) = some [255, 216] ∧
        ∀ p, p ≠ probePath "out" "FILE0000" "JPG" 1 →
          w1.files p = (worldWith "out/FILE0000.JPG" []).files p) :=
  saveRecoveredFile_first_free (worldWith "out/FILE0000.JPG" []) "out" "FILE0000"
    "FILE0000.CHK" "JPG" "FILE0000" "JPG" [255, 216] 1 1 true 1 8 rfl (by decide) (by decide)
    (by decide) (by decide) (by decide) (by decide) (by decide) (by decide) (by decide)

theorem getUniquePathProbe_eq (destDir stem suffix : String)
    (hstem : '/' ∉ stem.data) (hsuf : '/' ∉ suffix.data) (hdot : '.' ∉ suffix.data)
    (hn0 : PlainName (stem ++ "." ++ suffix).data) (k : Nat) :
    getUniquePathProbe (filepathJoin destDir (stem ++ "." ++ suffix)) k =
      probePath destDir stem suffix k := by
  have hn0data : (stem ++ "." ++ suffix).data = stem.data ++ '.' :: suffix.data := by
    simp [String.data_append]
  have hname : stem ++ "." ++ suffix = ⟨stem.data ++ '.' :: suffix.data⟩ := String.ext hn0data
  have hdir : filepathDir (filepathJoin destDir (stem ++ "." ++ suffix)) =
      ⟨cleanChars destDir.data⟩ := filepathDir_join _ _ hn0
  have hext : filepathExt (filepathJoin destDir (stem ++ "." ++ suffix)) =
      ⟨'.' :: suffix.data⟩ := by
    rw [filepathExt_join _ _ hn0, hname]
    exact filepathExt_append_dot _ _ hsuf hdot
  have hbase : trimSuffix (filepathBase (filepathJoin destDir (stem ++ "." ++ suffix)))
      ⟨'.' :: suffix.data⟩ = stem := by
    rw [filepathBase_join _ _ hn0, hname, trimSuffix_append]
  unfold getUniquePathProbe probePath
  by_cases hk : k = 0
  · rw [if_pos hk, if_pos hk]
  · rw [if_neg hk, if_neg hk, hdir, hext, hbase]
    have hnk : stem ++ "-" ++ toString k ++ (⟨'.' :: suffix.data⟩ : String) =
        stem ++ "-" ++ toString k ++ "." ++ suffix := by
      apply String.ext
      simp [String.data_append]
    rw [hnk, filepathJoin_clean _ _ (by
      rw [probeName_data]
      exact plainName_numbered _ _ _ hstem (toString_no_slash k) hsuf)]

theorem numbered_length (stem suffix : String) (j : Nat) :
    (stem ++ "." ++ suffix).length ≤ (stem ++ "-" ++ toString j ++ "." ++ suffix).length := by
  simp only [String.length_append]
  omega

theorem probePath_base (destDir stem suffix : String) (hstem : '/' ∉ stem.data)
    (hsuf : '/' ∉ suffix.data) (hn0 : PlainName (stem ++ "." ++ suffix).data) (k : Nat) :
    (stem ++ "." ++ suffix).length ≤ (filepathBase (probePath destDir stem suffix k)).length := by
  unfold probePath
  by_cases hk : k = 0
  · rw [if_pos hk, filepathBase_join _ _ hn0]
  · rw [if_neg hk, filepathBase_join _ _ (by
      rw [probeName_data]
      exact plainName_numbered _ _ _ hstem (toString_no_slash k) hsuf)]
    exact numbered_length stem suffix k

theorem getUniquePath_none_of_long (w : World) (destDir stem suffix : String)
    (hstem : '/' ∉ stem.data) (hsuf : '/' ∉ suffix.data) (hdot : '.' ∉ suffix.data)
    (hn0 : PlainName (stem ++ "." ++ suffix).data)
    (hlong : ∀ p, 255 < (filepathBase p).length → w.statFails p = true)
    (hlen : 255 < (stem ++ "." ++ suffix).length) (fuel : Nat) :
    getUniquePath w (filepathJoin destDir (stem ++ "." ++ suffix)) fuel = none := by
  obtain ⟨d, b, e, hloop, hprobe⟩ := getUniquePath_eq_loop w destDir stem suffix hstem hsuf
    hdot hn0
  rw [hloop]
  refine getUniquePathLoop_out_of_fuel w d b e (probePath destDir stem suffix) hprobe fuel ?_
    fuel 0 (by omega)
  intro j _
  apply statNotExist_of_statFails
  apply hlong
  have := probePath_base destDir stem suffix hstem hsuf hn0 j
  omega

theorem longNameWorld_statFails (p : String) (h : 255 < (filepathBase p).length) :
    longNameWorld.statFails p = true := by
  simp [longNameWorld, World.withNameLimit, h]

/-- C11, the code at the failing input: on a file system with the usual limit of 255 bytes
for a name, in which the directory `out` is empty, `getUniquePath` is called with
`out/AAA…A.ACCDB`, whose name has 256 characters.  Nothing is at that path, so the first name
of the probe sequence does not exist, but `os.Stat` fails there with `ENAMETOOLONG`, as it does
at every numbered name, `os.IsNotExist` is never true and the loop never ends: no fuel gives a
result. -/
theorem getUniquePath_long_name_never_returns :
    filepathJoin "out" (longRoot ++ "." ++ "ACCDB") = "out/" ++ longRoot ++ ".ACCDB" ∧
    (longRoot ++ ".ACCDB").length = 256 ∧
    longNameWorld.present ("out/" ++ longRoot ++ ".ACCDB") = false ∧
    (∀ k, longNameWorld.statFails (getUniquePathProbe ("out/" ++ longRoot ++ ".ACCDB") k) = true) ∧
    ∀ fuel, getUniquePath longNameWorld ("out/" ++ longRoot ++ ".ACCDB") fuel = none := by
  have hpath : filepathJoin "out" (longRoot ++ "." ++ "ACCDB") = "out/" ++ longRoot ++ ".ACCDB" := by
    decide
  have hn0 : PlainName (longRoot ++ "." ++ "ACCDB").data :=
    plainName_of_ne longRoot "ACCDB" (by decide) (by decide) (by decide) (by decide)
  refine ⟨hpath, by decide, by decide, ?_, ?_⟩
  · intro k
    rw [← hpath, getUniquePathProbe_eq "out" longRoot "ACCDB" (by decide) (by decide) (by decide)
      hn0 k]
    apply longNameWorld_statFails
    have := probePath_base "out" longRoot "ACCDB" (by decide) (by decide) hn0 k
    have hl : (longRoot ++ "." ++ "ACCDB").length = 256 := by decide
    omega
  · intro fuel
    rw [← hpath]
    exact getUniquePath_none_of_long longNameWorld "out" longRoot "ACCDB" (by decide) (by decide)
      (by decide) hn0 longNameWorld_statFails (by decide) fuel

theorem saveTarget_skip (w : World) (destDir fileRoot extension : String) (fuel : Nat) :
    saveTarget w destDir fileRoot extension true fuel =
      if w.statNotExist (filepathJoin destDir (fileRoot ++ "." ++ extension)) then
        some (some (filepathJoin destDir (fileRoot ++ "." ++ extension)))
      else some none := by
  unfold saveTarget
  cases h : w.statNotExist (filepathJoin destDir (fileRoot ++ "." ++ extension)) <;> simp [h]

/-- C12, the code at the failing input: skip mode, the directory `out` empty, on a file system
with the usual limit of 255 bytes for a name, and the 256-character name `AAA…A.ACCDB`.
Nothing is at `out/AAA…A.ACCDB`, but `os.Stat` fails there with `ENAMETOOLONG`, so
`!os.IsNotExist(err)` holds and `saveRecoveredFile` takes the skip branch: it prints
`Skipped! ... (already exists)`, logs `SKIPPED (exists) -> ACCDB` and returns without calling
`ioutil.WriteFile`; no file changes. -/
theorem saveRecoveredFile_skip_long_name (logger : Bool) (fuel : Nat) :
    longNameWorld.present (filepathJoin "out" (longRoot ++ "." ++ "ACCDB")) = false ∧
    longNameWorld.statFails (filepathJoin "out" (longRoot ++ "." ++ "ACCDB")) = true ∧
    saveTarget longNameWorld "out" longRoot "ACCDB" true fuel = some none ∧
    saveRecoveredFile "out" longRoot (longRoot ++ ".CHK") "ACCDB" [0, 1] 1 1 true logger fuel
        longNameWorld =
      some ((longNameWorld.printf ("\rSkipped! [1/1]: " ++ longRoot ++ ".CHK" ++ " -> " ++
        longRoot ++ ".ACCDB" ++ " (already exists)\n")).logf logger
        (longRoot ++ ".CHK" ++ "\tSKIPPED (exists) -> ACCDB")) ∧
    ∀ w1, saveRecoveredFile "out" longRoot (longRoot ++ ".CHK") "ACCDB" [0, 1] 1 1 true logger
        fuel longNameWorld = some w1 →
      w1.files = longNameWorld.files ∧
      w1.files (filepathJoin "out" (longRoot ++ "." ++ "ACCDB")) = none := by
  have hstat : longNameWorld.statNotExist (filepathJoin "out" (longRoot ++ "." ++ "ACCDB")) =
      false := by decide
  have ht : saveTarget longNameWorld "out" longRoot "ACCDB" true fuel = some none := by
    rw [saveTarget_skip, hstat]
    rfl
  have hbase : filepathBase (filepathJoin "out" (longRoot ++ "." ++ "ACCDB")) =
      longRoot ++ ".ACCDB" := by decide
  have hs : saveRecoveredFile "out" longRoot (longRoot ++ ".CHK") "ACCDB" [0, 1] 1 1 true logger
      fuel longNameWorld =
      some ((longNameWorld.printf ("\rSkipped! [1/1]: " ++ longRoot ++ ".CHK" ++ " -> " ++
        longRoot ++ ".ACCDB" ++ " (already exists)\n")).logf logger
        (longRoot ++ ".CHK" ++ "\tSKIPPED (exists) -> ACCDB")) := by
    unfold saveRecoveredFile
    rw [ht]
    simp only [hbase]
    rfl
  refine ⟨by decide, by decide, ht, hs, ?_⟩
  intro w1 hw1
  rw [hs] at hw1
  have := Option.some.inj hw1
  subst this
  constructor
  · cases logger <;> rfl
  · cases logger <;> decide

theorem probePath_injective (destDir stem suffix : String) (hstem : '/' ∉ stem.data)
    (hsuf : '/' ∉ suffix.data) (hn0 : PlainName (stem ++ "." ++ suffix).data) (j k : Nat)
    (h : probePath destDir stem suffix j = probePath destDir stem suffix k) : j = k := by
  have hd := congrArg String.data h
  rw [probePath_data _ _ _ hstem hsuf hn0, probePath_data _ _ _ hstem hsuf hn0] at hd
  have hn := joinName_injective _ _ _ hd
  by_cases hj : j = 0
  · by_cases hk : k = 0
    · omega
    · rw [if_pos hj, if_neg hk] at hn
      simp [List.append_assoc] at hn
  · by_cases hk : k = 0
    · rw [if_neg hj, if_pos hk] at hn
      simp [List.append_assoc] at hn
    · rw [if_neg hj, if_neg hk] at hn
      have h2 : (toString j).data ++ ('.' :: suffix.data) =
          (toString k).data ++ ('.' :: suffix.data) := by
        simpa [List.append_assoc] using hn
      exact toString_injective j k (String.ext (List.append_cancel_right h2))

theorem exists_free_probe (w : World) (paths : List String) (hfin : FilesWithin w paths)
    (probe : Nat → String) (hinj : ∀ j k, probe j = probe k → j = k)
    (hstat : ∀ k, k ≤ paths.length → w.statFails (probe k) = false) :
    ∃ k, k ≤ paths.length ∧ w.statNotExist (probe k) = true := by
  by_contra hno
  have hall : ∀ k, k ≤ paths.length → probe k ∈ paths := by
    intro k hk
    apply hfin
    by_contra hp
    apply hno
    exact ⟨k, hk, (statNotExist_eq_true_iff w _).mpr ⟨hstat k hk, by simpa using hp⟩⟩
  have hnodup : ((List.range (paths.length + 1)).map probe).Nodup := by
    apply List.Nodup.map_on
    · intro a _ b _ hab
      exact hinj a b hab
    · exact List.nodup_range _
  have hsub : (List.range (paths.length + 1)).map probe ⊆ paths := by
    intro p hp
    rw [List.mem_map] at hp
    obtain ⟨k, hk, rfl⟩ := hp
    exact hall k (by have := List.mem_range.mp hk; omega)
  have := (hnodup.subperm hsub).length_le
  simp at this

theorem last_dot_split (n : List Char) (h : '.' ∈ n) :
    ∃ stem suffix, n = stem ++ '.' :: suffix ∧ '.' ∉ suffix := by
  have hr : '.' ∈ n.reverse := List.mem_reverse.mpr h
  obtain ⟨as, bs, heq, hnot⟩ := List.eq_append_cons_of_mem hr
  refine ⟨bs.reverse, as.reverse, ?_, by simpa using hnot⟩
  have := congrArg List.reverse heq
  simpa using this

theorem recoveredName_split (fileRoot extension : String) (hroot : '/' ∉ fileRoot.data)
    (htag : ValidTag extension) :
    ∃ stem suffix : String, fileRoot ++ "." ++ extension = stem ++ "." ++ suffix ∧
      '/' ∉ stem.data ∧ '/' ∉ suffix.data ∧ '.' ∉ suffix.data ∧
      PlainName (stem ++ "." ++ suffix).data := by
  have hdata : (fileRoot ++ "." ++ extension).data = fileRoot.data ++ '.' :: extension.data := by
    simp [String.data_append]
  obtain ⟨stem, suffix, hsplit, hdot⟩ := last_dot_split (fileRoot ++ "." ++ extension).data
    (by rw [hdata]; simp)
  have hnoslash : '/' ∉ (fileRoot ++ "." ++ extension).data := by
    rw [hdata]
    simp only [List.mem_append, List.mem_cons, not_or]
    exact ⟨hroot, by decide, htag.1⟩
  have hname : fileRoot ++ "." ++ extension = (⟨stem⟩ : String) ++ "." ++ ⟨suffix⟩ := by
    apply String.ext
    rw [hsplit]
    simp [String.data_append]
  have hs1 : '/' ∉ stem := fun hm => hnoslash (by rw [hsplit]; simp [hm])
  have hs2 : '/' ∉ suffix := fun hm => hnoslash (by rw [hsplit]; simp [hm])
  refine ⟨⟨stem⟩, ⟨suffix⟩, hname, hs1, hs2, hdot, ?_⟩
  rw [← hname]
  have hext : extension.data ≠ [] := fun h => htag.2.1 (String.ext h)
  refine ⟨⟨by rw [hdata]; simp, ?_, hnoslash⟩, ?_⟩
  · rw [hdata]
    intro h
    have := congrArg List.length h
    have := List.length_pos.mpr hext
    simp at *
    omega
  · rw [hdata]
    intro h
    have hl := congrArg List.length h
    have hpos := List.length_pos.mpr hext
    simp only [List.length_append, List.length_cons, List.length_nil] at hl
    have hr0 : fileRoot.data = [] := List.length_eq_zero.mp (by omega)
    rw [hr0, List.nil_append, List.cons.injEq] at h
    exact htag.2.2 (String.ext h.2)

theorem getUniquePath_total (w : World) (paths : List String) (hfin : FilesWithin w paths)
    (destDir fileRoot extension : String) (hroot : '/' ∉ fileRoot.data)
    (htag : ValidTag extension)
    (hstat : ∀ k, k ≤ paths.length → w.statFails
      (getUniquePathProbe (filepathJoin destDir (fileRoot ++ "." ++ extension)) k) = false)
    (fuel : Nat) (hfuel : paths.length < fuel) :
    ∃ p, getUniquePath w (filepathJoin destDir (fileRoot ++ "." ++ extension)) fuel = some p := by
  obtain ⟨stem, suffix, hname, hs1, hs2, hdot, hplain⟩ :=
    recoveredName_split fileRoot extension hroot htag
  rw [hname] at hstat ⊢
  obtain ⟨k0, hk0, hfree0⟩ := exists_free_probe w paths hfin (probePath destDir stem suffix)
    (probePath_injective destDir stem suffix hs1 hs2 hplain)
    (fun k hk => by
      rw [← getUniquePathProbe_eq destDir stem suffix hs1 hs2 hdot hplain k]
      exact hstat k hk)
  have hex : ∃ k, w.statNotExist (probePath destDir stem suffix k) = true := ⟨k0, hfree0⟩
  classical
  have hk : w.statNotExist (probePath destDir stem suffix (Nat.find hex)) = true :=
    Nat.find_spec hex
  have hle : Nat.find hex ≤ k0 := Nat.find_min' hex hfree0
  have hbusy : ∀ j, j < Nat.find hex →
      w.statNotExist (probePath destDir stem suffix j) = false := by
    intro j hj
    have := Nat.find_min hex hj
    simpa using this
  obtain ⟨d, b, e, hloop, hprobe⟩ := getUniquePath_eq_loop w destDir stem suffix hs1 hs2 hdot
    hplain
  refine ⟨probePath destDir stem suffix (Nat.find hex), ?_⟩
  rw [hloop]
  exact getUniquePathLoop_first_free w d b e (probePath destDir stem suffix) hprobe _ hk hbusy
    fuel 0 (Nat.zero_le _) (by omega)

theorem getUniquePathLoop_some_free (w : World) (dir base ext : String) :
    ∀ (fuel : Nat) (newPath : String) (counter : Nat) (p : String),
      getUniquePathLoop w dir base ext fuel newPath counter = some p →
        w.statNotExist p = true := by
  intro fuel
  induction fuel with
  | zero => intro newPath counter p h; simp [getUniquePathLoop] at h
  | succ fuel ih =>
    intro newPath counter p h
    unfold getUniquePathLoop at h
    by_cases hfree : w.statNotExist newPath = true
    · rw [if_pos hfree] at h
      rw [← Option.some.inj h]
      exact hfree
    · rw [if_neg hfree] at h
      exact ih _ _ p h

theorem saveTarget_free (w : World) (destDir fileRoot extension : String) (skipExisting : Bool)
    (fuel : Nat) (p : String)
    (h : saveTarget w destDir fileRoot extension skipExisting fuel = some (some p)) :
    w.statNotExist p = true := by
  cases skipExisting with
  | true =>
    rw [saveTarget_skip] at h
    by_cases hfree : w.statNotExist (filepathJoin destDir (fileRoot ++ "." ++ extension)) = true
    · rw [if_pos hfree] at h
      simp only [Option.some.injEq] at h
      rw [← h]
      exact hfree
    · rw [if_neg hfree] at h
      simp at h
  | false =>
    unfold saveTarget at h
    simp only [Bool.false_eq_true, if_false] at h
    cases hg : getUniquePath w (filepathJoin destDir (fileRoot ++ "." ++ extension)) fuel with
    | none => simp [hg] at h
    | some q =>
      simp only [hg, Option.some.injEq] at h
      subst h
      unfold getUniquePath at hg
      exact getUniquePathLoop_some_free w _ _ _ _ _ _ _ hg

theorem files_of_statNotExist (w : World) (p : String) (h : w.statNotExist p = true) :
    w.files p = none :=
  files_of_not_present w p ((statNotExist_eq_true_iff w p).mp h).2

theorem saveRecoveredFile_cases (destDir fileRoot fileName extension : String)
    (data : List Nat) (currentFile totalFiles : Nat) (skipExisting logger : Bool) (fuel : Nat)
    (w w1 : World)
    (h : saveRecoveredFile destDir fileRoot fileName extension data currentFile totalFiles
      skipExisting logger fuel w = some w1) :
    (w1.writeFails = w.writeFails ∧ w1.statFails = w.statFails ∧ w1.dirs = w.dirs) ∧
    w1.readFails = w.readFails ∧
    ((saveTarget w destDir fileRoot extension skipExisting fuel = some none ∧
        w1.files = w.files ∧
        w1.log = w.log ++
          (if logger then [fileName ++ "\tSKIPPED (exists) -> " ++ extension] else [])) ∨
      (∃ p, saveTarget w destDir fileRoot extension skipExisting fuel = some (some p) ∧
        w.files p = none ∧ w.writeFails p = true ∧ w1.files = w.files ∧ w1.log = w.log) ∨
      (∃ p, saveTarget w destDir fileRoot extension skipExisting fuel = some (some p) ∧
        w.files p = none ∧ w.writeFails p = false ∧ w1.files = (w.withFile p data).files ∧
        w1.log = w.log ++ (if logger then [fileName ++ "\t" ++ extension] else []))) := by
  unfold saveRecoveredFile at h
  cases ht : saveTarget w destDir fileRoot extension skipExisting fuel with
  | none => simp [ht] at h
  | some t =>
    cases t with
    | none =>
      simp only [ht, Option.some.injEq] at h
      subst h
      refine ⟨⟨by cases logger <;> rfl, by cases logger <;> rfl, by cases logger <;> rfl⟩,
        by cases logger <;> rfl, Or.inl ⟨rfl, ?_, ?_⟩⟩
      · cases logger <;> rfl
      · cases logger <;> simp [World.logf, World.printf]
    | some p =>
      have hfree : w.files p = none :=
        files_of_statNotExist w p (saveTarget_free w _ _ _ _ _ p ht)
      simp only [ht] at h
      by_cases hw : w.writeFails p = true
      · simp only [World.writeFile, hw, if_true, Option.some.injEq] at h
        subst h
        exact ⟨⟨rfl, rfl, rfl⟩, rfl, Or.inr (Or.inl ⟨p, rfl, hfree, hw, rfl, rfl⟩)⟩
      · have hw2 : w.writeFails p = false := by simpa using hw
        simp only [World.writeFile, hw2, Bool.false_eq_true, if_false,
          Option.some.injEq] at h
        subst h
        refine ⟨⟨by cases logger <;> rfl, by cases logger <;> rfl, by cases logger <;> rfl⟩,
          by cases logger <;> rfl, Or.inr (Or.inr ⟨p, rfl, hfree, hw2, ?_, ?_⟩)⟩
        · cases logger <;> rfl
        · cases logger <;> simp [World.logf, World.printf]

theorem saveRecoveredFile_isSome (destDir fileRoot fileName extension : String)
    (data : List Nat) (currentFile totalFiles : Nat) (skipExisting logger : Bool) (fuel : Nat)
    (w : World) (h : saveTarget w destDir fileRoot extension skipExisting fuel ≠ none) :
    ∃ w1, saveRecoveredFile destDir fileRoot fileName extension data currentFile totalFiles
      skipExisting logger fuel w = some w1 := by
  unfold saveRecoveredFile
  cases ht : saveTarget w destDir fileRoot extension skipExisting fuel with
  | none => exact absurd ht h
  | some t =>
    cases t with
    | none => exact ⟨_, rfl⟩
    | some p =>
      simp only
      cases w.writeFile p data with
      | none => exact ⟨_, rfl⟩
      | some w2 => exact ⟨_, rfl⟩

theorem saveTarget_ne_none (w : World) (paths : List String) (hfin : FilesWithin w paths)
    (destDir fileRoot extension : String) (skipExisting : Bool) (hroot : '/' ∉ fileRoot.data)
    (htag : ValidTag extension)
    (hstat : skipExisting = false → ∀ k, k ≤ paths.length → w.statFails
      (getUniquePathProbe (filepathJoin destDir (fileRoot ++ "." ++ extension)) k) = false)
    (fuel : Nat) (hfuel : paths.length < fuel) :
    saveTarget w destDir fileRoot extension skipExisting fuel ≠ none := by
  cases skipExisting with
  | true =>
    rw [saveTarget_skip]
    split <;> simp
  | false =>
    obtain ⟨p, hp⟩ := getUniquePath_total w paths hfin destDir fileRoot extension hroot htag
      (hstat rfl) fuel hfuel
    unfold saveTarget
    simp [hp]

theorem filesWithin_step (w w1 : World) (paths : List String) (hfin : FilesWithin w paths)
    (destDir fileRoot fileName extension : String)
    (data : List Nat) (currentFile totalFiles : Nat) (skipExisting logger : Bool) (fuel : Nat)
    (h : saveRecoveredFile destDir fileRoot fileName extension data currentFile totalFiles
      skipExisting logger fuel w = some w1) :
    ∃ q, FilesWithin w1 (q :: paths) := by
  obtain ⟨⟨_, _, hd⟩, _, hc⟩ := saveRecoveredFile_cases _ _ _ _ _ _ _ _ _ _ _ _ h
  rcases hc with ⟨_, hf, _⟩ | ⟨p, _, _, _, hf, _⟩ | ⟨p, _, _, _, hf, _⟩
  · refine ⟨"", fun q hq => List.mem_cons_of_mem _ (hfin q ?_)⟩
    unfold World.present at hq ⊢
    rwa [hf, hd] at hq
  · refine ⟨"", fun q hq => List.mem_cons_of_mem _ (hfin q ?_)⟩
    unfold World.present at hq ⊢
    rwa [hf, hd] at hq
  · refine ⟨p, fun q hq => ?_⟩
    unfold World.present at hq
    rw [hf, hd] at hq
    by_cases hqp : q = p
    · rw [hqp]; exact List.mem_cons_self _ _
    · apply List.mem_cons_of_mem
      apply hfin
      unfold World.present
      simpa [World.withFile, hqp] using hq

theorem saveAll_total (destDir fileRoot fileName : String) (currentFile totalFiles : Nat)
    (skipExisting logger : Bool) (fuel : Nat) (hroot : '/' ∉ fileRoot.data) :
    ∀ (arts : List Artifact) (w : World) (paths : List String), FilesWithin w paths →
      (∀ a ∈ arts, ValidTag a.1) →
      (skipExisting = false → ∀ a ∈ arts, ∀ k, k < paths.length + arts.length → w.statFails
        (getUniquePathProbe (filepathJoin destDir (fileRoot ++ "." ++ a.1)) k) = false) →
      paths.length + arts.length ≤ fuel →
      ∃ w1, saveAll destDir fileRoot fileName currentFile totalFiles skipExisting logger fuel
        arts w = some w1 := by
  intro arts
  induction arts with
  | nil => intro w _ _ _ _ _; exact ⟨w, rfl⟩
  | cons a rest ih =>
    intro w paths hfin htags hstat hfuel
    simp only [List.length_cons] at hfuel hstat
    obtain ⟨w1, hw1⟩ := saveRecoveredFile_isSome destDir fileRoot fileName a.1 a.2 currentFile
      totalFiles skipExisting logger fuel w
      (saveTarget_ne_none w paths hfin destDir fileRoot a.1 skipExisting hroot
        (htags a (List.mem_cons_self _ _))
        (fun hs k hk => hstat hs a (List.mem_cons_self _ _) k (by omega)) fuel (by omega))
    obtain ⟨q, hfin1⟩ := filesWithin_step w w1 paths hfin _ _ _ _ _ _ _ _ _ _ hw1
    obtain ⟨⟨_, hsf, _⟩, _, _⟩ := saveRecoveredFile_cases _ _ _ _ _ _ _ _ _ _ _ _ hw1
    obtain ⟨w2, hw2⟩ := ih w1 (q :: paths) hfin1
      (fun b hb => htags b (List.mem_cons_of_mem _ hb))
      (fun hs b hb k hk => by
        rw [hsf]
        exact hstat hs b (List.mem_cons_of_mem _ hb) k (by
          simp only [List.length_cons] at hk; omega))
      (by simp only [List.length_cons]; omega)
    refine ⟨w2, ?_⟩
    unfold saveAll
    rw [hw1]
    exact hw2

theorem saveAll_new_files (destDir fileRoot fileName : String) (currentFile totalFiles : Nat)
    (logger : Bool) (fuel : Nat) :
    ∀ (arts : List Artifact) (w w1 : World), (∀ p, w.writeFails p = false) →
      saveAll destDir fileRoot fileName currentFile totalFiles false logger fuel arts w =
        some w1 →
      ∃ paths : List String, paths.length = arts.length ∧ paths.Nodup ∧
        (∀ p ∈ paths, w.files p = none) ∧
        (∀ pa ∈ paths.zip arts, w1.files pa.1 = some pa.2.2) ∧
        (∀ p, p ∉ paths → w1.files p = w.files p) := by
  intro arts
  induction arts with
  | nil =>
    intro w w1 _ h
    simp only [saveAll, Option.some.injEq] at h
    subst h
    exact ⟨[], rfl, List.nodup_nil, by simp, by simp, fun _ _ => rfl⟩
  | cons a rest ih =>
    intro w w1 hwf h
    unfold saveAll at h
    cases hs : saveRecoveredFile destDir fileRoot fileName a.1 a.2 currentFile totalFiles false
        logger fuel w with
    | none => simp [hs] at h
    | some w2 =>
      simp only [hs] at h
      obtain ⟨⟨hwf2, _, _⟩, _, hc⟩ := saveRecoveredFile_cases _ _ _ _ _ _ _ _ _ _ _ _ hs
      have hnoskip : saveTarget w destDir fileRoot a.1 false fuel ≠ some none := by
        unfold saveTarget
        simp only [Bool.false_eq_true, if_false]
        cases getUniquePath w (filepathJoin destDir (fileRoot ++ "." ++ a.1)) fuel <;> simp
      rcases hc with ⟨ht, _⟩ | ⟨p, _, _, hfail, _⟩ | ⟨p, _, hfree, _, hf, _⟩
      · exact absurd ht hnoskip
      · rw [hwf p] at hfail
        exact absurd hfail (by simp)
      · obtain ⟨paths, hlen, hnd, hnew, hcontent, hother⟩ := ih w2 w1
          (fun q => by rw [hwf2]; exact hwf q) h
        have hp2 : w2.files p = some a.2 := by
          rw [hf]; simp [World.withFile]
        have hpnot : p ∉ paths := by
          intro hmem
          rw [hnew p hmem] at hp2
          exact absurd hp2 (by simp)
        refine ⟨p :: paths, by simp [hlen], List.nodup_cons.mpr ⟨hpnot, hnd⟩, ?_, ?_, ?_⟩
        · intro q hq
          rw [List.mem_cons] at hq
          rcases hq with hq | hq
          · rw [hq]; exact hfree
          · have h2 := hnew q hq
            rw [hf] at h2
            by_cases hqp : q = p
            · rw [hqp]; exact hfree
            · simpa [World.withFile, hqp] using h2
        · intro pa hpa
          rw [List.zip_cons_cons, List.mem_cons] at hpa
          rcases hpa with hpa | hpa
          · rw [hpa]
            show w1.files p = some a.2
            rw [hother p hpnot, hp2]
          · exact hcontent pa hpa
        · intro q hq
          rw [List.mem_cons, not_or] at hq
          rw [hother q hq.2, hf]
          simp [World.withFile, hq.1]

theorem saveAll_preserves (destDir fileRoot fileName : String) (currentFile totalFiles : Nat)
    (skipExisting logger : Bool) (fuel : Nat) :
    ∀ (arts : List Artifact) (w w1 : World),
      saveAll destDir fileRoot fileName currentFile totalFiles skipExisting logger fuel arts w =
        some w1 →
      ∀ p c, w.files p = some c → w1.files p = some c := by
  intro arts
  induction arts with
  | nil =>
    intro w w1 h p c hp
    simp only [saveAll, Option.some.injEq] at h
    subst h
    exact hp
  | cons a rest ih =>
    intro w w1 h p c hp
    unfold saveAll at h
    cases hs : saveRecoveredFile destDir fileRoot fileName a.1 a.2 currentFile totalFiles
        skipExisting logger fuel w with
    | none => simp [hs] at h
    | some w2 =>
      simp only [hs] at h
      apply ih w2 w1 h p c
      obtain ⟨_, _, hc⟩ := saveRecoveredFile_cases _ _ _ _ _ _ _ _ _ _ _ _ hs
      rcases hc with ⟨_, hf, _⟩ | ⟨q, _, _, _, hf, _⟩ | ⟨q, _, hfree, _, hf, _⟩
      · rw [hf]; exact hp
      · rw [hf]; exact hp
      · rw [hf]
        have hne : p ≠ q := by
          intro e
          rw [e, hfree] at hp
          exact absurd hp (by simp)
        simp [World.withFile, hne, hp]

theorem mem_carve_iff (sigs : List Signature) (data : List Nat) (a : Artifact) :
    a ∈ carve sigs data ↔
      ∃ i s, i < data.length ∧ s ∈ sigs ∧ signatureMatches data i s = true ∧
        a = (s.Extension, data.drop i) := by
  rw [carve_eq_flatMap, List.mem_flatMap]
  constructor
  · rintro ⟨i, hi, ha⟩
    rw [carveSignatures_eq, List.mem_map] at ha
    obtain ⟨s, hs, rfl⟩ := ha
    rw [List.mem_filter] at hs
    exact ⟨i, s, List.mem_range.mp hi, hs.1, hs.2, rfl⟩
  · rintro ⟨i, s, hi, hs, hm, rfl⟩
    refine ⟨i, List.mem_range.mpr hi, ?_⟩
    rw [carveSignatures_eq, List.mem_map]
    exact ⟨s, List.mem_filter.mpr ⟨hs, hm⟩, rfl⟩

theorem mem_trimSuffix (s suffix : String) : ∀ c ∈ (trimSuffix s suffix).data, c ∈ s.data := by
  intro c hc
  unfold trimSuffix at hc
  split at hc
  · exact List.mem_of_mem_take hc
  · exact hc

theorem fileArtifacts_tags (jsonValid : List Nat → Bool) (rnd : ℚ → ℚ) (sigs : List Signature)
    (data : List Nat) (htags : ∀ s ∈ sigs, ValidTag s.Extension) :
    ∀ a ∈ fileArtifacts jsonValid rnd sigs data, ValidTag a.1 := by
  intro a ha
  by_cases hc : carve sigs data = []
  · rw [fileArtifacts_of_carve_eq_nil _ _ _ _ hc] at ha
    have hj : ValidTag "json" := by
      refine ⟨by decide, by decide, by decide⟩
    have ht : ValidTag "txt" := by
      refine ⟨by decide, by decide, by decide⟩
    split at ha
    · split at ha
      · rw [List.mem_singleton] at ha; rw [ha]; exact hj
      · rw [List.mem_singleton] at ha; rw [ha]; exact ht
    · simp at ha
  · rw [fileArtifacts_of_carve_ne_nil _ _ _ _ hc] at ha
    obtain ⟨i, s, _, hs, _, rfl⟩ := (mem_carve_iff sigs data a).mp ha
    exact htags s hs

theorem processFile_some (jsonValid : List Nat → Bool) (rnd : ℚ → ℚ)
    (sigs : List Signature) (chkPath destDir : String) (currentFile totalFiles : Nat)
    (logger skipExisting : Bool) (fuel : Nat) (w w2 : World) (data : List Nat)
    (hread : w.readFile chkPath = some data) (hlen : data.length ≠ 0)
    (h : processFile jsonValid rnd sigs chkPath destDir currentFile totalFiles logger
      skipExisting fuel w = some w2) :
    ∃ w1, saveAll destDir (trimSuffix (filepathBase chkPath) (filepathExt (filepathBase chkPath)))
        (filepathBase chkPath) currentFile totalFiles skipExisting logger fuel
        (fileArtifacts jsonValid rnd sigs data)
        (w.printf ("\rScanning [" ++ toString currentFile ++ "/" ++ toString totalFiles ++
          "]: " ++ filepathBase chkPath ++ "...")) = some w1 ∧
      w2.files = w1.files ∧
      w2.log = w1.log ++
        (if fileArtifacts jsonValid rnd sigs data = [] ∧ logger = true then
          [filepathBase chkPath ++ "\t(not recovered)"] else []) := by
  rw [processFile_of_read jsonValid rnd sigs chkPath destDir currentFile totalFiles logger
    skipExisting fuel w data hread hlen] at h
  cases hs : saveAll destDir
      (trimSuffix (filepathBase chkPath) (filepathExt (filepathBase chkPath)))
      (filepathBase chkPath) currentFile totalFiles skipExisting logger fuel
      (fileArtifacts jsonValid rnd sigs data)
      (w.printf ("\rScanning [" ++ toString currentFile ++ "/" ++ toString totalFiles ++
        "]: " ++ filepathBase chkPath ++ "...")) with
  | none => simp [hs] at h
  | some w1 =>
    simp only [hs] at h
    refine ⟨w1, rfl, ?_⟩
    cases harts : fileArtifacts jsonValid rnd sigs data with
    | nil =>
      cases logger with
      | true =>
        simp only [harts, List.isEmpty_nil, Bool.not_true, Bool.not_false, Bool.and_self,
          if_true, Option.some.injEq] at h
        subst h
        simp [World.logf]
      | false =>
        simp only [harts, List.isEmpty_nil, Bool.not_true, Bool.not_false, Bool.and_false,
          Bool.false_eq_true, if_false, Option.some.injEq] at h
        subst h
        simp
    | cons a rest =>
      simp only [harts, List.isEmpty_cons, Bool.not_false, Bool.not_true, Bool.false_and,
        Bool.false_eq_true, if_false, Option.some.injEq] at h
      subst h
      simp

theorem processFile_total (jsonValid : List Nat → Bool) (rnd : ℚ → ℚ)
    (sigs : List Signature) (chkPath destDir : String) (currentFile totalFiles : Nat)
    (logger skipExisting : Bool) (fuel : Nat) (w : World) (paths : List String)
    (hfin : FilesWithin w paths) (hbase : '/' ∉ (filepathBase chkPath).data)
    (htags : ∀ s ∈ sigs, ValidTag s.Extension)
    (hstat : skipExisting = false → ∀ data, w.readFile chkPath = some data →
      ∀ a ∈ fileArtifacts jsonValid rnd sigs data,
      ∀ k, k < paths.length + (fileArtifacts jsonValid rnd sigs data).length →
        w.statFails (getUniquePathProbe (filepathJoin destDir
          (trimSuffix (filepathBase chkPath) (filepathExt (filepathBase chkPath)) ++ "." ++
            a.1)) k) = false)
    (hfuel : ∀ data, w.readFile chkPath = some data →
      paths.length + (fileArtifacts jsonValid rnd sigs data).length ≤ fuel) :
    ∃ w1, processFile jsonValid rnd sigs chkPath destDir currentFile totalFiles logger
      skipExisting fuel w = some w1 := by
  cases hread : w.readFile chkPath with
  | none =>
    unfold processFile
    simp only [readFile_printf, hread]
    exact ⟨_, rfl⟩
  | some data =>
    by_cases hlen : data.length = 0
    · unfold processFile
      simp only [readFile_printf, hread, hlen, if_true]
      exact ⟨_, rfl⟩
    · rw [processFile_of_read jsonValid rnd sigs chkPath destDir currentFile totalFiles logger
        skipExisting fuel w data hread hlen]
      have hroot : '/' ∉
          (trimSuffix (filepathBase chkPath) (filepathExt (filepathBase chkPath))).data :=
        fun hm => hbase (mem_trimSuffix _ _ _ hm)
      obtain ⟨w1, hw1⟩ := saveAll_total destDir
        (trimSuffix (filepathBase chkPath) (filepathExt (filepathBase chkPath)))
        (filepathBase chkPath) currentFile totalFiles skipExisting logger fuel hroot
        (fileArtifacts jsonValid rnd sigs data)
        (w.printf ("\rScanning [" ++ toString currentFile ++ "/" ++ toString totalFiles ++
          "]: " ++ filepathBase chkPath ++ "..."))
        paths hfin (fileArtifacts_tags jsonValid rnd sigs data htags)
        (fun hs a ha k hk => hstat hs data hread a ha k hk) (hfuel data hread)
      rw [hw1]
      simp only
      split
      · exact ⟨_, rfl⟩
      · exact ⟨_, rfl⟩

theorem isOutcomeLine_mono (tags tags2 : List String) (fileName line : String)
    (hsub : ∀ t ∈ tags, t ∈ tags2) (h : IsOutcomeLine tags fileName line) :
    IsOutcomeLine tags2 fileName line := by
  rcases h with ⟨t, ht, rfl⟩ | ⟨t, ht, rfl⟩ | h | h
  · exact Or.inl ⟨t, hsub t ht, rfl⟩
  · exact Or.inr (Or.inl ⟨t, hsub t ht, rfl⟩)
  · exact Or.inr (Or.inr (Or.inl h))
  · exact Or.inr (Or.inr (Or.inr h))

theorem saveAll_log (destDir fileRoot fileName : String) (currentFile totalFiles : Nat)
    (skipExisting logger : Bool) (fuel : Nat) :
    ∀ (arts : List Artifact) (w w1 : World),
      saveAll destDir fileRoot fileName currentFile totalFiles skipExisting logger fuel arts w =
        some w1 →
      ∃ new, w1.log = w.log ++ new ∧
        (∀ line ∈ new, IsOutcomeLine (arts.map fun a => a.1) fileName line) ∧
        (logger = true → (∀ p, w.writeFails p = false) → new.length = arts.length) := by
  intro arts
  induction arts with
  | nil =>
    intro w w1 h
    simp only [saveAll, Option.some.injEq] at h
    subst h
    exact ⟨[], by simp, by simp, fun _ _ => rfl⟩
  | cons a rest ih =>
    intro w w1 h
    unfold saveAll at h
    cases hs : saveRecoveredFile destDir fileRoot fileName a.1 a.2 currentFile totalFiles
        skipExisting logger fuel w with
    | none => simp [hs] at h
    | some w2 =>
      simp only [hs] at h
      obtain ⟨new2, hlog2, hlines2, hcount2⟩ := ih w2 w1 h
      obtain ⟨⟨hwf2, _, _⟩, _, hc⟩ := saveRecoveredFile_cases _ _ _ _ _ _ _ _ _ _ _ _ hs
      have hmono : ∀ line ∈ new2,
          IsOutcomeLine ((a :: rest).map fun a => a.1) fileName line := fun line hl =>
        isOutcomeLine_mono _ _ _ _ (fun t ht => List.mem_cons_of_mem _ ht) (hlines2 line hl)
      rcases hc with ⟨_, _, hl⟩ | ⟨p, _, _, hfail, _, hl⟩ | ⟨p, _, _, _, _, hl⟩
      · refine ⟨(if logger then [fileName ++ "\tSKIPPED (exists) -> " ++ a.1] else []) ++ new2,
          by rw [hlog2, hl, List.append_assoc], ?_, ?_⟩
        · intro line hline
          rw [List.mem_append] at hline
          rcases hline with hline | hline
          · cases logger with
            | true =>
              simp only [if_true, List.mem_singleton] at hline
              exact Or.inr (Or.inl ⟨a.1, by simp, hline⟩)
            | false => simp at hline
          · exact hmono line hline
        · intro hlg hwf
          subst hlg
          simp only [if_true, List.length_append, List.length_cons, List.length_nil]
          rw [hcount2 rfl (fun q => by rw [hwf2]; exact hwf q)]
          omega
      · refine ⟨new2, by rw [hlog2, hl], hmono, ?_⟩
        intro _ hwf
        rw [hwf p] at hfail
        exact absurd hfail (by simp)
      · refine ⟨(if logger then [fileName ++ "\t" ++ a.1] else []) ++ new2,
          by rw [hlog2, hl, List.append_assoc], ?_, ?_⟩
        · intro line hline
          rw [List.mem_append] at hline
          rcases hline with hline | hline
          · cases logger with
            | true =>
              simp only [if_true, List.mem_singleton] at hline
              exact Or.inl ⟨a.1, by simp, hline⟩
            | false => simp at hline
          · exact hmono line hline
        · intro hlg hwf
          subst hlg
          simp only [if_true, List.length_append, List.length_cons, List.length_nil]
          rw [hcount2 rfl (fun q => by rw [hwf2]; exact hwf q)]
          omega

theorem filesWithin_worldWith (path : String) (data : List Nat) :
    FilesWithin (worldWith path data) [path] := by
  intro p hp
  by_cases h : p = path
  · simp [h]
  · simp [World.present, worldWith, h] at hp

theorem filesWithin_withFile (w : World) (paths : List String) (h : FilesWithin w paths)
    (path : String) (data : List Nat) : FilesWithin (w.withFile path data) (path :: paths) := by
  intro p hp
  by_cases hpp : p = path
  · simp [hpp]
  · exact List.mem_cons_of_mem _ (h p (by simpa [World.present, World.withFile, hpp] using hp))

theorem signatures_validTag : ∀ s ∈ signatures, ValidTag s.Extension := by
  unfold ValidTag
  decide


theorem saveRecoveredFile_none_of_long (w : World) (destDir fileRoot fileName extension : String)
    (data : List Nat) (currentFile totalFiles : Nat) (logger : Bool) (fuel : Nat)
    (hroot : '/' ∉ fileRoot.data) (hsuf : '/' ∉ extension.data) (hdot : '.' ∉ extension.data)
    (hn0 : PlainName (fileRoot ++ "." ++ extension).data)
    (hlong : ∀ p, 255 < (filepathBase p).length → w.statFails p = true)
    (hlen : 255 < (fileRoot ++ "." ++ extension).length) :
    saveRecoveredFile destDir fileRoot fileName extension data currentFile totalFiles false
      logger fuel w = none := by
  unfold saveRecoveredFile saveTarget
  simp only [Bool.false_eq_true, if_false]
  rw [getUniquePath_none_of_long w destDir fileRoot extension hroot hsuf hdot hn0 hlong hlen fuel]

/-- C13, the code at the failing input: on a file system with the usual limit of 255 bytes
for a name, `in/AAA…A.CHK` (250 characters `A`) holds the header of the ACCDB signature and
the directory `out` is empty.  The buffer yields one artifact, `skip_existing` is false and
no call of `ioutil.WriteFile` fails, since none is made: `os.Stat` fails with `ENAMETOOLONG`
at `out/AAA…A.ACCDB` and at every numbered name, so `getUniquePath` never returns and neither
does `processFile`: no fuel gives a result, and no file is added. -/
theorem processFile_long_name_never_returns (jsonValid : List Nat → Bool) (rnd : ℚ → ℚ)
    (logger : Bool) :
    longNameWorld.readFile ("in/" ++ longRoot ++ ".CHK") = some accdbHeader ∧
    fileArtifacts jsonValid rnd signatures accdbHeader = [("ACCDB", accdbHeader)] ∧
    (∀ p, longNameWorld.present p = true → p ∈ ["in/" ++ longRoot ++ ".CHK", "in", "out"]) ∧
    ∀ fuel, processFile jsonValid rnd signatures ("in/" ++ longRoot ++ ".CHK") "out" 1 1 logger
      false fuel longNameWorld = none := by
  have hread : longNameWorld.readFile ("in/" ++ longRoot ++ ".CHK") = some accdbHeader := by
    decide
  have hcarve : carve signatures accdbHeader = [("ACCDB", accdbHeader)] := by decide
  have harts : fileArtifacts jsonValid rnd signatures accdbHeader = [("ACCDB", accdbHeader)] := by
    rw [fileArtifacts_of_carve_ne_nil _ _ _ _ (by rw [hcarve]; simp), hcarve]
  refine ⟨hread, harts, ?_, ?_⟩
  · intro p hp
    simp only [longNameWorld, World.withNameLimit, World.withDir, World.present, worldWith,
      Bool.or_eq_true, decide_eq_true_eq, Option.isSome_iff_ne_none] at hp
    simp only [List.mem_cons, List.mem_singleton, List.mem_nil_iff, or_false]
    rcases hp with hp | hp
    · left
      by_contra hne
      simp [hne] at hp
    · rcases hp with hp | hp
      · exact Or.inr (Or.inr hp)
      · rcases hp with hp | hp
        · exact Or.inr (Or.inl hp)
        · simp at hp
  · intro fuel
    have hbase : filepathBase ("in/" ++ longRoot ++ ".CHK") = longRoot ++ ".CHK" := by decide
    have hroot : trimSuffix (longRoot ++ ".CHK") (filepathExt (longRoot ++ ".CHK")) = longRoot := by
      decide
    rw [processFile_of_read jsonValid rnd signatures _ _ _ _ _ _ _ _ accdbHeader hread
      (by decide)]
    rw [harts, hbase, hroot]
    unfold saveAll
    dsimp only
    rw [saveRecoveredFile_none_of_long (longNameWorld.printf _) "out" longRoot _ "ACCDB" _ _ _ _
      _ (by decide) (by decide) (by decide)
      (plainName_of_ne longRoot "ACCDB" (by decide) (by decide) (by decide) (by decide))
      (fun p hp => longNameWorld_statFails p hp) (by decide)]

theorem fromHexChar_eq_none_iff (c : Char) : fromHexChar c = none ↔ ¬ IsHexDigit c := by
  unfold fromHexChar IsHexDigit
  by_cases h1 : '0' ≤ c ∧ c ≤ '9'
  · simp [h1]
  · by_cases h2 : 'a' ≤ c ∧ c ≤ 'f'
    · simp [h1, h2]
    · by_cases h3 : 'A' ≤ c ∧ c ≤ 'F'
      · simp [h1, h2, h3]
      · rw [if_neg h1, if_neg h2, if_neg h3]
        simp only [true_iff]
        tauto

theorem hexDecode_eq_none_iff_aux (n : Nat) :
    ∀ cs : List Char, cs.length ≤ n →
      (hexDecode cs = none ↔ ¬ (cs.length % 2 = 0 ∧ ∀ c ∈ cs, IsHexDigit c)) := by
  induction n using Nat.strong_induction_on with
  | _ n ih =>
    intro cs hlen
    match cs, hlen with
    | [], _ => simp [hexDecode]
    | [c], _ => simp [hexDecode]
    | p :: q :: rest, hlen =>
      have hrest := ih (n - 2) (by simp at hlen; omega) rest (by simp at hlen; omega)
      have hp := fromHexChar_eq_none_iff p
      have hq := fromHexChar_eq_none_iff q
      have hl : (p :: q :: rest).length % 2 = rest.length % 2 := by
        simp only [List.length_cons]; omega
      rw [hl]
      simp only [List.mem_cons, forall_eq_or_imp]
      unfold hexDecode
      cases ha : fromHexChar p with
      | none =>
        have : ¬ IsHexDigit p := hp.mp ha
        simp [this]
      | some a =>
        have hpd : IsHexDigit p := by
          by_contra hc
          rw [hp.mpr hc] at ha
          exact absurd ha (by simp)
        cases hb : fromHexChar q with
        | none =>
          have : ¬ IsHexDigit q := hq.mp hb
          simp [this]
        | some b =>
          have hqd : IsHexDigit q := by
            by_contra hc
            rw [hq.mpr hc] at hb
            exact absurd hb (by simp)
          cases hr : hexDecode rest with
          | none =>
            simp only [true_iff]
            have := hrest.mp hr
            tauto
          | some bs =>
            simp only [false_iff, not_not, reduceCtorEq]
            have : ¬ hexDecode rest = none := by simp [hr]
            have := not_not.mp (mt hrest.mpr this)
            exact ⟨this.1, hpd, hqd, this.2⟩

theorem hexDecodeString_eq_none_iff (s : String) :
    hexDecodeString s = none ↔ ¬ IsHexEncoding s :=
  hexDecode_eq_none_iff_aux s.data.length s.data (Nat.le_refl _)

theorem hexDecode_eq_nil_iff (cs : List Char) : hexDecode cs = some [] ↔ cs = [] := by
  constructor
  · intro h
    match cs, h with
    | [], _ => rfl
    | [c], h => simp [hexDecode] at h
    | p :: q :: rest, h =>
      unfold hexDecode at h
      cases ha : fromHexChar p with
      | none => simp [ha] at h
      | some a =>
        cases hb : fromHexChar q with
        | none => simp [ha, hb] at h
        | some b =>
          cases hr : hexDecode rest with
          | none => simp [ha, hb, hr] at h
          | some bs => simp [ha, hb, hr] at h
  · intro h; subst h; rfl

theorem hexDecodeString_empty : hexDecodeString "" = some [] := rfl

/-- C14: `addSignature` aborts, appending nothing, exactly when `headerHex` is not a valid
hexadecimal byte encoding or `containsHex` is non-empty and not one; otherwise the registry
afterwards is the registry before with the one signature
`(ext, decode(headerHex), decode(containsHex))` appended at its end. -/
theorem addSignature_abort_iff (ext headerHex containsHex : String)
    (registry : List Signature) :
    (addSignature ext headerHex containsHex registry = none ↔
      ¬ IsHexEncoding headerHex ∨ (containsHex ≠ "" ∧ ¬ IsHexEncoding containsHex)) ∧
    (addSignature ext headerHex containsHex registry ≠ none →
      ∃ header contained, hexDecodeString headerHex = some header ∧
        hexDecodeString containsHex = some contained ∧
        addSignature ext headerHex containsHex registry =
          some (registry ++ [⟨ext, header, contained⟩])) := by
  have hh := hexDecodeString_eq_none_iff headerHex
  have hc := hexDecodeString_eq_none_iff containsHex
  unfold addSignature
  cases hdh : hexDecodeString headerHex with
  | none =>
    have : ¬ IsHexEncoding headerHex := hh.mp hdh
    simp [this]
  | some header =>
    have hvalid : IsHexEncoding headerHex := by
      by_contra hn
      rw [hh.mpr hn] at hdh
      exact absurd hdh (by simp)
    by_cases he : containsHex = ""
    · subst he
      simp [hvalid, hexDecodeString_empty]
    · simp only [ne_eq, he, not_false_eq_true, if_true, true_and]
      cases hdc : hexDecodeString containsHex with
      | none =>
        have : ¬ IsHexEncoding containsHex := hc.mp hdc
        simp [this]
      | some contained =>
        have hvalid2 : IsHexEncoding containsHex := by
          by_contra hn
          rw [hc.mpr hn] at hdc
          exact absurd hdc (by simp)
        simp [hvalid, hvalid2]

/-- C15: starting from the empty registry `initializeSignatures` does not abort and yields the
84 signatures of the source, in source order, each with a non-empty extension and a non-empty
header. -/
theorem initializeSignatures_complete :
    initializeSignatures [] = some signatures ∧
    signatures.length = 84 ∧
    signatures.map (fun s => s.Extension) =
      ["JPG", "EXIF.JPG", "PNG", "GIF", "TIF", "TIF", "BMP", "PSD", "WEBP", "HEIC", "AVIF",
        "CR2", "NEF", "AI", "EPS", "3DS", "FPX", "PSP", "WPG", "WAV", "MP3", "MID", "FLAC",
        "M4A", "OGG", "RMI", "AVI", "MP4", "WebM", "MKV", "MOV", "WMV", "FLV", "MPG", "MPEG",
        "ASF", "SWF", "3GP", "DOC", "XLS", "PPT", "PST", "WRI", "DOCX", "XLSX", "PPTX", "ODT",
        "ODS", "ODP", "ODG", "PDF", "EPUB", "TTF", "OTF", "RAR", "7z", "GZ", "ACE", "ZIP",
        "CAB", "MDB", "ACCDB", "SQLite3", "DWG", "NC", "PY", "SH", "CLASS", "BDSPROJ", "VCF",
        "ICS", "TORRENT", "EXE", "DLL", "OCX", "RTF", "CHM", "HLP", "LNK", "URL", "CDR",
        "HTML", "HTM", "CLP"] ∧
    signatures.map (fun s => (s.Extension, s.Header, s.Contains)) =
      ([("JPG", [255, 216], [74, 70, 73, 70]),
        ("EXIF.JPG", [255, 216], [69, 120, 105, 102]),
        ("PNG", [137, 80, 78, 71, 13, 10, 26], []),
        ("GIF", [71, 73, 70, 56], []),
        ("TIF", [73, 73, 42, 0], []),
        ("TIF", [77, 77, 0, 42], []),
        ("BMP", [66, 77], []),
        ("PSD", [56, 66, 80, 83], []),
        ("WEBP", [82, 73, 70, 70], [87, 69, 66, 80]),
        ("HEIC", [0, 0, 0], [102, 116, 121, 112, 104, 101, 105, 99]),
        ("AVIF", [0, 0, 0], [102, 116, 121, 112, 97, 118, 105, 102]),
        ("CR2", [73, 73, 42, 0], [67, 82]),
        ("NEF", [77, 77, 0, 42], [78, 105, 107, 111, 110]),
        ("AI", [37, 33, 80, 83], []),
        ("EPS", [197, 208, 211, 198], []),
        ("3DS", [77, 77], []),
        ("FPX", [208, 207, 17, 224], [73, 0, 109, 0, 97, 0, 103, 0, 101]),
        ("PSP", [80, 97, 105, 110, 116, 32, 83, 104, 111, 112, 32, 80, 114, 111], []),
        ("WPG", [255, 87, 80, 67], []),
        ("WAV", [82, 73, 70, 70], [87, 65, 86, 69]),
        ("MP3", [73, 68, 51], []),
        ("MID", [77, 84, 104, 100], [77, 84, 114, 107]),
        ("FLAC", [102, 76, 97, 67], []),
        ("M4A", [0, 0, 0], [102, 116, 121, 112, 77, 52, 65, 32]),
        ("OGG", [79, 103, 103, 83], []),
        ("RMI", [82, 73, 70, 70], [82, 77, 73, 68]),
        ("AVI", [82, 73, 70, 70], [65, 86, 73]),
        ("MP4", [0, 0, 0], [102, 116, 121, 112]),
        ("WebM", [26, 69, 223, 163], [119, 101, 98, 109]),
        ("MKV", [26, 69, 223, 163], []),
        ("MOV", [0, 0, 0], [102, 116, 121, 112, 113, 116, 32, 32]),
        ("WMV", [48, 38, 178, 117, 142, 102, 207, 17], [65, 83, 70]),
        ("FLV", [70, 76, 86, 1], []),
        ("MPG", [0, 0, 1, 179], []),
        ("MPEG", [0, 0, 1, 186], []),
        ("ASF", [48, 38, 178, 117, 142, 102, 207, 17, 166, 217, 0, 170, 0, 98, 206, 108], []),
        ("SWF", [70, 87, 83], []),
        ("3GP", [0, 0, 0], [102, 116, 121, 112, 51, 103]),
        ("DOC", [208, 207, 17, 224, 161, 177, 26, 225], [77, 105, 99, 114, 111, 115, 111, 102,
          116, 32, 87, 111, 114, 100]),
        ("XLS", [208, 207, 17, 224, 161, 177, 26, 225], [77, 105, 99, 114, 111, 115, 111, 102,
          116, 32, 69, 120, 99, 101, 108]),
        ("PPT", [208, 207, 17, 224, 161, 177, 26, 225], [77, 105, 99, 114, 111, 115, 111, 102,
          116, 32, 80, 111, 119, 101, 114, 80, 111, 105, 110, 116]),
        ("PST", [33, 66, 68, 78], []),
        ("WRI", [49, 190], [0, 0, 46, 13, 10]),
        ("DOCX", [80, 75, 3, 4], [119, 111, 114, 100, 47]),
        ("XLSX", [80, 75, 3, 4], [120, 108, 47]),
        ("PPTX", [80, 75, 3, 4], [112, 112, 116, 47]),
        ("ODT", [80, 75, 3, 4], [109, 105, 109, 101, 116, 121, 112, 101, 97, 112, 112, 108, 105,
          99, 97, 116, 105, 111, 110, 47, 118, 110, 100, 46, 111, 97, 115, 105, 115, 46, 111, 112,
          101, 110, 100, 111, 99, 117, 109, 101, 110, 116, 46, 116, 101, 120, 116]),
        ("ODS", [80, 75, 3, 4], [109, 105, 109, 101, 116, 121, 112, 101, 97, 112, 112, 108, 105,
          99, 97, 116, 105, 111, 110, 47, 118, 110, 100, 46, 111, 97, 115, 105, 115, 46, 111, 112,
          101, 110, 100, 111, 99, 117, 109, 101, 110, 116, 46, 115, 112, 114, 101, 97, 100, 115,
          104, 101, 101, 116]),
        ("ODP", [80, 75, 3, 4], [109, 105, 109, 101, 116, 121, 112, 101, 97, 112, 112, 108, 105,
          99, 97, 116, 105, 111, 110, 47, 118, 110, 100, 46, 111, 97, 115, 105, 115, 46, 111, 112,
          101, 110, 100, 111, 99, 117, 109, 101, 110, 116, 46, 112, 114, 101, 115, 101, 110, 116,
          97, 116, 105, 111, 110]),
        ("ODG", [80, 75, 3, 4], [109, 105, 109, 101, 116, 121, 112, 101, 97, 112, 112, 108, 105,
          99, 97, 116, 105, 111, 110, 47, 118, 110, 100, 46, 111, 97, 115, 105, 115, 46, 111, 112,
          101, 110, 100, 111, 99, 117, 109, 101, 110, 116, 46, 103, 114, 97, 112, 104, 105, 99,
          115]),
        ("PDF", [37, 80, 68, 70], []),
        ("EPUB", [80, 75, 3, 4], [109, 105, 109, 101, 116, 121, 112, 101, 97, 112, 112, 108,
          105, 99, 97, 116, 105, 111, 110, 47, 101, 112, 117, 98, 43, 122, 105, 112]),
        ("TTF", [0, 1, 0, 0, 0], []),
        ("OTF", [79, 84, 84, 240], []),
        ("RAR", [82, 97, 114, 33], []),
        ("7z", [55, 122, 188, 175, 39, 28], []),
        ("GZ", [31, 139], []),
        ("ACE", [42, 42, 65, 67, 69, 42, 42], []),
        ("ZIP", [80, 75, 3, 4], []),
        ("CAB", [77, 83, 67, 70], []),
        ("MDB", [0, 1, 0, 0, 83, 116, 97, 110, 100, 97, 114, 100, 32, 74, 101, 116, 32, 68, 66],
          []),
        ("ACCDB", [0, 1, 0, 0, 83, 116, 97, 110, 100, 97, 114, 100, 32, 65, 67, 69, 32, 68, 66],
          []),
        ("SQLite3", [83, 81, 76, 105, 116, 101, 32, 102, 111, 114, 109, 97, 116, 32, 51, 0], []),
        ("DWG", [65, 67, 49, 48], []),
        ("NC", [67, 68, 70], []),
        ("PY", [35, 33], [112, 121, 116, 104, 111, 110]),
        ("SH", [35, 33], [47, 98, 105, 110, 47]),
        ("CLASS", [202, 254, 186, 190], []),
        ("BDSPROJ", [60, 63, 120, 109, 108], [66, 111, 114, 108, 97, 110, 100, 80, 114, 111,
          106, 101, 99, 116]),
        ("VCF", [66, 69, 71, 73, 78, 58, 86, 67, 65, 82, 68], []),
        ("ICS", [66, 69, 71, 73, 78, 58, 86, 67, 65, 76, 69, 78, 68, 65, 82], []),
        ("TORRENT", [100, 56, 58, 97, 110, 110, 111, 117, 110, 99, 101], []),
        ("EXE", [77, 90], []),
        ("DLL", [77, 90], []),
        ("OCX", [77, 90], [68, 108, 108, 82, 101, 103, 105, 115, 116, 101, 114, 83, 101, 114,
          118, 101, 114]),
        ("RTF", [123, 92, 114, 116, 102], [123, 92, 102, 111, 110, 116, 116, 98, 108]),
        ("CHM", [73, 84, 83, 70], []),
        ("HLP", [63, 95, 3, 0], []),
        ("LNK", [76, 0, 0, 0, 1, 20, 2, 0, 0, 0, 0, 0, 192, 0, 0, 0], []),
        ("URL", [91, 73, 110, 116, 101, 114, 110, 101, 116, 83, 104, 111, 114, 116, 99, 117,
          116, 93], []),
        ("CDR", [82, 73, 70, 70], [67, 68, 82]),
        ("HTML", [60, 33, 68, 79, 67, 84, 89, 80, 69], []),
        ("HTM", [60, 104, 116, 109, 108], []),
        ("CLP", [80, 195, 1, 0], [])] : List (String × List Nat × List Nat)) ∧
    ∀ s ∈ signatures, s.Extension ≠ "" ∧ s.Header ≠ [] := by
  refine ⟨by decide, by decide, by decide, by decide, by decide⟩

/-- C16, counterexample: the call `addSignature("X", "", "")` on the empty registry completes
without aborting and appends a signature whose header is empty. -/
theorem addSignature_empty_header_counterexample :
    addSignature "X" "" "" [] = some [⟨"X", [], []⟩] ∧
    (⟨"X", [], []⟩ : Signature).Header = [] := by
  decide

/-- C16, amended: a call of `addSignature` that completes without aborting appends one
signature, whose header is non-empty exactly when `headerHex` is not the empty string; every
compiled-in call passes a non-empty `headerHex`, so the registry built by
`initializeSignatures` contains only signatures with non-empty headers. -/
theorem addSignature_header_nonempty_iff (ext headerHex containsHex : String)
    (registry registry1 : List Signature)
    (h : addSignature ext headerHex containsHex registry = some registry1) :
    (∃ s : Signature, registry1 = registry ++ [s] ∧ s.Extension = ext ∧
      (s.Header ≠ [] ↔ headerHex ≠ "")) ∧
    ∀ s ∈ signatures, s.Header ≠ [] := by
  refine ⟨?_, by decide⟩
  unfold addSignature at h
  cases hdh : hexDecodeString headerHex with
  | none => simp [hdh] at h
  | some header =>
    have hiff : header ≠ [] ↔ headerHex ≠ "" := by
      constructor
      · intro hne he
        subst he
        rw [hexDecodeString_empty] at hdh
        exact hne (Option.some.inj hdh).symm
      · intro hne he
        subst he
        have := (hexDecode_eq_nil_iff headerHex.data).mp hdh
        exact hne (String.ext this)
    rw [hdh] at h
    by_cases he : containsHex = ""
    · simp only [he, ne_eq, not_true_eq_false, if_false, Option.some.injEq] at h
      exact ⟨⟨ext, header, []⟩, h.symm, rfl, hiff⟩
    · simp only [ne_eq, he, not_false_eq_true, if_true] at h
      cases hdc : hexDecodeString containsHex with
      | none => simp [hdc] at h
      | some contained =>
        simp only [hdc, Option.some.injEq] at h
        exact ⟨⟨ext, header, contained⟩, h.symm, rfl, hiff⟩

/-- Witness of amended C16: the first compiled-in call. -/
theorem addSignature_header_nonempty_iff_witness :
    (∃ s : Signature, [(⟨"JPG", [255, 216], [74, 70, 73, 70]⟩ : Signature)] = [] ++ [s] ∧
      s.Extension = "JPG" ∧ (s.Header ≠ [] ↔ ("ffd8" : String) ≠ "")) ∧
    ∀ s ∈ signatures, s.Header ≠ [] :=
  addSignature_header_nonempty_iff "JPG" "ffd8" "4a464946" []
    [⟨"JPG", [255, 216], [74, 70, 73, 70]⟩] (by decide)

/-- C17: for every registry and configuration, `processFile` on an input whose content has
length 0 returns after the progress line: it makes no call of `saveRecoveredFile` (no carved
artifact, no text or JSON classification), writes no file and logs nothing. -/
theorem processFile_empty_input (jsonValid : List Nat → Bool) (rnd : ℚ → ℚ)
    (sigs : List Signature) (chkPath destDir : String) (currentFile totalFiles : Nat)
    (logger skipExisting : Bool) (fuel : Nat) (w : World) (data : List Nat)
    (hread : w.readFile chkPath = some data) (hlen : data.length = 0) :
    carve sigs data = [] ∧
    ∃ w1, processFile jsonValid rnd sigs chkPath destDir currentFile totalFiles logger
        skipExisting fuel w = some w1 ∧
      w1 = w.printf ("\rScanning [" ++ toString currentFile ++ "/" ++ toString totalFiles ++
        "]: " ++ filepathBase chkPath ++ "...") ∧
      w1.files = w.files ∧ w1.log = w.log := by
  constructor
  · unfold carve
    rw [hlen]
    rfl
  · refine ⟨_, ?_, rfl, rfl, rfl⟩
    unfold processFile
    simp only [readFile_printf, hread, hlen, if_true]

/-- Witness of C17: the empty file `in/FILE0002.CHK`. -/
theorem processFile_empty_input_witness :
    carve signatures [] = [] ∧
    ∃ w1, processFile (fun _ => true) id signatures "in/FILE0002.CHK" "out" 1 1 true false 8
        (worldWith "in/FILE0002.CHK" []) = some w1 ∧
      w1 = (worldWith "in/FILE0002.CHK" []).printf
        ("\rScanning [" ++ toString 1 ++ "/" ++ toString 1 ++ "]: " ++
          filepathBase "in/FILE0002.CHK" ++ "...") ∧
      w1.files = (worldWith "in/FILE0002.CHK" []).files ∧
      w1.log = (worldWith "in/FILE0002.CHK" []).log :=
  processFile_empty_input (fun _ => true) id signatures "in/FILE0002.CHK" "out" 1 1 true false
    8 (worldWith "in/FILE0002.CHK" []) [] (by decide) rfl

/-- C18, counterexample: with a logger, the empty input `in/FILE0000.CHK` is processed and
leaves the log empty; and the input `in/FILE0001.CHK` holding `BM`, carved as BMP, leaves the
log empty when the write fails, the failure being printed on the console only.  In both runs
`os.Stat` fails nowhere. -/
theorem processFile_no_outcome_counterexample :
    (processFile (fun _ => false) id signatures "in/FILE0000.CHK" "out" 1 1 true false 8
        (worldWith "in/FILE0000.CHK" [])).map (fun w1 => w1.log) = some [] ∧
    (processFile (fun _ => false) id signatures "in/FILE0001.CHK" "out" 1 1 true false 8
        (worldWith "in/FILE0001.CHK" [66, 77]).failingWrites).map
      (fun w1 => (w1.log, w1.console)) =
      some ([], ["\rScanning [1/1]: FILE0001.CHK...",
        "\nError saving recovered file out/FILE0001.BMP: " ++
          "open out/FILE0001.BMP: permission denied\n"]) ∧
    (∀ p, (worldWith "in/FILE0000.CHK" []).statFails p = false) ∧
    (∀ p, (worldWith "in/FILE0001.CHK" [66, 77]).failingWrites.statFails p = false) := by
  refine ⟨by decide, by decide, fun _ => rfl, fun _ => rfl⟩

/-- C18, amended: with a logger, a run of `processFile` that returns appends to the log only
lines that render `Recovered(extension)`, `Skipped(extension)`, `NotRecovered` or `ReadError`;
it appends the `ReadError` line for an unreadable input, at least one line for an input of
non-zero length when no write fails, and no line for an input of length zero.  The run does
return, once the fuel covers the files and the artifacts, on a file system that holds
finitely many files and directories and on which, when `skip_existing` is false, `os.Stat`
fails at none of the output names probed with an error other than not-exist; the base name of
the input is free of separators and every extension tag of the registry is free of
separators, not empty and not `.`. -/
theorem processFile_outcome_lines (jsonValid : List Nat → Bool) (rnd : ℚ → ℚ)
    (sigs : List Signature) (chkPath destDir : String) (currentFile totalFiles : Nat)
    (skipExisting : Bool) (w : World) :
    (∀ (fuel : Nat) (w1 : World),
      processFile jsonValid rnd sigs chkPath destDir currentFile totalFiles true
        skipExisting fuel w = some w1 →
      ∃ new, w1.log = w.log ++ new ∧
        (w.readFile chkPath = none → new = [filepathBase chkPath ++ "\tERROR READING FILE"]) ∧
        ∀ data, w.readFile chkPath = some data →
          (∀ line ∈ new, IsOutcomeLine ((fileArtifacts jsonValid rnd sigs data).map fun a => a.1)
            (filepathBase chkPath) line) ∧
          (data.length = 0 → new = []) ∧
          (data.length ≠ 0 → (∀ p, w.writeFails p = false) → new ≠ [])) ∧
    ∀ (paths0 : List String) (fuel : Nat), FilesWithin w paths0 →
      '/' ∉ (filepathBase chkPath).data → (∀ s ∈ sigs, ValidTag s.Extension) →
      (skipExisting = false → ∀ data, w.readFile chkPath = some data →
        ∀ a ∈ fileArtifacts jsonValid rnd sigs data,
        ∀ k, k < paths0.length + (fileArtifacts jsonValid rnd sigs data).length →
          w.statFails (getUniquePathProbe (filepathJoin destDir
            (trimSuffix (filepathBase chkPath) (filepathExt (filepathBase chkPath)) ++ "." ++
              a.1)) k) = false) →
      (∀ data, w.readFile chkPath = some data →
        paths0.length + (fileArtifacts jsonValid rnd sigs data).length ≤ fuel) →
      ∃ w1, processFile jsonValid rnd sigs chkPath destDir currentFile totalFiles true
        skipExisting fuel w = some w1 := by
  refine ⟨?_, fun paths0 fuel hfin hbase htags hstat hfuel =>
    processFile_total jsonValid rnd sigs chkPath destDir currentFile totalFiles true
      skipExisting fuel w paths0 hfin hbase htags hstat hfuel⟩
  intro fuel w1 h
  cases hread : w.readFile chkPath with
  | none =>
    unfold processFile at h
    simp only [readFile_printf, hread, Option.some.injEq] at h
    subst h
    exact ⟨[filepathBase chkPath ++ "\tERROR READING FILE"], by simp [World.logf, World.printf],
      fun _ => rfl, fun data hd => absurd hd (by simp)⟩
  | some data =>
    by_cases hlen : data.length = 0
    · unfold processFile at h
      simp only [readFile_printf, hread, hlen, if_true, Option.some.injEq] at h
      subst h
      refine ⟨[], by simp [World.printf], fun hn => absurd hn (by simp), ?_⟩
      intro d hd
      exact ⟨by simp, fun _ => rfl, fun hne => by
        rw [← Option.some.inj hd] at hne
        exact absurd hlen hne⟩
    · obtain ⟨w2, hsave, _, hlog⟩ := processFile_some jsonValid rnd sigs chkPath destDir
        currentFile totalFiles true skipExisting fuel w w1 data hread hlen h
      obtain ⟨new2, hlog2, hlines2, hcount2⟩ := saveAll_log _ _ _ _ _ _ _ _ _ _ _ hsave
      refine ⟨new2 ++ (if fileArtifacts jsonValid rnd sigs data = [] ∧ true = true then
          [filepathBase chkPath ++ "\t(not recovered)"] else []), ?_,
        fun hn => absurd hn (by simp), ?_⟩
      · rw [hlog, hlog2, List.append_assoc]
        rfl
      · intro d hd
        have hdd : d = data := (Option.some.inj hd).symm
        subst hdd
        refine ⟨?_, fun h0 => absurd h0 hlen, ?_⟩
        · intro line hline
          rw [List.mem_append] at hline
          rcases hline with hline | hline
          · exact hlines2 line hline
          · split at hline
            · rw [List.mem_singleton] at hline
              exact Or.inr (Or.inr (Or.inl hline))
            · simp at hline
        · intro _ hwf
          by_cases harts : fileArtifacts jsonValid rnd sigs d = []
          · simp [harts]
          · have hl := hcount2 rfl (fun p => hwf p)
            intro hnil
            have hnew2 : new2 = [] := (List.append_eq_nil.mp hnil).1
            rw [hnew2] at hl
            exact harts (List.length_eq_zero.mp hl.symm)

/-- Witness of amended C18: the buffer `MZ` of `in/FILE0001.CHK`, which logs two lines; the
run returns and its log has the stated form. -/
theorem processFile_outcome_lines_witness :
    ∃ w1, processFile (fun _ => false) id signatures "in/FILE0001.CHK" "out" 1 1 true false 8
        (worldWith "in/FILE0001.CHK" [77, 90]) = some w1 ∧
      ∃ new, w1.log = (worldWith "in/FILE0001.CHK" [77, 90]).log ++ new ∧
        ((worldWith "in/FILE0001.CHK" [77, 90]).readFile "in/FILE0001.CHK" = none →
          new = [filepathBase "in/FILE0001.CHK" ++ "\tERROR READING FILE"]) ∧
        ∀ data, (worldWith "in/FILE0001.CHK" [77, 90]).readFile "in/FILE0001.CHK" = some data →
          (∀ line ∈ new,
            IsOutcomeLine ((fileArtifacts (fun _ => false) id signatures data).map fun a => a.1)
              (filepathBase "in/FILE0001.CHK") line) ∧
          (data.length = 0 → new = []) ∧
          (data.length ≠ 0 →
            (∀ p, (worldWith "in/FILE0001.CHK" [77, 90]).writeFails p = false) → new ≠ []) :=
  Exists.elim
    ((processFile_outcome_lines (fun _ => false) id signatures "in/FILE0001.CHK" "out" 1 1
      false (worldWith "in/FILE0001.CHK" [77, 90])).2 ["in/FILE0001.CHK"] 8
      (filesWithin_worldWith _ _) (by decide) signatures_validTag
      (fun _ _ _ _ _ _ _ => rfl)
      (fun d hd => by
        have hd2 : d = [77, 90] := by
          have : (worldWith "in/FILE0001.CHK" [77, 90]).readFile "in/FILE0001.CHK" =
            some [77, 90] := by decide
          rw [this] at hd
          exact (Option.some.inj hd).symm
        rw [hd2]
        decide))
    (fun w1 hw1 => ⟨w1, hw1,
      (processFile_outcome_lines (fun _ => false) id signatures "in/FILE0001.CHK" "out" 1 1
        false (worldWith "in/FILE0001.CHK" [77, 90])).1 8 w1 hw1⟩)

theorem signatureMatches_drop (data : List Nat) (k i : Nat) (s : Signature)
    (hk : k ≤ data.length) :
    signatureMatches (data.drop k) i s = signatureMatches data (k + i) s := by
  unfold signatureMatches
  have h1 : (i + s.Header.length ≤ (data.drop k).length) ↔
      (k + i + s.Header.length ≤ data.length) := by
    rw [List.length_drop]; omega
  have h2 : (data.drop k).drop i = data.drop (k + i) := by
    rw [List.drop_drop, Nat.add_comm]
  have h3 : (data.drop k).drop (i + s.Header.length) = data.drop (k + i + s.Header.length) := by
    rw [List.drop_drop]
    congr 1
    omega
  rw [h2, h3]
  simp only [h1]

theorem carveSignatures_drop (sigs : List Signature) (data : List Nat) (k i : Nat)
    (hk : k ≤ data.length) :
    carveSignatures (data.drop k) i sigs = carveSignatures data (k + i) sigs := by
  rw [carveSignatures_eq, carveSignatures_eq]
  have h2 : (data.drop k).drop i = data.drop (k + i) := by
    rw [List.drop_drop, Nat.add_comm]
  rw [h2]
  congr 2
  funext s
  exact signatureMatches_drop data k i s hk

theorem carveOffsets_drop (sigs : List Signature) (data : List Nat) (k : Nat)
    (hk : k ≤ data.length) (n i : Nat) :
    carveOffsets sigs (data.drop k) n i = carveOffsets sigs data n (k + i) := by
  induction n generalizing i with
  | zero => rfl
  | succ n ih =>
    unfold carveOffsets
    rw [carveSignatures_drop sigs data k i hk, ih (i + 1)]
    rfl

theorem carveOffsets_succ (sigs : List Signature) (data : List Nat) (n i : Nat) :
    carveOffsets sigs data (n + 1) i =
      carveSignatures data i sigs ++ carveOffsets sigs data n (i + 1) := rfl

theorem carveOffsets_add (sigs : List Signature) (data : List Nat) (m n i : Nat) :
    carveOffsets sigs data (m + n) i =
      carveOffsets sigs data m i ++ carveOffsets sigs data n (i + m) := by
  induction m generalizing i with
  | zero => simp [carveOffsets]
  | succ m ih =>
    have h1 : m + 1 + n = (m + n) + 1 := by omega
    have h2 : i + (m + 1) = i + 1 + m := by omega
    rw [h1, carveOffsets_succ, carveOffsets_succ, ih (i + 1), List.append_assoc, h2]

theorem carveSignatures_payload (sigs : List Signature) (data : List Nat) (i : Nat) :
    ∀ a ∈ carveSignatures data i sigs, a.2 = data.drop i := by
  intro a ha
  rw [carveSignatures_eq, List.mem_map] at ha
  obtain ⟨s, _, rfl⟩ := ha
  rfl

theorem carveOffsets_filter_lt (sigs : List Signature) (data : List Nat) (k n i : Nat)
    (hk : k ≤ data.length) (hi : i + n ≤ k) (hk0 : n = 0 ∨ 0 < k) :
    (carveOffsets sigs data n i).filter
      (fun a => decide (a.2.length ≤ data.length - k)) = [] := by
  induction n generalizing i with
  | zero => rfl
  | succ n ih =>
    unfold carveOffsets
    rw [List.filter_append, ih (i + 1) (by omega) (by omega), List.append_nil,
      List.filter_eq_nil_iff]
    intro a ha
    rw [carveSignatures_payload sigs data i a ha, List.length_drop]
    simp only [decide_eq_true_eq]
    omega

theorem carveOffsets_filter_ge (sigs : List Signature) (data : List Nat) (k n i : Nat)
    (hi : k ≤ i) :
    (carveOffsets sigs data n i).filter
      (fun a => decide (a.2.length ≤ data.length - k)) = carveOffsets sigs data n i := by
  induction n generalizing i with
  | zero => rfl
  | succ n ih =>
    unfold carveOffsets
    rw [List.filter_append, ih (i + 1) (by omega)]
    congr 1
    rw [List.filter_eq_self]
    intro a ha
    rw [carveSignatures_payload sigs data i a ha, List.length_drop]
    simp only [decide_eq_true_eq]
    omega

/-- C19: for every registry, buffer and `k <= len(data)`, carving `data[k..]` emits the
artifacts of carving `data` whose match offset is at least `k` (whose payload has at most
`len(data) - k` bytes), in the same order; these are the artifacts that follow the ones of the
offsets below `k`.  Every emitted artifact `(ext, p)` is emitted again, at offset 0, by carving
`p`. -/
theorem carve_suffix_invariant (sigs : List Signature) (data : List Nat) (k : Nat)
    (hk : k ≤ data.length) :
    carve sigs (data.drop k) =
      (carve sigs data).filter (fun a => decide (a.2.length ≤ data.length - k)) ∧
    carve sigs data = carveOffsets sigs data k 0 ++ carve sigs (data.drop k) ∧
    ∀ a ∈ carve sigs data, a ∈ carveSignatures a.2 0 sigs ∧ a ∈ carve sigs a.2 := by
  have hdrop : carve sigs (data.drop k) = carveOffsets sigs data (data.length - k) k := by
    unfold carve
    rw [carveOffsets_drop sigs data k hk, List.length_drop, Nat.add_zero]
  have hsplit : carve sigs data =
      carveOffsets sigs data k 0 ++ carveOffsets sigs data (data.length - k) k := by
    unfold carve
    have : data.length = k + (data.length - k) := by omega
    conv_lhs => rw [this]
    rw [carveOffsets_add, Nat.zero_add]
  refine ⟨?_, ?_, ?_⟩
  · rw [hsplit, List.filter_append, carveOffsets_filter_ge sigs data k _ k (Nat.le_refl k),
      ← hdrop]
    by_cases hk0 : k = 0
    · subst hk0
      simp [carveOffsets]
    · rw [carveOffsets_filter_lt sigs data k k 0 hk (by omega) (Or.inr (by omega)),
        List.nil_append]
  · rw [hsplit, hdrop]
  · intro a ha
    obtain ⟨i, s, hi, hs, hm, rfl⟩ := (mem_carve_iff sigs data a).mp ha
    have hm0 : signatureMatches (data.drop i) 0 s = true := by
      rw [signatureMatches_drop data i 0 s (by omega)]
      exact hm
    have hpos : 0 < (data.drop i).length := by
      rw [List.length_drop]; omega
    constructor
    · show (s.Extension, data.drop i) ∈ carveSignatures (data.drop i) 0 sigs
      rw [carveSignatures_eq, List.mem_map]
      exact ⟨s, List.mem_filter.mpr ⟨hs, hm0⟩, by simp⟩
    · have := mem_carve hpos hs hm0
      simpa using this

/-- Witness of C19: the buffer `00 ffd8 Exif JFIF` with the compiled-in registry and `k = 1`. -/
theorem carve_suffix_invariant_witness :
    carve signatures (List.drop 1 [0, 255, 216, 69, 120, 105, 102, 74, 70, 73, 70]) =
      (carve signatures [0, 255, 216, 69, 120, 105, 102, 74, 70, 73, 70]).filter
        (fun a => decide (a.2.length ≤
          [0, 255, 216, 69, 120, 105, 102, 74, 70, 73, 70].length - 1)) ∧
    carve signatures [0, 255, 216, 69, 120, 105, 102, 74, 70, 73, 70] =
      carveOffsets signatures [0, 255, 216, 69, 120, 105, 102, 74, 70, 73, 70] 1 0 ++
        carve signatures (List.drop 1 [0, 255, 216, 69, 120, 105, 102, 74, 70, 73, 70]) ∧
    ∀ a ∈ carve signatures [0, 255, 216, 69, 120, 105, 102, 74, 70, 73, 70],
      a ∈ carveSignatures a.2 0 signatures ∧ a ∈ carve signatures a.2 :=
  carve_suffix_invariant signatures [0, 255, 216, 69, 120, 105, 102, 74, 70, 73, 70] 1 (by decide)

theorem signatureMatches_subsumed (data : List Nat) (i : Nat) (s1 s2 : Signature)
    (hh : s2.Header <+: s1.Header)
    (hc : s2.Contains = [] ∨ s2.Contains <:+: s1.Contains)
    (hm : signatureMatches data i s1 = true) : signatureMatches data i s2 = true := by
  rw [signatureMatches_iff] at hm ⊢
  obtain ⟨h1, h2, h3⟩ := hm
  have hlen : s2.Header.length ≤ s1.Header.length := hh.length_le
  have hpre1 : s1.Header <+: data.drop i := List.prefix_iff_eq_take.mpr h2.symm
  have hpre2 : s2.Header <+: data.drop i := hh.trans hpre1
  refine ⟨by omega, (List.prefix_iff_eq_take.mp hpre2).symm, ?_⟩
  rcases hc with hc | hc
  · exact Or.inl hc
  · rcases h3 with h3 | h3
    · rw [h3] at hc
      exact Or.inl (List.infix_nil.mp hc)
    · right
      refine (hc.trans h3).trans (List.IsSuffix.isInfix ?_)
      have : i + s1.Header.length =
          (i + s2.Header.length) + (s1.Header.length - s2.Header.length) := by omega
      rw [this, ← List.drop_drop]
      exact List.drop_suffix _ _

theorem carve_accompanied (sigs : List Signature) (e1 e2 : String)
    (h : ∀ s1 ∈ sigs, s1.Extension = e1 → ∃ s2 ∈ sigs, s2.Extension = e2 ∧
      s2.Header <+: s1.Header ∧ (s2.Contains = [] ∨ s2.Contains <:+: s1.Contains))
    (data p : List Nat) (hp : (e1, p) ∈ carve sigs data) : (e2, p) ∈ carve sigs data := by
  obtain ⟨i, s1, hi, hs1, hm, heq⟩ := (mem_carve_iff sigs data _).mp hp
  simp only [Prod.mk.injEq] at heq
  obtain ⟨s2, hs2, he2, hh, hc⟩ := h s1 hs1 heq.1.symm
  rw [mem_carve_iff]
  exact ⟨i, s2, hi, hs2, signatureMatches_subsumed data i s1 s2 hh hc hm, by
    simp [he2, heq.2]⟩

theorem signatures_subsumption_pairs :
    ∀ pr ∈ [("EXE", "DLL"), ("DLL", "EXE"), ("OCX", "EXE"), ("OCX", "DLL"), ("DOCX", "ZIP"),
        ("XLSX", "ZIP"), ("PPTX", "ZIP"), ("ODT", "ZIP"), ("EPUB", "ZIP"), ("HEIC", "MP4"),
        ("AVIF", "MP4"), ("M4A", "MP4"), ("MOV", "MP4"), ("3GP", "MP4")],
      ∀ s1 ∈ signatures, s1.Extension = pr.1 → ∃ s2 ∈ signatures, s2.Extension = pr.2 ∧
        s2.Header <+: s1.Header ∧ (s2.Contains = [] ∨ s2.Contains <:+: s1.Contains) := by
  decide

/-- C20: when `s2.Header` is a prefix of `s1.Header` and `s2.Contains` is empty or a contiguous
subsequence of `s1.Contains`, every buffer and offset at which `s1` matches gives an `s2`
artifact with the same payload.  With the compiled-in registry every EXE artifact comes with a
DLL artifact of the same payload and conversely, every OCX artifact with both, every DOCX,
XLSX, PPTX, ODT or EPUB artifact with a ZIP artifact, and every HEIC, AVIF, M4A, MOV or 3GP
artifact with an MP4 artifact. -/
theorem carve_subsumption (sigs : List Signature) (s1 s2 : Signature) (data : List Nat)
    (i : Nat) (h1 : s1 ∈ sigs) (h2 : s2 ∈ sigs) (hh : s2.Header <+: s1.Header)
    (hc : s2.Contains = [] ∨ s2.Contains <:+: s1.Contains) (hi : i < data.length)
    (hm : signatureMatches data i s1 = true) :
    ((s1.Extension, data.drop i) ∈ carve sigs data ∧
      (s2.Extension, data.drop i) ∈ carve sigs data) ∧
    ∀ pr ∈ [("EXE", "DLL"), ("DLL", "EXE"), ("OCX", "EXE"), ("OCX", "DLL"), ("DOCX", "ZIP"),
        ("XLSX", "ZIP"), ("PPTX", "ZIP"), ("ODT", "ZIP"), ("EPUB", "ZIP"), ("HEIC", "MP4"),
        ("AVIF", "MP4"), ("M4A", "MP4"), ("MOV", "MP4"), ("3GP", "MP4")],
      ∀ buffer p : List Nat, (pr.1, p) ∈ carve signatures buffer →
        (pr.2, p) ∈ carve signatures buffer := by
  refine ⟨⟨mem_carve hi h1 hm,
    mem_carve hi h2 (signatureMatches_subsumed data i s1 s2 hh hc hm)⟩, ?_⟩
  intro pr hpr buffer p hp
  exact carve_accompanied signatures pr.1 pr.2 (signatures_subsumption_pairs pr hpr) buffer p hp

/-- Witness of C20: OCX and EXE on the buffer `MZ DllRegisterServer`. -/
theorem carve_subsumption_witness :
    ((("OCX", List.drop 0 ([77, 90] ++ [68, 108, 108, 82, 101, 103, 105, 115, 116, 101, 114,
        83, 101, 114, 118, 101, 114])) : Artifact) ∈
        carve signatures ([77, 90] ++ [68, 108, 108, 82, 101, 103, 105, 115, 116, 101, 114,
          83, 101, 114, 118, 101, 114]) ∧
      (("EXE", List.drop 0 ([77, 90] ++ [68, 108, 108, 82, 101, 103, 105, 115, 116, 101, 114,
        83, 101, 114, 118, 101, 114])) : Artifact) ∈
        carve signatures ([77, 90] ++ [68, 108, 108, 82, 101, 103, 105, 115, 116, 101, 114,
          83, 101, 114, 118, 101, 114])) ∧
    ∀ pr ∈ [("EXE", "DLL"), ("DLL", "EXE"), ("OCX", "EXE"), ("OCX", "DLL"), ("DOCX", "ZIP"),
        ("XLSX", "ZIP"), ("PPTX", "ZIP"), ("ODT", "ZIP"), ("EPUB", "ZIP"), ("HEIC", "MP4"),
        ("AVIF", "MP4"), ("M4A", "MP4"), ("MOV", "MP4"), ("3GP", "MP4")],
      ∀ buffer p : List Nat, (pr.1, p) ∈ carve signatures buffer →
        (pr.2, p) ∈ carve signatures buffer :=
  carve_subsumption signatures
    ⟨"OCX", [77, 90], [68, 108, 108, 82, 101, 103, 105, 115, 116, 101, 114, 83, 101, 114, 118,
      101, 114]⟩
    ⟨"EXE", [77, 90], []⟩
    ([77, 90] ++ [68, 108, 108, 82, 101, 103, 105, 115, 116, 101, 114, 83, 101, 114, 118, 101,
      114]) 0 (by decide) (by decide) (by decide) (by decide) (by decide) (by decide)

end ProCHK
